import Mathlib

/-!
# Nuvoton NPCM JTAG master driver: TAP state machine and scan engine

A shallow embedding of `drivers/misc/nuvoton-jtag/jtag_drv.c`.  Machine
integers are natural numbers; the enumeration `JtagStates` is represented by
its numeric values, in the column order of the transition table.
-/

namespace NpcmJtag

/-! ## TAP states (`enum JtagStates`) -/

/-- Modelled from the spec: `enum JtagStates` is declared in `jtag_drv.h`,
which is not among the sources.  Its 16 states are numbered in the order of
section 4.1, which is the order of the rows and columns of `_tmsCycleLookup`,
and `JTAG_STATE_CURRENT` follows them. -/
def JtagTLR : Nat := 0
def JtagRTI : Nat := 1
def JtagSelDR : Nat := 2
def JtagCapDR : Nat := 3
def JtagShfDR : Nat := 4
def JtagEx1DR : Nat := 5
def JtagPauDR : Nat := 6
def JtagEx2DR : Nat := 7
def JtagUpdDR : Nat := 8
def JtagSelIR : Nat := 9
def JtagCapIR : Nat := 10
def JtagShfIR : Nat := 11
def JtagEx1IR : Nat := 12
def JtagPauIR : Nat := 13
def JtagEx2IR : Nat := 14
def JtagUpdIR : Nat := 15
def JTAG_STATE_CURRENT : Nat := 16

/-- The IEEE 1149.1 TAP graph as listed in section 4.1 of the specification:
the successor of state `s` on a clock edge with the given TMS level.  Values
that are not one of the 16 states have no edges and stay where they are. -/
def tapNext (s : Nat) (tms : Bool) : Nat :=
  match s, tms with
  | 0, false => JtagRTI    | 0, true => JtagTLR
  | 1, false => JtagRTI    | 1, true => JtagSelDR
  | 2, false => JtagCapDR  | 2, true => JtagSelIR
  | 3, false => JtagShfDR  | 3, true => JtagEx1DR
  | 4, false => JtagShfDR  | 4, true => JtagEx1DR
  | 5, false => JtagPauDR  | 5, true => JtagUpdDR
  | 6, false => JtagPauDR  | 6, true => JtagEx2DR
  | 7, false => JtagShfDR  | 7, true => JtagUpdDR
  | 8, false => JtagRTI    | 8, true => JtagSelDR
  | 9, false => JtagCapIR  | 9, true => JtagTLR
  | 10, false => JtagShfIR | 10, true => JtagEx1IR
  | 11, false => JtagShfIR | 11, true => JtagEx1IR
  | 12, false => JtagPauIR | 12, true => JtagUpdIR
  | 13, false => JtagPauIR | 13, true => JtagEx2IR
  | 14, false => JtagShfIR | 14, true => JtagUpdIR
  | 15, false => JtagRTI   | 15, true => JtagSelDR
  | s, _ => s

/-- Follow the graph along a sequence of TMS levels, first element first. -/
def tapWalk (s : Nat) : List Bool → Nat
  | [] => s
  | tms :: rest => tapWalk (tapNext s tms) rest

/-- Whether some sequence of exactly `k` TMS levels leads from `s` to `t`. -/
def tapReach : Nat → Nat → Nat → Bool
  | 0, s, t => s == t
  | k + 1, s, t => tapReach k (tapNext s false) t || tapReach k (tapNext s true) t

/-! ## The TMS transition table -/

/-- `struct TmsCycle`: a set of TMS bits and a count of bits. -/
structure TmsCycle where
  tmsbits : Nat
  count : Nat
  deriving DecidableEq, Repr

/-- The table `_tmsCycleLookup[][16]`, row = from state, column = to state. -/
def _tmsCycleLookup : List (List TmsCycle) :=
  [ /- TLR -/
    [⟨0x01, 1⟩, ⟨0x00, 1⟩, ⟨0x02, 2⟩, ⟨0x02, 3⟩, ⟨0x02, 4⟩,
     ⟨0x0a, 4⟩, ⟨0x0a, 5⟩, ⟨0x2a, 6⟩, ⟨0x1a, 5⟩, ⟨0x06, 3⟩,
     ⟨0x06, 4⟩, ⟨0x06, 5⟩, ⟨0x16, 5⟩, ⟨0x16, 6⟩, ⟨0x56, 7⟩,
     ⟨0x36, 6⟩],
    /- RTI -/
    [⟨0x07, 3⟩, ⟨0x00, 1⟩, ⟨0x01, 1⟩, ⟨0x01, 2⟩, ⟨0x01, 3⟩,
     ⟨0x05, 3⟩, ⟨0x05, 4⟩, ⟨0x15, 5⟩, ⟨0x0d, 4⟩, ⟨0x03, 2⟩,
     ⟨0x03, 3⟩, ⟨0x03, 4⟩, ⟨0x0b, 4⟩, ⟨0x0b, 5⟩, ⟨0x2b, 6⟩,
     ⟨0x1b, 5⟩],
    /- SelDR -/
    [⟨0x03, 2⟩, ⟨0x03, 3⟩, ⟨0x00, 0⟩, ⟨0x00, 1⟩, ⟨0x00, 2⟩,
     ⟨0x02, 2⟩, ⟨0x02, 3⟩, ⟨0x0a, 4⟩, ⟨0x06, 3⟩, ⟨0x01, 1⟩,
     ⟨0x01, 2⟩, ⟨0x01, 3⟩, ⟨0x05, 3⟩, ⟨0x05, 4⟩, ⟨0x15, 5⟩,
     ⟨0x0d, 4⟩],
    /- CapDR -/
    [⟨0x1f, 5⟩, ⟨0x03, 3⟩, ⟨0x07, 3⟩, ⟨0x00, 0⟩, ⟨0x00, 1⟩,
     ⟨0x01, 1⟩, ⟨0x01, 2⟩, ⟨0x05, 3⟩, ⟨0x03, 2⟩, ⟨0x0f, 4⟩,
     ⟨0x0f, 5⟩, ⟨0x0f, 6⟩, ⟨0x2f, 6⟩, ⟨0x2f, 7⟩, ⟨0xaf, 8⟩,
     ⟨0x6f, 7⟩],
    /- SDR -/
    [⟨0x1f, 5⟩, ⟨0x03, 3⟩, ⟨0x07, 3⟩, ⟨0x07, 4⟩, ⟨0x00, 0⟩,
     ⟨0x01, 1⟩, ⟨0x01, 2⟩, ⟨0x05, 3⟩, ⟨0x03, 2⟩, ⟨0x0f, 4⟩,
     ⟨0x0f, 5⟩, ⟨0x0f, 6⟩, ⟨0x2f, 6⟩, ⟨0x2f, 7⟩, ⟨0xaf, 8⟩,
     ⟨0x6f, 7⟩],
    /- Ex1DR -/
    [⟨0x0f, 4⟩, ⟨0x01, 2⟩, ⟨0x03, 2⟩, ⟨0x03, 3⟩, ⟨0x02, 3⟩,
     ⟨0x00, 0⟩, ⟨0x00, 1⟩, ⟨0x02, 2⟩, ⟨0x01, 1⟩, ⟨0x07, 3⟩,
     ⟨0x07, 4⟩, ⟨0x07, 5⟩, ⟨0x17, 5⟩, ⟨0x17, 6⟩, ⟨0x57, 7⟩,
     ⟨0x37, 6⟩],
    /- PDR -/
    [⟨0x1f, 5⟩, ⟨0x03, 3⟩, ⟨0x07, 3⟩, ⟨0x07, 4⟩, ⟨0x01, 2⟩,
     ⟨0x05, 3⟩, ⟨0x00, 1⟩, ⟨0x01, 1⟩, ⟨0x03, 2⟩, ⟨0x0f, 4⟩,
     ⟨0x0f, 5⟩, ⟨0x0f, 6⟩, ⟨0x2f, 6⟩, ⟨0x2f, 7⟩, ⟨0xaf, 8⟩,
     ⟨0x6f, 7⟩],
    /- Ex2DR -/
    [⟨0x0f, 4⟩, ⟨0x01, 2⟩, ⟨0x03, 2⟩, ⟨0x03, 3⟩, ⟨0x00, 1⟩,
     ⟨0x02, 2⟩, ⟨0x02, 3⟩, ⟨0x00, 0⟩, ⟨0x01, 1⟩, ⟨0x07, 3⟩,
     ⟨0x07, 4⟩, ⟨0x07, 5⟩, ⟨0x17, 5⟩, ⟨0x17, 6⟩, ⟨0x57, 7⟩,
     ⟨0x37, 6⟩],
    /- UpdDR -/
    [⟨0x07, 3⟩, ⟨0x00, 1⟩, ⟨0x01, 1⟩, ⟨0x01, 2⟩, ⟨0x01, 3⟩,
     ⟨0x05, 3⟩, ⟨0x05, 4⟩, ⟨0x15, 5⟩, ⟨0x00, 0⟩, ⟨0x03, 2⟩,
     ⟨0x03, 3⟩, ⟨0x03, 4⟩, ⟨0x0b, 4⟩, ⟨0x0b, 5⟩, ⟨0x2b, 6⟩,
     ⟨0x1b, 5⟩],
    /- SelIR -/
    [⟨0x01, 1⟩, ⟨0x01, 2⟩, ⟨0x05, 3⟩, ⟨0x05, 4⟩, ⟨0x05, 5⟩,
     ⟨0x15, 5⟩, ⟨0x15, 6⟩, ⟨0x55, 7⟩, ⟨0x35, 6⟩, ⟨0x00, 0⟩,
     ⟨0x00, 1⟩, ⟨0x00, 2⟩, ⟨0x02, 2⟩, ⟨0x02, 3⟩, ⟨0x0a, 4⟩,
     ⟨0x06, 3⟩],
    /- CapIR -/
    [⟨0x1f, 5⟩, ⟨0x03, 3⟩, ⟨0x07, 3⟩, ⟨0x07, 4⟩, ⟨0x07, 5⟩,
     ⟨0x17, 5⟩, ⟨0x17, 6⟩, ⟨0x57, 7⟩, ⟨0x37, 6⟩, ⟨0x0f, 4⟩,
     ⟨0x00, 0⟩, ⟨0x00, 1⟩, ⟨0x01, 1⟩, ⟨0x01, 2⟩, ⟨0x05, 3⟩,
     ⟨0x03, 2⟩],
    /- SIR -/
    [⟨0x1f, 5⟩, ⟨0x03, 3⟩, ⟨0x07, 3⟩, ⟨0x07, 4⟩, ⟨0x07, 5⟩,
     ⟨0x17, 5⟩, ⟨0x17, 6⟩, ⟨0x57, 7⟩, ⟨0x37, 6⟩, ⟨0x0f, 4⟩,
     ⟨0x0f, 5⟩, ⟨0x00, 0⟩, ⟨0x01, 1⟩, ⟨0x01, 2⟩, ⟨0x05, 3⟩,
     ⟨0x03, 2⟩],
    /- Ex1IR -/
    [⟨0x0f, 4⟩, ⟨0x01, 2⟩, ⟨0x03, 2⟩, ⟨0x03, 3⟩, ⟨0x03, 4⟩,
     ⟨0x0b, 4⟩, ⟨0x0b, 5⟩, ⟨0x2b, 6⟩, ⟨0x1b, 5⟩, ⟨0x07, 3⟩,
     ⟨0x07, 4⟩, ⟨0x02, 3⟩, ⟨0x00, 0⟩, ⟨0x00, 1⟩, ⟨0x02, 2⟩,
     ⟨0x01, 1⟩],
    /- PIR -/
    [⟨0x1f, 5⟩, ⟨0x03, 3⟩, ⟨0x07, 3⟩, ⟨0x07, 4⟩, ⟨0x07, 5⟩,
     ⟨0x17, 5⟩, ⟨0x17, 6⟩, ⟨0x57, 7⟩, ⟨0x37, 6⟩, ⟨0x0f, 4⟩,
     ⟨0x0f, 5⟩, ⟨0x01, 2⟩, ⟨0x05, 3⟩, ⟨0x00, 1⟩, ⟨0x01, 1⟩,
     ⟨0x03, 2⟩],
    /- Ex2IR -/
    [⟨0x0f, 4⟩, ⟨0x01, 2⟩, ⟨0x03, 2⟩, ⟨0x03, 3⟩, ⟨0x03, 4⟩,
     ⟨0x0b, 4⟩, ⟨0x0b, 5⟩, ⟨0x2b, 6⟩, ⟨0x1b, 5⟩, ⟨0x07, 3⟩,
     ⟨0x07, 4⟩, ⟨0x00, 1⟩, ⟨0x02, 2⟩, ⟨0x02, 3⟩, ⟨0x00, 0⟩,
     ⟨0x01, 1⟩],
    /- UpdIR -/
    [⟨0x07, 3⟩, ⟨0x00, 1⟩, ⟨0x01, 1⟩, ⟨0x01, 2⟩, ⟨0x01, 3⟩,
     ⟨0x05, 3⟩, ⟨0x05, 4⟩, ⟨0x15, 5⟩, ⟨0x0d, 4⟩, ⟨0x03, 2⟩,
     ⟨0x03, 3⟩, ⟨0x03, 4⟩, ⟨0x0b, 4⟩, ⟨0x0b, 5⟩, ⟨0x2b, 6⟩,
     ⟨0x00, 0⟩] ]

/-- The table as it lies in memory: 256 consecutive `TmsCycle` cells. -/
def tmsCycleCells : List TmsCycle := _tmsCycleLookup.flatten

/-- The C expression `_tmsCycleLookup[from][to]`: the cell at flat index
`from * 16 + to`.  `past` stands for whatever memory follows the table; it is
consulted only when the flat index leaves the 256 cells. -/
def tmsCycleAt (past : Nat → TmsCycle) (frm dst : Nat) : TmsCycle :=
  match tmsCycleCells.get? (frm * 16 + dst) with
  | some c => c
  | none => past (frm * 16 + dst - 256)

/-- The TMS arguments that the clocking loop of `npcm_jtag_set_tapstate`
passes to `TCK_Cycle` in `count` iterations: `tmsbits & 1`, then
`tmsbits >>= 1`. -/
def tmsArgs (tmsbits : Nat) : Nat → List Nat
  | 0 => []
  | n + 1 => (tmsbits &&& 1) :: tmsArgs (tmsbits >>> 1) n

/-- The same sequence as levels of the TMS line. -/
def tmsLevels (tmsbits count : Nat) : List Bool :=
  (tmsArgs tmsbits count).map (fun v => v != 0)

/-! ## Hardware accesses and driver state -/

/-- Modelled from the spec: the four JTAG signal lines, the indices
`pin_TCK`, `pin_TDI`, `pin_TDO`, `pin_TMS` of `jtag->pins[]` that `jtag_drv.h`
declares. -/
inductive Pin
  | TCK | TDI | TDO | TMS
  deriving DecidableEq, Repr

/-- PSPI register offsets. -/
def PSPI_DATA : Nat := 0x00
def PSPI_CTL1 : Nat := 0x02
def PSPI_STAT : Nat := 0x04

def PSPI_CTL1_SCDV6_0 : Nat := 9
def PSPI_CTL1_SCIDL : Nat := 8
def PSPI_CTL1_SCM : Nat := 7
def PSPI_CTL1_EIW : Nat := 6
def PSPI_CTL1_EIR : Nat := 5
def PSPI_CTL1_SPIEN : Nat := 0

def PSPI_STAT_RBF : Nat := 1
def PSPI_STAT_BSY : Nat := 0

def BIT_MODE_8 : Nat := 1
def BIT_MODE_16 : Nat := 2

def MODE_PSPI : Nat := 0
def MODE_GPIO : Nat := 1
def GPIOCTRL_DIRECT : Nat := 0
def GPIOCTRL_API : Nat := 1

def EINVAL : Int := 22
def EBUSY : Int := 16
def ETIMEDOUT : Int := 110

def PSPI1 : Nat := 1
def PSPI2 : Nat := 2
def MFSEL3_OFFSET : Nat := 0x064
def PSPI1SEL_OFFSET : Nat := 3
def PSPI1SEL_MASK : Nat := 3
def PSPI1SEL_GPIO : Nat := 0
def PSPI1SEL_PSPI : Nat := 2
def PSPI2SEL_OFFSET : Nat := 13
def PSPI2SEL_MASK : Nat := 1
def PSPI2SEL_GPIO : Nat := 0
def PSPI2SEL_PSPI : Nat := 1

/-- The nibble table `reverse[16]`. -/
def reverse : List Nat :=
  [0x0, 0x8, 0x4, 0xC, 0x2, 0xA, 0x6, 0xE,
   0x1, 0x9, 0x5, 0xD, 0x3, 0xB, 0x7, 0xF]

/-- The macro `REVERSE(x)`. -/
def REVERSE (x : Nat) : Nat :=
  (reverse.getD (x &&& 0x0f) 0 <<< 4) ||| reverse.getD ((x &&& 0xf0) >>> 4) 0

/-- The kernel tick rate, a build-time constant of the kernel. -/
def HZ : Nat := 100

/-- `msecs_to_jiffies`, rounding up. -/
def msecs_to_jiffies (m : Nat) : Nat := (m * HZ + 999) / 1000

/-- One access of the driver to the world outside its own memory, in the
order the code performs them.  `cycle` records a call of `TCK_Cycle` with its
arguments; the accesses the call makes follow it.  `time_after` records a
check `time_after(jiffies, timeout)` that came out true, `irq` an invocation
of the interrupt handler, `complete` a call of `complete`. -/
inductive Event
  | cycle (no_tdo TMS TDI : Nat)
  | set_gpio (pin : Pin) (value : Nat)
  | get_gpio (pin : Pin) (value : Nat)
  | gpiod_set_value (pin : Pin) (value : Nat)
  | gpiod_get_value (pin : Pin) (value : Nat)
  | readb (reg value : Nat)
  | readw (reg value : Nat)
  | writeb (reg value : Nat)
  | writew (reg value : Nat)
  | regmap_update_bits (reg mask val : Nat)
  | jiffies (value : Nat)
  | time_after
  | irq
  | complete
  deriving DecidableEq, Repr

/-- The world outside the driver: the value that the next read of a pin, of
a PSPI register or of the tick counter returns, given every access made so
far. -/
structure Env where
  pin : Pin → List Event → Nat
  reg : Nat → List Event → Nat
  jiffies : List Event → Nat

/-- `struct npcm_pspi`.  The two buffer pointers are offsets into the memory
regions `tx_mem` and `rx_mem`; `xfer_done` is the state of the completion. -/
structure npcm_pspi where
  apb_clk_rate : Nat
  enable_irq : Bool
  mode : Nat
  tx_mem : Nat → Nat
  rx_mem : Nat → Nat
  tx_buf : Nat
  rx_buf : Nat
  tx_bytes : Nat
  rx_bytes : Nat
  xfer_done : Bool

/-- `struct jtag_info`, together with the accesses made so far (`log`). -/
structure jtag_info where
  pspi : npcm_pspi
  freq : Nat
  controller : Nat
  tms_level : Nat
  tapstate : Nat
  is_open : Bool
  mode : Nat
  gpio_ctrl : Nat
  log : List Event

/-- Append one access to the log. -/
def jtag_info.emit (jtag : jtag_info) (e : Event) : jtag_info :=
  { jtag with log := jtag.log ++ [e] }

/-- `set_gpio`: a write to the data-out-set or data-out-clear register. -/
def set_gpio (jtag : jtag_info) (pin : Pin) (value : Nat) : jtag_info :=
  jtag.emit (.set_gpio pin (if value ≠ 0 then 1 else 0))

/-- `get_gpio`: the level of the pin's bit in the data register. -/
def get_gpio (env : Env) (jtag : jtag_info) (pin : Pin) : Nat × jtag_info :=
  let value := if env.pin pin jtag.log ≠ 0 then 1 else 0
  (value, jtag.emit (.get_gpio pin value))

def gpiod_set_value (jtag : jtag_info) (pin : Pin) (value : Nat) : jtag_info :=
  jtag.emit (.gpiod_set_value pin value)

def gpiod_get_value (env : Env) (jtag : jtag_info) (pin : Pin) : Nat × jtag_info :=
  let value := env.pin pin jtag.log
  (value, jtag.emit (.gpiod_get_value pin value))

/-- `TCK_Cycle`: one clock cycle; returns the sampled TDO as a `u8`. -/
def TCK_Cycle (env : Env) (jtag : jtag_info) (no_tdo TMS TDI : Nat) :
    Nat × jtag_info :=
  let jtag := jtag.emit (.cycle no_tdo TMS TDI)
  if jtag.gpio_ctrl = GPIOCTRL_DIRECT then
    let jtag := set_gpio jtag .TDI TDI
    let jtag :=
      if jtag.tms_level ≠ TMS then
        { set_gpio jtag .TMS TMS with tms_level := TMS }
      else jtag
    let jtag := set_gpio jtag .TCK 1
    let r := if no_tdo = 0 then get_gpio env jtag .TDO else (0, jtag)
    let jtag := set_gpio r.2 .TCK 0
    (r.1 % 256, jtag)
  else
    let jtag := gpiod_set_value jtag .TDI TDI
    let jtag :=
      if jtag.tms_level ≠ TMS then
        { gpiod_set_value jtag .TMS TMS with tms_level := TMS }
      else jtag
    let jtag := gpiod_set_value jtag .TCK 1
    let r := if no_tdo = 0 then gpiod_get_value env jtag .TDO else (0, jtag)
    let jtag := gpiod_set_value r.2 .TCK 0
    (r.1 % 256, jtag)

/-- The loop `for (i = 0; i < 9; i++) TCK_Cycle(jtag, 1, 1, 0);`, with `n`
iterations left. -/
def tlr_loop (env : Env) : Nat → jtag_info → jtag_info
  | 0, jtag => jtag
  | n + 1, jtag => tlr_loop env n (TCK_Cycle env jtag 1 1 0).2

/-- The loop `for (i = 0; i < count; i++) { TCK_Cycle(jtag, 1, (tmsbits & 1), 0);
tmsbits >>= 1; }`, with `n` iterations left. -/
def tms_loop (env : Env) : Nat → Nat → jtag_info → jtag_info
  | 0, _, jtag => jtag
  | n + 1, tmsbits, jtag =>
      tms_loop env n (tmsbits >>> 1) (TCK_Cycle env jtag 1 (tmsbits &&& 1) 0).2

/-- `npcm_jtag_set_tapstate`.  `past` is the memory behind the table. -/
def npcm_jtag_set_tapstate (env : Env) (past : Nat → TmsCycle) (jtag : jtag_info)
    (from_state end_state : Nat) : Int × jtag_info :=
  let frm := if from_state = JTAG_STATE_CURRENT then jtag.tapstate else from_state
  let dst := end_state
  if frm > JTAG_STATE_CURRENT ∨ dst > JTAG_STATE_CURRENT then
    (-1, jtag)
  else if dst = JtagTLR then
    (0, { tlr_loop env 9 jtag with tapstate := JtagTLR })
  else
    let tmsbits := (tmsCycleAt past frm dst).tmsbits
    let count := (tmsCycleAt past frm dst).count
    if count = 0 then
      (0, jtag)
    else
      (0, { tms_loop env count tmsbits jtag with tapstate := dst })

/-- Modelled from the spec: `struct jtag_tap_state` of `jtag_drv.h`, the
argument of the `JTAG_SIOCSTATE` command, with the fields that `jtag_ioctl`
reads (`frm` is the field `from`). -/
structure jtag_tap_state where
  frm : Nat
  endstate : Nat
  reset : Nat

/-- Modelled from the spec: `JTAG_FORCE_RESET` of `jtag_drv.h`, the value of
the `reset` field that asks for the forced reset. -/
def JTAG_FORCE_RESET : Nat := 1

/-- The `JTAG_SIOCSTATE` case of `jtag_ioctl`, after the argument has been
copied in. -/
def jtag_ioctl_SIOCSTATE (env : Env) (past : Nat → TmsCycle) (priv : jtag_info)
    (tapstate : jtag_tap_state) : Int × jtag_info :=
  if tapstate.frm > JTAG_STATE_CURRENT then (-EINVAL, priv)
  else if tapstate.endstate > JTAG_STATE_CURRENT then (-EINVAL, priv)
  else if tapstate.reset > JTAG_FORCE_RESET then (-EINVAL, priv)
  else
    let priv :=
      if tapstate.reset = JTAG_FORCE_RESET then
        (npcm_jtag_set_tapstate env past priv JTAG_STATE_CURRENT JtagTLR).2
      else priv
    let priv := (npcm_jtag_set_tapstate env past priv tapstate.frm tapstate.endstate).2
    (0, priv)

/-- The calls of `TCK_Cycle` recorded in a log, as `(no_tdo, TMS, TDI)`. -/
def cyclesOf : List Event → List (Nat × Nat × Nat)
  | [] => []
  | .cycle no_tdo TMS TDI :: rest => (no_tdo, TMS, TDI) :: cyclesOf rest
  | _ :: rest => cyclesOf rest

/-- A TMS argument of `TCK_Cycle` as the level the TAP sees. -/
def tmsLevel (c : Nat × Nat × Nat) : Bool := c.2.1 != 0

/-- The TDO levels sampled in a log, in order. -/
def tdoSamples : List Event → List Nat
  | [] => []
  | .get_gpio .TDO v :: rest => v :: tdoSamples rest
  | .gpiod_get_value .TDO v :: rest => v :: tdoSamples rest
  | _ :: rest => tdoSamples rest


/-! ## The hardware shift channel -/

/-- The ways in which a call can fail to return to its caller. -/
inductive Fault
  | out_of_fuel
  | division_by_zero
  deriving DecidableEq, Repr

def readb (env : Env) (jtag : jtag_info) (reg : Nat) : Nat × jtag_info :=
  let value := env.reg reg jtag.log % 256
  (value, jtag.emit (.readb reg value))

def readw (env : Env) (jtag : jtag_info) (reg : Nat) : Nat × jtag_info :=
  let value := env.reg reg jtag.log % 65536
  (value, jtag.emit (.readw reg value))

def writeb (jtag : jtag_info) (reg value : Nat) : jtag_info :=
  jtag.emit (.writeb reg (value % 256))

def writew (jtag : jtag_info) (reg value : Nat) : jtag_info :=
  jtag.emit (.writew reg (value % 65536))

/-- A read of the tick counter `jiffies`. -/
def read_jiffies (env : Env) (jtag : jtag_info) : Nat × jtag_info :=
  let value := env.jiffies jtag.log
  (value, jtag.emit (.jiffies value))

/-- `npcm_jtag_config_pins`: configure jtag pins (except TMS) function. -/
def npcm_jtag_config_pins (jtag : jtag_info) (sel_pspi : Nat) : jtag_info :=
  if jtag.controller = PSPI1 then
    let val := if sel_pspi ≠ 0 then PSPI1SEL_PSPI else PSPI1SEL_GPIO
    jtag.emit (.regmap_update_bits MFSEL3_OFFSET (PSPI1SEL_MASK <<< PSPI1SEL_OFFSET)
      (val <<< PSPI1SEL_OFFSET))
  else if jtag.controller = PSPI2 then
    let val := if sel_pspi ≠ 0 then PSPI2SEL_PSPI else PSPI2SEL_GPIO
    jtag.emit (.regmap_update_bits MFSEL3_OFFSET (PSPI2SEL_MASK <<< PSPI2SEL_OFFSET)
      (val <<< PSPI2SEL_OFFSET))
  else jtag

/-- The bits of a 16-bit register value outside `mask`: `v & ~mask`. -/
def clear_bits (v mask : Nat) : Nat := v &&& (0xFFFF ^^^ mask)

/-- The disable branch of `jtag_switch_pspi`. -/
def jtag_switch_pspi_off (env : Env) (jtag : jtag_info) : jtag_info :=
  let r := readw env jtag PSPI_CTL1
  let jtag := writew r.2 PSPI_CTL1 (clear_bits r.1 (1 <<< PSPI_CTL1_SPIEN))
  let jtag := npcm_jtag_config_pins jtag 0
  let r := gpiod_get_value env jtag .TMS
  { r.2 with tms_level := r.1 % 256 }

/-- `jtag_switch_pspi`.  The division by `2 * jtag->freq` is a `u32`
division; with a zero divisor the call does not return. -/
def jtag_switch_pspi (env : Env) (jtag : jtag_info) (enable : Bool) :
    Except Fault jtag_info :=
  if enable then
    if 2 * jtag.freq % 2 ^ 32 = 0 then .error .division_by_zero
    else
      let divisor : Int := ((jtag.pspi.apb_clk_rate / (2 * jtag.freq % 2 ^ 32) : Nat) : Int) - 1
      if divisor ≤ 0 then .ok jtag
      else
        /- disable -/
        let r := readw env jtag PSPI_CTL1
        let jtag := writew r.2 PSPI_CTL1 (clear_bits r.1 (1 <<< PSPI_CTL1_SPIEN))
        /- configure pin function to pspi -/
        let jtag := npcm_jtag_config_pins jtag 1
        /- configure Shift Clock Divider value -/
        let r := readw env jtag PSPI_CTL1
        let jtag := writew r.2 PSPI_CTL1
          (clear_bits r.1 (0x7f <<< PSPI_CTL1_SCDV6_0) ||| (divisor.toNat <<< PSPI_CTL1_SCDV6_0))
        /- configure TCK to be low when idle -/
        let r := readw env jtag PSPI_CTL1
        let jtag := writew r.2 PSPI_CTL1 (clear_bits r.1 (1 <<< PSPI_CTL1_SCIDL))
        /- TDI is shifted out on the falling edge, TDO is sampled on the rising edge -/
        let r := readw env jtag PSPI_CTL1
        let jtag := writew r.2 PSPI_CTL1 (clear_bits r.1 (1 <<< PSPI_CTL1_SCM))
        /- set 16 bit mode and enable pspi -/
        let r := readw env jtag PSPI_CTL1
        let jtag := writew r.2 PSPI_CTL1 (r.1 ||| (1 <<< PSPI_CTL1_SPIEN) ||| (1 <<< 2))
        let r := readb env jtag PSPI_STAT
        if r.1 &&& (1 <<< PSPI_STAT_RBF) ≠ 0 then
          .ok (readw env r.2 PSPI_STAT).2
        else .ok r.2
  else .ok (jtag_switch_pspi_off env jtag)

/-- `pspi_send`. -/
def pspi_send (env : Env) (jtag : jtag_info) : Int × jtag_info :=
  let bytes := jtag.pspi.mode
  if jtag.pspi.tx_bytes < bytes then (-EINVAL, jtag)
  else
    let r := readb env jtag PSPI_STAT
    if r.1 &&& PSPI_STAT_BSY ≠ 0 then (-EBUSY, r.2)
    else
      let jtag := r.2
      let jtag := { jtag with pspi := { jtag.pspi with tx_bytes := jtag.pspi.tx_bytes - bytes } }
      if jtag.pspi.mode = BIT_MODE_8 then
        let jtag := writeb jtag PSPI_DATA (REVERSE (jtag.pspi.tx_mem jtag.pspi.tx_buf))
        (0, { jtag with pspi := { jtag.pspi with tx_buf := jtag.pspi.tx_buf + 1 } })
      else
        let jtag := writew jtag PSPI_DATA
          ((REVERSE (jtag.pspi.tx_mem jtag.pspi.tx_buf) <<< 8) |||
            REVERSE (jtag.pspi.tx_mem (jtag.pspi.tx_buf + 1)))
        (0, { jtag with pspi := { jtag.pspi with tx_buf := jtag.pspi.tx_buf + 2 } })

/-- `pspi_recv`. -/
def pspi_recv (env : Env) (jtag : jtag_info) : Int × jtag_info :=
  let bytes := jtag.pspi.mode
  if jtag.pspi.rx_bytes < bytes then (-EINVAL, jtag)
  else
    let jtag := { jtag with pspi := { jtag.pspi with rx_bytes := jtag.pspi.rx_bytes - bytes } }
    if jtag.pspi.mode = BIT_MODE_8 then
      let r := readb env jtag PSPI_DATA
      let jtag := r.2
      (0, { jtag with pspi := { jtag.pspi with
              rx_mem := Function.update jtag.pspi.rx_mem jtag.pspi.rx_buf (REVERSE r.1),
              rx_buf := jtag.pspi.rx_buf + 1 } })
    else
      let r := readw env jtag PSPI_DATA
      let jtag := r.2
      (0, { jtag with pspi := { jtag.pspi with
              rx_mem := Function.update
                (Function.update jtag.pspi.rx_mem jtag.pspi.rx_buf (REVERSE ((r.1 >>> 8) &&& 0xff)))
                (jtag.pspi.rx_buf + 1) (REVERSE (r.1 &&& 0xff)),
              rx_buf := jtag.pspi.rx_buf + 2 } })

/-- `complete(&priv->xfer_done)`. -/
def complete (jtag : jtag_info) : jtag_info :=
  { jtag.emit .complete with pspi := { jtag.pspi with xfer_done := true } }

/-- `pspi_irq_handler`: one invocation. -/
def pspi_irq_handler (env : Env) (jtag : jtag_info) : jtag_info :=
  let jtag := jtag.emit .irq
  let r := readb env jtag PSPI_STAT
  let stat := r.1
  let jtag := r.2
  let jtag :=
    if stat &&& (1 <<< PSPI_STAT_RBF) ≠ 0 then
      let jtag := if jtag.pspi.rx_bytes ≠ 0 then (pspi_recv env jtag).2 else jtag
      if jtag.pspi.rx_bytes = 0 then complete jtag else jtag
    else jtag
  if stat &&& (1 <<< PSPI_STAT_BSY) = 0 then
    if jtag.pspi.tx_bytes ≠ 0 then (pspi_send env jtag).2 else jtag
  else jtag

/-- `wait_for_completion(&priv->xfer_done)`: the caller sleeps while the
interrupt handler runs, one invocation per step, until the completion is
signalled. -/
def wait_for_completion (env : Env) : Nat → jtag_info → Except Fault jtag_info
  | 0, jtag => if jtag.pspi.xfer_done then .ok jtag else .error .out_of_fuel
  | fuel + 1, jtag =>
      if jtag.pspi.xfer_done then .ok jtag
      else wait_for_completion env fuel (pspi_irq_handler env jtag)

/-- The first part of `pspi_xfer`, up to the read of the status register:
the transfer's counters and buffers are set, the completion is re-armed and
the receive interrupt is enabled.  The result is the value `val` written to
the control register, the status read, and the driver state. -/
def pspi_xfer_setup (env : Env) (jtag : jtag_info)
    (tx : Nat → Nat) (tx_buf : Nat) (rx : Nat → Nat) (rx_buf : Nat) (xfer_bytes : Nat) :
    Nat × Nat × jtag_info :=
  let jtag := { jtag with pspi := { jtag.pspi with
    tx_bytes := xfer_bytes, tx_mem := tx, tx_buf := tx_buf,
    rx_bytes := xfer_bytes, rx_mem := rx, rx_buf := rx_buf,
    xfer_done := false } }
  /- enable EIR interrupt -/
  let r := readw env jtag PSPI_CTL1
  let val := clear_bits r.1 (1 <<< PSPI_CTL1_EIW) ||| (1 <<< PSPI_CTL1_EIR)
  let jtag := writew r.2 PSPI_CTL1 val
  let r := readb env jtag PSPI_STAT
  (val, r.1, r.2)

/-- `pspi_xfer`.  A buffer argument is `none` for a null pointer, else the
memory region it points into; `tx_buf` and `rx_buf` are offsets into them. -/
def pspi_xfer (env : Env) (fuel : Nat) (jtag : jtag_info)
    (tx_mem : Option (Nat → Nat)) (tx_buf : Nat)
    (rx_mem : Option (Nat → Nat)) (rx_buf : Nat) (xfer_bytes : Nat) :
    Except Fault (Int × jtag_info) :=
  let bytes := jtag.pspi.mode
  match tx_mem, rx_mem with
  | some tx, some rx =>
    if xfer_bytes = 0 then .ok (-EINVAL, jtag)
    else if bytes = 0 then .error .division_by_zero
    else if xfer_bytes % bytes ≠ 0 then .ok (-EINVAL, jtag)
    else
      let s := pspi_xfer_setup env jtag tx tx_buf rx rx_buf xfer_bytes
      let val := s.1
      if s.2.1 &&& (1 <<< PSPI_STAT_BSY) = 0 then
        let jtag := (pspi_send env s.2.2).2
        match wait_for_completion env fuel jtag with
        | .error f => .error f
        | .ok jtag => .ok (0, writew jtag PSPI_CTL1 (clear_bits val (1 <<< PSPI_CTL1_EIR)))
      else
        .ok (-EBUSY, writew s.2.2 PSPI_CTL1 (clear_bits val (1 <<< PSPI_CTL1_EIR)))
  | _, _ => .ok (-EINVAL, jtag)

/-! ## The scan transfer engine -/

/-- Modelled from the spec: `struct scan_xfer` of `jtag_drv.h`, with the
fields that `npcm_jtag_readwrite_scan` reads. -/
structure scan_xfer where
  length : Nat
  tdi_bytes : Nat
  tdo_bytes : Nat
  end_tap_state : Nat

/-- The local variables of `npcm_jtag_readwrite_scan` that change in its
loop, and the memory `tdo` points into. -/
structure scan_locals where
  remain_bits : Nat
  bit_index : Nat
  use_pspi : Bool
  xfer_bits : Nat
  tdi_bytes : Nat
  tdo_bytes : Nat
  tdi_p : Nat
  tdo_p : Nat
  tdo : Nat → Nat

/-- What a call of `npcm_jtag_readwrite_scan` leaves behind. -/
structure scan_result where
  ret : Int
  jtag : jtag_info
  tdo : Option (Nat → Nat)

/-- The busy-wait loops of the polled path:
`while (waiting(readb(PSPI_STAT))) { if (time_after(jiffies, timeout)) ...; cond_resched(); }`.
The result says whether the wait timed out; a wait that timed out leaves a
`time_after` record in the log. -/
def pspi_poll (env : Env) (waiting : Nat → Bool) (timeout : Nat) :
    Nat → jtag_info → Except Fault (Bool × jtag_info)
  | 0, _ => .error .out_of_fuel
  | fuel + 1, jtag =>
      let r := readb env jtag PSPI_STAT
      if waiting r.1 then
        let t := read_jiffies env r.2
        if t.1 > timeout then .ok (true, t.2.emit .time_after)
        else pspi_poll env waiting timeout fuel t.2
      else .ok (false, r.2)

/-- The condition `use_gpio` of one loop iteration. -/
def scan_use_gpio (unit_len : Nat) (jtag : jtag_info) (x : scan_xfer) (l : scan_locals) :
    Bool :=
  decide (jtag.mode ≠ MODE_PSPI ∨ l.remain_bits < unit_len ∨
    (l.remain_bits = unit_len ∧ x.end_tap_state ≠ JtagShfDR))

/-- The value of `tms_high_or_low` in one loop iteration. -/
def scan_tms (x : scan_xfer) (l : scan_locals) : Nat :=
  if l.bit_index = l.xfer_bits - 1 ∧ x.end_tap_state ≠ JtagShfDR ∧
      x.end_tap_state ≠ JtagShfIR then 1 else 0

/-- One loop iteration on the bit-bang path (`use_gpio` set). -/
def scan_gpio_step (env : Env) (x : scan_xfer) (tdi : Nat → Nat)
    (jtag : jtag_info) (l : scan_locals) : jtag_info × scan_locals :=
  let bit_offset := l.bit_index % 8
  let jtag := if l.use_pspi then jtag_switch_pspi_off env jtag else jtag
  let this_input_bit :=
    if l.bit_index / 8 < l.tdi_bytes then (tdi l.tdi_p >>> bit_offset) &&& 1 else 0
  let tms_high_or_low := scan_tms x l
  let r := TCK_Cycle env jtag 0 tms_high_or_low this_input_bit
  let this_output_bit := r.1
  let jtag := r.2
  let jtag :=
    if tms_high_or_low ≠ 0 then
      { jtag with tapstate := if jtag.tapstate = JtagShfDR then JtagEx1DR else JtagEx1IR }
    else jtag
  let tdo :=
    if l.bit_index / 8 < l.tdo_bytes then
      let zeroed := if l.bit_index % 8 = 0 then Function.update l.tdo l.tdo_p 0 else l.tdo
      Function.update zeroed l.tdo_p ((zeroed l.tdo_p ||| (this_output_bit <<< bit_offset)) % 256)
    else l.tdo
  let tdo_p := if bit_offset = 7 then l.tdo_p + 1 else l.tdo_p
  let tdi_p := if bit_offset = 7 then l.tdi_p + 1 else l.tdi_p
  (jtag, { l with use_pspi := false, tdo := tdo, tdo_p := tdo_p, tdi_p := tdi_p,
                  bit_index := l.bit_index + 1 })

/-- One loop iteration on the polled hardware path.  The first component is
the value returned from inside the loop, if the iteration returns. -/
def scan_pspi_step (env : Env) (fuel : Nat) (unit_len : Nat) (tdi : Nat → Nat)
    (jtag : jtag_info) (l : scan_locals) :
    Except Fault (Option Int × jtag_info × scan_locals) :=
  let t := read_jiffies env jtag
  match pspi_poll env (fun stat => stat &&& (1 <<< PSPI_STAT_BSY) ≠ 0)
      (t.1 + msecs_to_jiffies 100) fuel t.2 with
  | .error f => .error f
  | .ok (true, jtag) => .ok (some (-ETIMEDOUT), jtag_switch_pspi_off env jtag, l)
  | .ok (false, jtag) =>
    let jtag :=
      if l.bit_index / 8 + 1 < l.tdi_bytes then
        writew jtag PSPI_DATA ((REVERSE (tdi l.tdi_p) <<< 8) ||| REVERSE (tdi (l.tdi_p + 1)))
      else writew jtag PSPI_DATA 0
    let t := read_jiffies env jtag
    match pspi_poll env (fun stat => stat &&& (1 <<< PSPI_STAT_RBF) = 0)
        (t.1 + msecs_to_jiffies 100) fuel t.2 with
    | .error f => .error f
    | .ok (true, jtag) => .ok (some (-ETIMEDOUT), jtag_switch_pspi_off env jtag, l)
    | .ok (false, jtag) =>
      let r := readw env jtag PSPI_DATA
      let tdo_byte := r.1
      let tdo :=
        if l.bit_index / 8 + 1 < l.tdo_bytes then
          Function.update
            (Function.update l.tdo l.tdo_p (REVERSE ((tdo_byte >>> 8) &&& 0xff)))
            (l.tdo_p + 1) (REVERSE (tdo_byte &&& 0xff))
        else l.tdo
      .ok (none, r.2, { l with tdo := tdo,
                               bit_index := l.bit_index + unit_len,
                               remain_bits := l.remain_bits - unit_len,
                               tdo_p := l.tdo_p + unit_len / 8,
                               tdi_p := l.tdi_p + unit_len / 8 })

/-- The loop `while (bit_index < xfer_bits)`.  The first component of the
result is the value returned from inside the loop, `none` when the loop ran
to its end.  `fuel` bounds each busy-wait, the next argument the number of
iterations of the loop itself. -/
def scan_loop (env : Env) (x : scan_xfer) (unit_len : Nat) (tdi : Nat → Nat) (fuel : Nat) :
    Nat → jtag_info → scan_locals → Except Fault (Option Int × jtag_info × scan_locals)
  | 0, jtag, l =>
      if l.bit_index < l.xfer_bits then .error .out_of_fuel else .ok (none, jtag, l)
  | n + 1, jtag, l =>
      if l.bit_index < l.xfer_bits then
        if scan_use_gpio unit_len jtag x l then
          let r := scan_gpio_step env x tdi jtag l
          scan_loop env x unit_len tdi fuel n r.1 r.2
        else
          match scan_pspi_step env fuel unit_len tdi jtag l with
          | .error f => .error f
          | .ok (some ret, jtag, l) => .ok (some ret, jtag, l)
          | .ok (none, jtag, l) => scan_loop env x unit_len tdi fuel n jtag l
      else .ok (none, jtag, l)

/-- The byte count of the interrupt-driven bulk transfer: whole units of the
length, one unit less when the length is a whole number of units. -/
def scan_bulk_bytes (unit_len remain_bits : Nat) : Nat :=
  let xfer_bytes := (remain_bits / unit_len) * (unit_len / 8)
  if remain_bits % unit_len = 0 ∧ xfer_bytes > 0 then xfer_bytes - unit_len / 8
  else xfer_bytes

/-- The initial values of the local variables of `npcm_jtag_readwrite_scan`. -/
def scan_init (x : scan_xfer) (tdo : Option (Nat → Nat)) : scan_locals :=
  { remain_bits := x.length, bit_index := 0, use_pspi := false, xfer_bits := x.length,
    tdi_bytes := x.tdi_bytes, tdo_bytes := x.tdo_bytes, tdi_p := 0, tdo_p := 0,
    tdo := tdo.getD (fun _ => 0) }

/-- The part of `npcm_jtag_readwrite_scan` that enables the hardware channel:
`if ((jtag->mode == MODE_PSPI) && (remain_bits > unit_len))`. -/
def scan_enable (env : Env) (unit_len : Nat) (jtag : jtag_info) (l : scan_locals) :
    Except Fault (jtag_info × scan_locals) :=
  if jtag.mode = MODE_PSPI ∧ l.remain_bits > unit_len then
    match jtag_switch_pspi env jtag true with
    | .error f => .error f
    | .ok jtag => .ok (jtag, { l with use_pspi := true })
  else .ok (jtag, l)

/-- The part of `npcm_jtag_readwrite_scan` that handles the transfer with irq
enabled: `if (use_pspi && pspi->enable_irq)`.  The first component of the
result is the value returned from inside this part, if it returns. -/
def scan_bulk (env : Env) (fuel : Nat) (unit_len : Nat) (jtag : jtag_info)
    (tdi tdo : Option (Nat → Nat)) (l : scan_locals) :
    Except Fault (Option Int × jtag_info × scan_locals) :=
  if l.use_pspi ∧ jtag.pspi.enable_irq then
    if unit_len = 0 then .error .division_by_zero
    else
      let xfer_bytes := scan_bulk_bytes unit_len l.remain_bits
      match pspi_xfer env fuel jtag tdi l.tdi_p (tdo.map (fun _ => l.tdo)) l.tdo_p
          xfer_bytes with
      | .error f => .error f
      | .ok (ret, jtag) =>
        if ret ≠ 0 then .ok (some ret, jtag_switch_pspi_off env jtag, l)
        else
          .ok (none, jtag,
            { l with remain_bits := l.remain_bits - xfer_bytes * 8,
                     xfer_bits := l.remain_bits - xfer_bytes * 8,
                     tdi_p := l.tdi_p + xfer_bytes,
                     tdo_p := l.tdo_p + xfer_bytes,
                     tdi_bytes := (l.tdi_bytes + 2 ^ 32 - xfer_bytes) % 2 ^ 32,
                     tdo_bytes := (l.tdo_bytes + 2 ^ 32 - xfer_bytes) % 2 ^ 32,
                     tdo := jtag.pspi.rx_mem })
  else .ok (none, jtag, l)

/-- The part of `npcm_jtag_readwrite_scan` from the loop to the end: the
loop, then the transition to the end state, whose result is not looked at. -/
def scan_finish (env : Env) (past : Nat → TmsCycle) (fuel : Nat) (unit_len : Nat)
    (x : scan_xfer) (tdi tdo : Option (Nat → Nat)) (jtag : jtag_info) (l : scan_locals) :
    Except Fault scan_result :=
  match scan_loop env x unit_len (tdi.getD (fun _ => 0)) fuel fuel jtag l with
  | .error f => .error f
  | .ok (some ret, jtag, l) => .ok ⟨ret, jtag, tdo.map (fun _ => l.tdo)⟩
  | .ok (none, jtag, l) =>
    .ok ⟨0, (npcm_jtag_set_tapstate env past jtag JTAG_STATE_CURRENT x.end_tap_state).2,
         tdo.map (fun _ => l.tdo)⟩

/-- `npcm_jtag_readwrite_scan`.  `fuel` bounds the number of iterations of
each loop; `tdi` and `tdo` are `none` for null pointers. -/
def npcm_jtag_readwrite_scan (env : Env) (past : Nat → TmsCycle) (fuel : Nat)
    (jtag : jtag_info) (x : scan_xfer)
    (tdi tdo : Option (Nat → Nat)) : Except Fault scan_result :=
  let unit_len := jtag.pspi.mode * 8
  if jtag.tapstate ≠ JtagShfDR ∧ jtag.tapstate ≠ JtagShfIR then
    .ok ⟨-EINVAL, jtag, tdo⟩
  else if x.length = 0 then .ok ⟨-EINVAL, jtag, tdo⟩
  else if tdi.isNone ∧ x.tdi_bytes ≠ 0 then .ok ⟨-EINVAL, jtag, tdo⟩
  else if tdo.isNone ∧ x.tdo_bytes ≠ 0 then .ok ⟨-EINVAL, jtag, tdo⟩
  else
    match scan_enable env unit_len jtag (scan_init x tdo) with
    | .error f => .error f
    | .ok (jtag, l) =>
      match scan_bulk env fuel unit_len jtag tdi tdo l with
      | .error f => .error f
      | .ok (some ret, jtag, l) => .ok ⟨ret, jtag, tdo.map (fun _ => l.tdo)⟩
      | .ok (none, jtag, l) => scan_finish env past fuel unit_len x tdi tdo jtag l

/-! ## Measures on logs -/

/-- The number of words read from the PSPI data register. -/
def dataReads : List Event → Nat
  | [] => 0
  | .readw reg _ :: rest => (if reg = PSPI_DATA then 1 else 0) + dataReads rest
  | .readb reg _ :: rest => (if reg = PSPI_DATA then 1 else 0) + dataReads rest
  | _ :: rest => dataReads rest

/-- The number of words written to the PSPI data register. -/
def dataWrites : List Event → Nat
  | [] => 0
  | .writew reg _ :: rest => (if reg = PSPI_DATA then 1 else 0) + dataWrites rest
  | .writeb reg _ :: rest => (if reg = PSPI_DATA then 1 else 0) + dataWrites rest
  | _ :: rest => dataWrites rest

/-- The bit-bang cycles of the scan loop: the calls of `TCK_Cycle` that
sample TDO (`no_tdo == 0`). -/
def scanCycles (ops : List Event) : List (Nat × Nat × Nat) :=
  (cyclesOf ops).filter (fun c => c.1 == 0)

/-- The driver state `j2` differs from `j` by hardware accesses `ops` that
clock no cycle, and by fields that only the clock primitive and the hardware
channel use. -/
def HwFrame (j j2 : jtag_info) (ops : List Event) : Prop :=
  j2.log = j.log ++ ops ∧ cyclesOf ops = [] ∧
  j2.tapstate = j.tapstate ∧ j2.mode = j.mode ∧ j2.gpio_ctrl = j.gpio_ctrl ∧
  j2.freq = j.freq ∧ j2.controller = j.controller ∧
  j2.pspi.mode = j.pspi.mode ∧ j2.pspi.enable_irq = j.pspi.enable_irq ∧
  j2.pspi.apb_clk_rate = j.pspi.apb_clk_rate

/-- A hardware-only step: `HwFrame` with `r` words read from and `w` words
written to the PSPI data register. -/
def HwStep (j j2 : jtag_info) (r w : Nat) : Prop :=
  ∃ ops : List Event, HwFrame j j2 ops ∧ dataReads ops = r ∧ dataWrites ops = w

/-- The driver state `j2` differs from `j` by the accesses `ops` and by
fields that the configuration commands do not set. -/
def Frame (j j2 : jtag_info) (ops : List Event) : Prop :=
  j2.log = j.log ++ ops ∧
  j2.mode = j.mode ∧ j2.gpio_ctrl = j.gpio_ctrl ∧
  j2.freq = j.freq ∧ j2.controller = j.controller ∧
  j2.pspi.mode = j.pspi.mode ∧ j2.pspi.enable_irq = j.pspi.enable_irq ∧
  j2.pspi.apb_clk_rate = j.pspi.apb_clk_rate

/-- The Exit1 state of the register that the Shift state `s` belongs to, as
the scan loop computes it. -/
def exit1Of (s : Nat) : Nat := if s = JtagShfDR then JtagEx1DR else JtagEx1IR

/-- Whether the end state of a scan is neither Shift state. -/
def leavesShift (end_tap_state : Nat) : Prop :=
  end_tap_state ≠ JtagShfDR ∧ end_tap_state ≠ JtagShfIR

instance (e : Nat) : Decidable (leavesShift e) := by
  unfold leavesShift; exact inferInstance

/-- The TMS arguments of `k` consecutive scan cycles that end with the last
bit of the transfer. -/
def scanTmsArgs (end_tap_state k : Nat) : List Nat :=
  if leavesShift end_tap_state ∧ 0 < k then List.replicate (k - 1) 0 ++ [1]
  else List.replicate k 0

/-- A step of the interrupt-driven transfer: a hardware-only step that reads
`r` words and writes `w` words, with the byte counters of the transfer moving
along, and the completion signalled only once nothing is left to receive. -/
def XferStep (j j2 : jtag_info) (r w : Nat) : Prop :=
  HwStep j j2 r w ∧
  j2.pspi.rx_bytes + 2 * r = j.pspi.rx_bytes ∧
  j2.pspi.tx_bytes + 2 * w = j.pspi.tx_bytes ∧
  (j2.pspi.xfer_done = true → j.pspi.xfer_done = true ∨ j2.pspi.rx_bytes = 0)

/-- The status register never shows a full receive buffer while the channel
is still busy shifting. -/
def ReceiveImpliesIdle (env : Env) : Prop :=
  ∀ log : List Event,
    (env.reg PSPI_STAT log % 256) &&& (1 <<< PSPI_STAT_RBF) ≠ 0 →
    (env.reg PSPI_STAT log % 256) &&& (1 <<< PSPI_STAT_BSY) = 0

/-- The byte counters of a transfer in flight: both even, and whatever is
still to be sent will also still be received. -/
def XferOrder (j : jtag_info) : Prop :=
  2 ∣ j.pspi.rx_bytes ∧ 2 ∣ j.pspi.tx_bytes ∧
  (j.pspi.tx_bytes = 0 ∨ j.pspi.tx_bytes + 2 ≤ j.pspi.rx_bytes)

/-! ## Sample inputs -/

/-- Hardware that is always ready: the status register shows a full receive
buffer and an idle channel, every pin reads 1, and time stands still. -/
def ready_env : Env :=
  ⟨fun _ _ => 1, fun reg _ => if reg = PSPI_STAT then 2 else 0, fun _ => 0⟩

/-- A driver state as initialisation leaves it, with the given transfer mode,
interrupt setting and tracked state, and an empty log. -/
def sample_jtag (mode : Nat) (irq : Bool) (tapstate : Nat) : jtag_info :=
  ⟨⟨25000000, irq, BIT_MODE_16, fun _ => 0, fun _ => 0, 0, 0, 0, 0, false⟩,
    1000000, PSPI1, 0, tapstate, true, mode, GPIOCTRL_DIRECT, []⟩

/-- Memory behind the table that holds zeros. -/
def no_past : Nat → TmsCycle := fun _ => ⟨0, 0⟩

/-! ## Raw bit-bang, transfers and the run-clock command -/

def ENOMEM : Int := 12
def EIO : Int := 5

/-- Modelled from the spec: `struct tck_bitbang` of `jtag_drv.h`, one
(tms, tdi) pair with the place for the sampled tdo. -/
structure tck_bitbang where
  tms : Nat
  tdi : Nat
  tdo : Nat
  deriving DecidableEq, Repr

/-- Modelled from the spec: `struct bitbang_packet` of `jtag_drv.h`, the
argument of the `JTAG_IOCBITBANG` command: the number of pairs and the user
memory that `data` points to. -/
structure bitbang_packet where
  length : Nat
  data : Nat → tck_bitbang

/-- `npcm_jtag_bitbang`: one pair, with the sampled TDO stored in it. -/
def npcm_jtag_bitbang (env : Env) (jtag : jtag_info) (bitbang : tck_bitbang) :
    tck_bitbang × jtag_info :=
  let r := TCK_Cycle env jtag 0 bitbang.tms bitbang.tdi
  ({ bitbang with tdo := r.1 }, r.2)

/-- The loop `for (i = 0; i < bitbangs->length; i++)` of `npcm_jtag_bitbangs`
from index `i` on, with `n` iterations left. -/
def bitbangs_loop (env : Env) :
    Nat → Nat → jtag_info → (Nat → tck_bitbang) → jtag_info × (Nat → tck_bitbang)
  | 0, _, jtag, bitbang_data => (jtag, bitbang_data)
  | n + 1, i, jtag, bitbang_data =>
      let r := npcm_jtag_bitbang env jtag (bitbang_data i)
      bitbangs_loop env n (i + 1) r.2 (Function.update bitbang_data i r.1)

/-- `npcm_jtag_bitbangs`. -/
def npcm_jtag_bitbangs (env : Env) (jtag : jtag_info) (bitbangs : bitbang_packet)
    (bitbang_data : Nat → tck_bitbang) : jtag_info × (Nat → tck_bitbang) :=
  bitbangs_loop env bitbangs.length 0 jtag bitbang_data

/-- The `JTAG_IOCBITBANG` case of `jtag_ioctl`, after the packet has been
copied in, with user memory that can be read and written.  The bound
`JTAG_MAX_XFER_DATA_LEN` is a constant of `jtag_drv.h`; it is an argument
here, taken to be small enough for the byte count
`length * sizeof(struct tck_bitbang)` of an accepted packet not to wrap as a
`u32`.  The result is the return value, the driver state and the user memory
behind `bitbang.data`. -/
def jtag_ioctl_IOCBITBANG (env : Env) (JTAG_MAX_XFER_DATA_LEN : Nat) (priv : jtag_info)
    (bitbang : bitbang_packet) : Int × jtag_info × (Nat → tck_bitbang) :=
  if bitbang.length ≥ JTAG_MAX_XFER_DATA_LEN then (-EINVAL, priv, bitbang.data)
  else
    let r := npcm_jtag_bitbangs env priv bitbang bitbang.data
    (0, r.1, fun i => if i < bitbang.length then r.2 i else bitbang.data i)

/-- Modelled from the spec: `struct jtag_xfer` of `jtag_drv.h`, with the
fields that `jtag_ioctl` and `npcm_jtag_xfer` read (`frm` is the field
`from`). -/
structure jtag_xfer where
  type : Nat
  direction : Nat
  frm : Nat
  endstate : Nat
  length : Nat

/-- Modelled from the spec: the transfer types of `jtag_drv.h`, Instruction
and Data; `jtag_ioctl` takes `JTAG_SDR_XFER` for the largest of them. -/
def JTAG_SIR_XFER : Nat := 0
def JTAG_SDR_XFER : Nat := 1

/-- `npcm_jtag_xfer`.  `tdo` is what `kmalloc` returned: `none` for a null
pointer, else the memory as it was found.  The result is the return value,
the driver state and the memory behind `data`. -/
def npcm_jtag_xfer (env : Env) (past : Nat → TmsCycle) (fuel : Nat) (jtag : jtag_info)
    (xfer : jtag_xfer) (data : Nat → Nat) (bytes : Nat) (tdo : Option (Nat → Nat)) :
    Except Fault (Int × jtag_info × (Nat → Nat)) :=
  match tdo with
  | none => .ok (-ENOMEM, jtag, data)
  | some tdo =>
    let jtag :=
      if xfer.type = JTAG_SIR_XFER then
        (npcm_jtag_set_tapstate env past jtag xfer.frm JtagShfIR).2
      else
        (npcm_jtag_set_tapstate env past jtag xfer.frm JtagShfDR).2
    let scan : scan_xfer :=
      { end_tap_state := xfer.endstate, length := xfer.length,
        tdi_bytes := bytes, tdo_bytes := bytes }
    match npcm_jtag_readwrite_scan env past fuel jtag scan (some data) (some tdo) with
    | .error f => .error f
    | .ok r =>
      .ok (r.ret, r.jtag, fun i => if i < bytes then (r.tdo.getD tdo) i else data i)

/-- The loops `for (i = 0; i < n; i++) TCK_Cycle(jtag, 0, 0, 0);` of
`npcm_jtag_runtest`, with `n` iterations left. -/
def idle_loop (env : Env) : Nat → jtag_info → jtag_info
  | 0, jtag => jtag
  | n + 1, jtag => idle_loop env n (TCK_Cycle env jtag 0 0 0).2

/-- The part of `npcm_jtag_runtest` with irq enabled:
`if (jtag->pspi.enable_irq)`.  `txbuf` and `rxbuf` say whether `kzalloc` gave
memory.  The result is the value of `ret` on the way to `err_pspi`, if the
part goes there, the driver state and the value of `units`. -/
def runtest_bulk (env : Env) (fuel : Nat) (jtag : jtag_info) (bytes units : Nat)
    (txbuf rxbuf : Bool) : Except Fault (Option Int × jtag_info × Nat) :=
  if jtag.pspi.enable_irq then
    if ¬ txbuf then .ok (some (-ENOMEM), jtag, units)
    else if ¬ rxbuf then .ok (some (-ENOMEM), jtag, units)
    else
      match pspi_xfer env fuel jtag (some (fun _ => 0)) 0 (some (fun _ => 0)) 0 bytes with
      | .error f => .error f
      | .ok (ret, jtag) =>
        if ret ≠ 0 then .ok (some ret, jtag, 0) else .ok (none, jtag, 0)
  else .ok (none, jtag, units)

/-- The loop `for (i = 0; i < units; i++)` of `npcm_jtag_runtest`, with `n`
iterations left.  The first component of the result is the value of `ret` on
the way to `err_pspi`, if the loop goes there. -/
def runtest_units (env : Env) (fuel : Nat) :
    Nat → jtag_info → Except Fault (Option Int × jtag_info)
  | 0, jtag => .ok (none, jtag)
  | n + 1, jtag =>
    let t := read_jiffies env jtag
    match pspi_poll env (fun stat => stat &&& (1 <<< PSPI_STAT_BSY) ≠ 0)
        (t.1 + msecs_to_jiffies 100) fuel t.2 with
    | .error f => .error f
    | .ok (true, jtag) => .ok (some (-ETIMEDOUT), jtag)
    | .ok (false, jtag) =>
      let jtag := writew jtag PSPI_DATA 0
      let t := read_jiffies env jtag
      match pspi_poll env (fun stat => stat &&& (1 <<< PSPI_STAT_RBF) = 0)
          (t.1 + msecs_to_jiffies 100) fuel t.2 with
      | .error f => .error f
      | .ok (true, jtag) => .ok (some (-ETIMEDOUT), jtag)
      | .ok (false, jtag) => runtest_units env fuel n (readw env jtag PSPI_DATA).2

/-- `npcm_jtag_runtest`: run in the current state for `tcks` clock cycles.
`fuel` bounds each wait; `txbuf` and `rxbuf` say whether the two calls of
`kzalloc` gave memory.  The variable `ret` is an `unsigned int` that the
function returns as an `int`, which gives back the value assigned. -/
def npcm_jtag_runtest (env : Env) (fuel : Nat) (jtag : jtag_info) (tcks : Nat)
    (txbuf rxbuf : Bool) : Except Fault (Int × jtag_info) :=
  let unit_len := jtag.pspi.mode * 8
  if unit_len = 0 then .error .division_by_zero
  else
    let units := tcks / unit_len
    let bytes := units * jtag.pspi.mode
    let remain_bits := tcks % unit_len
    if jtag.mode ≠ MODE_PSPI then .ok (0, idle_loop env tcks jtag)
    else if units = 0 then .ok (0, idle_loop env remain_bits jtag)
    else
      match jtag_switch_pspi env jtag true with
      | .error f => .error f
      | .ok jtag =>
        match runtest_bulk env fuel jtag bytes units txbuf rxbuf with
        | .error f => .error f
        | .ok (some ret, jtag, _) => .ok (ret, jtag_switch_pspi_off env jtag)
        | .ok (none, jtag, units) =>
          match runtest_units env fuel units jtag with
          | .error f => .error f
          | .ok (some ret, jtag) => .ok (ret, jtag_switch_pspi_off env jtag)
          | .ok (none, jtag) =>
            .ok (0, idle_loop env remain_bits (jtag_switch_pspi_off env jtag))

/-! ## Further measures on logs -/

/-- The number of waits that ran out of time. -/
def timeouts : List Event → Nat
  | [] => 0
  | .time_after :: rest => 1 + timeouts rest
  | _ :: rest => timeouts rest

/-- The enable bit `PSPI_CTL1_SPIEN` as the writes of a log to the control
register leave it, given its state before the log. -/
def channel_enabled (before : Bool) : List Event → Bool
  | [] => before
  | .writew reg value :: rest =>
      channel_enabled
        (if reg = PSPI_CTL1 then decide (value &&& (1 <<< PSPI_CTL1_SPIEN) ≠ 0) else before)
        rest
  | _ :: rest => channel_enabled before rest

/-- Whether the pins are in PSPI function after the updates of a log to the
pin multiplexer, given their function before the log. -/
def pins_pspi (before : Bool) : List Event → Bool
  | [] => before
  | .regmap_update_bits _ _ val :: rest => pins_pspi (decide (val ≠ 0)) rest
  | _ :: rest => pins_pspi before rest

/-- An operation on one of the four signal lines: a write of a level, or a
read. -/
inductive LineOp
  | write (pin : Pin) (level : Bool)
  | read (pin : Pin)
  deriving DecidableEq, Repr

/-- The line operations of a log, in order, whichever way the pins are
driven. -/
def lineOps : List Event → List LineOp
  | [] => []
  | .set_gpio pin value :: rest => .write pin (value != 0) :: lineOps rest
  | .gpiod_set_value pin value :: rest => .write pin (value != 0) :: lineOps rest
  | .get_gpio pin _ :: rest => .read pin :: lineOps rest
  | .gpiod_get_value pin _ :: rest => .read pin :: lineOps rest
  | _ :: rest => lineOps rest
/-- A driver state as `JTAG_SIOCFREQ` with the largest accepted value
(25 MHz) leaves it, on a 25 MHz reference clock:
`apb_clk_rate / (2 * freq) - 1 == -1`. -/
def fast_jtag (irq : Bool) : jtag_info :=
  { sample_jtag MODE_PSPI irq JtagShfDR with freq := 25000000 }


/-- Whether an access is a call record of the clock primitive or an
operation on a signal line. -/
def Event.isPin : Event → Bool
  | .cycle _ _ _ => true
  | .set_gpio _ _ => true
  | .get_gpio _ _ => true
  | .gpiod_set_value _ _ => true
  | .gpiod_get_value _ _ => true
  | _ => false

/-- The number of words other than zero written to the PSPI data register. -/
def nonzeroDataWrites : List Event → Nat
  | [] => 0
  | .writew reg value :: rest =>
      (if reg = PSPI_DATA ∧ value ≠ 0 then 1 else 0) + nonzeroDataWrites rest
  | .writeb reg value :: rest =>
      (if reg = PSPI_DATA ∧ value ≠ 0 then 1 else 0) + nonzeroDataWrites rest
  | _ :: rest => nonzeroDataWrites rest

/-- Hardware that never gets ready: the status register shows a busy channel
and an empty receive buffer, every pin reads 0, and the tick counter moves on
by one with every access. -/
def stuck_env : Env :=
  ⟨fun _ _ => 0, fun reg _ => if reg = PSPI_STAT then 1 else 0, fun log => log.length⟩

/-- The TDI argument of the last call of `TCK_Cycle` recorded in a log, 0
when there is none. -/
def lastTdi (log : List Event) : Nat :=
  log.foldl (fun acc e => match e with
    | .cycle _ _ TDI => TDI
    | _ => acc) 0

/-- The value last written to the PSPI data register in a log, 0 when there
is none. -/
def lastDataWrite (log : List Event) : Nat :=
  log.foldl (fun acc e => match e with
    | .writew reg value => if reg = PSPI_DATA then value else acc
    | .writeb reg value => if reg = PSPI_DATA then value else acc
    | _ => acc) 0

/-- A loop-back test fixture: the level read on TDO is the level of the TDI
argument of the clock cycle under way; the data register reads back the word
last written to it; and each unit is shifted at once, so that the status
register always shows a full receive buffer and an idle channel. -/
def Loopback (env : Env) : Prop :=
  (∀ log : List Event, env.pin .TDO log = (if lastTdi log ≠ 0 then 1 else 0)) ∧
  (∀ log : List Event, env.reg PSPI_DATA log = lastDataWrite log) ∧
  (∀ log : List Event,
    (env.reg PSPI_STAT log % 256) &&& (1 <<< PSPI_STAT_RBF) ≠ 0 ∧
    (env.reg PSPI_STAT log % 256) &&& (1 <<< PSPI_STAT_BSY) = 0)

/-- A loop-back fixture as an input: TDO wired to TDI and the data register
wired back, the status register reading 2 (receive buffer full, idle). -/
def loopback_env : Env :=
  ⟨fun pin log => if pin = .TDO then (if lastTdi log ≠ 0 then 1 else 0) else 0,
   fun reg log =>
     if reg = PSPI_DATA then lastDataWrite log else if reg = PSPI_STAT then 2 else 0,
   fun _ => 0⟩

/-- The buffers in the scan loop of a transfer of `B` bytes from the input
`din`, after a bulk transfer of `o` bytes: both pointers stand at the byte of
the bit index, the byte counts are what the bulk transfer left, every bit
shifted so far is in the output as it is in the input, the bits of the
current output byte from the current one on are still clear, and the memory
from byte `B` on is as it was (`t0`). -/
def ScanData (din t0 : Nat → Nat) (o B : Nat) (l : scan_locals) : Prop :=
  l.tdi_p = o + l.bit_index / 8 ∧ l.tdo_p = o + l.bit_index / 8 ∧
  l.tdi_bytes = B - o ∧ l.tdo_bytes = B - o ∧
  (∀ i, i < 8 * o + l.bit_index →
    (l.tdo (i / 8)).testBit (i % 8) = (din (i / 8)).testBit (i % 8)) ∧
  (l.bit_index % 8 ≠ 0 →
    ∀ j, l.bit_index % 8 ≤ j → (l.tdo (o + l.bit_index / 8)).testBit j = false) ∧
  (∀ k, B ≤ k → l.tdo k = t0 k)

/-- An interrupt-driven transfer of `xb` bytes from `din` under way, one word
in flight: what is still to be received is one word more than what is still
to be sent, the word last written is the one that the next receive stores,
the bytes received so far are those of `din`, and the memory after them is as
it was (`t0`). -/
def BulkInv (din t0 : Nat → Nat) (xb : Nat) (j : jtag_info) : Prop :=
  j.pspi.mode = BIT_MODE_16 ∧ j.pspi.tx_mem = din ∧ j.pspi.xfer_done = false ∧
  j.pspi.rx_bytes = j.pspi.tx_bytes + 2 ∧ 2 ∣ j.pspi.tx_bytes ∧
  j.pspi.tx_buf = j.pspi.rx_buf + 2 ∧ j.pspi.rx_buf + j.pspi.rx_bytes = xb ∧
  lastDataWrite j.log =
    ((REVERSE (din j.pspi.rx_buf) <<< 8) ||| REVERSE (din (j.pspi.rx_buf + 1))) % 65536 ∧
  (∀ k, k < j.pspi.rx_buf → j.pspi.rx_mem k = din k) ∧
  (∀ k, j.pspi.rx_buf ≤ k → j.pspi.rx_mem k = t0 k)

/-- An interrupt-driven transfer of `xb` bytes from `din` that has completed:
the first `xb` bytes of the receive memory are those of `din`, the rest is as
it was (`t0`). -/
def BulkDone (din t0 : Nat → Nat) (xb : Nat) (j : jtag_info) : Prop :=
  j.pspi.xfer_done = true ∧
  (∀ k, k < xb → j.pspi.rx_mem k = din k) ∧ (∀ k, xb ≤ k → j.pspi.rx_mem k = t0 k)

/-! ## The frequency command and the completion count -/

/-- The highest shift frequency the `JTAG_SIOCFREQ` command accepts, in Hz. -/
def JTAG_PSPI_MAX_FREQ : Nat := 25 * 1000000

/-- The default shift frequency that `npcm_jtag_init` sets, in Hz. -/
def JTAG_PSPI_SPEED : Nat := 10 * 1000000

/-- The `JTAG_SIOCFREQ` case of `jtag_ioctl`, after the `u32` argument has
been copied in. -/
def jtag_ioctl_SIOCFREQ (priv : jtag_info) (value : Nat) : Int × jtag_info :=
  if value ≤ JTAG_PSPI_MAX_FREQ then (0, { priv with freq := value })
  else (-EINVAL, priv)

/-- The number of times the completion was signalled. -/
def completions : List Event → Nat
  | [] => 0
  | .complete :: rest => 1 + completions rest
  | _ :: rest => completions rest

/-- The 7-bit clock divider field, bits 15..9, of a value of the control
register. -/
def scdv (ctl1 : Nat) : Nat := (ctl1 >>> PSPI_CTL1_SCDV6_0) &&& 0x7f

/-- The values written to the control register in a log, in order. -/
def ctl1Writes : List Event → List Nat
  | [] => []
  | .writew reg v :: rest => if reg = PSPI_CTL1 then v :: ctl1Writes rest else ctl1Writes rest
  | _ :: rest => ctl1Writes rest

/-- The value the control register holds after the writes of a log; 0 before
the first write. -/
def lastCtl1 (log : List Event) : Nat := (ctl1Writes log).getLastD 0

/-- Hardware that is always ready, with a control register that reads back
what was written to it last: the status register shows a full receive buffer
and an idle channel, every pin reads 1, and time stands still. -/
def register_env : Env :=
  ⟨fun _ _ => 1,
   fun reg log => if reg = PSPI_STAT then 2 else if reg = PSPI_CTL1 then lastCtl1 log else 0,
   fun _ => 0⟩

/-- A driver state as `sample_jtag`, in hardware-assisted polled mode, with
the given shift frequency. -/
def slow_jtag (hz : Nat) (tapstate : Nat) : jtag_info :=
  { sample_jtag MODE_PSPI false tapstate with freq := hz }


/-! ## Facts about the table and the graph -/

/-- Inside the 16 x 16 table the memory behind it plays no role. -/
theorem tmsCycleAt_inside (past : Nat → TmsCycle) (frm dst : Nat)
    (h : frm * 16 + dst < 256) :
    tmsCycleAt past frm dst = tmsCycleCells.getD (frm * 16 + dst) ⟨0, 0⟩ := by
  have hlen : tmsCycleCells.length = 256 := by decide!
  unfold tmsCycleAt
  rw [List.get?_eq_get (by omega), List.getD_eq_getElem _ _ (by omega)]
  rfl

theorem tmsCycleAt_fin (past : Nat → TmsCycle) (frm dst : Fin 16) :
    tmsCycleAt past frm dst = tmsCycleCells.getD (frm.val * 16 + dst.val) ⟨0, 0⟩ :=
  tmsCycleAt_inside past frm dst (by omega)

/-- A walk of `l.length` edges that ends in `t` witnesses `tapReach`. -/
theorem tapReach_of_walk (l : List Bool) (s t : Nat) (h : tapWalk s l = t) :
    tapReach l.length s t = true := by
  induction l generalizing s with
  | nil => simpa [tapWalk, tapReach] using h
  | cons b rest ih =>
    have := ih (tapNext s b) h
    cases b <;> simp [tapReach, this]

theorem tmsArgs_length (tmsbits n : Nat) : (tmsArgs tmsbits n).length = n := by
  induction n generalizing tmsbits with
  | zero => rfl
  | succ n ih => simp [tmsArgs, ih]

theorem tmsLevels_length (tmsbits n : Nat) : (tmsLevels tmsbits n).length = n := by
  simp [tmsLevels, tmsArgs_length]

set_option maxRecDepth 100000 in
theorem table_walk_all : ∀ frm dst : Fin 16,
    tapWalk frm (tmsLevels (tmsCycleCells.getD (frm.val * 16 + dst.val) ⟨0, 0⟩).tmsbits
      (tmsCycleCells.getD (frm.val * 16 + dst.val) ⟨0, 0⟩).count) = dst := by
  decide

set_option maxRecDepth 100000 in
theorem table_no_shorter_all : ∀ frm dst : Fin 16, frm ≠ dst →
    ∀ k : Fin 9, k.val < (tmsCycleCells.getD (frm.val * 16 + dst.val) ⟨0, 0⟩).count →
      tapReach k frm dst = false := by
  decide!

set_option maxRecDepth 100000 in
theorem table_count_le_all : ∀ frm dst : Fin 16,
    (tmsCycleCells.getD (frm.val * 16 + dst.val) ⟨0, 0⟩).count ≤ 8 := by
  decide

/-- C1. Table soundness: from any of the 16 TAP states, clocking the `count`
TMS bits of `_tmsCycleLookup[from][to]`, bit 0 first, along the IEEE 1149.1
graph ends exactly in `to`. -/
theorem tms_table_sound (past : Nat → TmsCycle) (frm dst : Fin 16) :
    tapWalk frm (tmsLevels (tmsCycleAt past frm dst).tmsbits
      (tmsCycleAt past frm dst).count) = dst := by
  rw [tmsCycleAt_fin]
  exact table_walk_all frm dst

/-- C5. Table minimality: for distinct TAP states the table's `count` is the
length of a shortest path: some TMS sequence of `count` edges leads from
`from` to `to`, and no sequence with fewer edges does. -/
theorem tms_table_minimal (past : Nat → TmsCycle) (frm dst : Fin 16)
    (hne : frm ≠ dst) :
    (∃ l : List Bool, l.length = (tmsCycleAt past frm dst).count ∧
        tapWalk frm l = dst) ∧
    ∀ l : List Bool, tapWalk frm l = dst →
        (tmsCycleAt past frm dst).count ≤ l.length := by
  rw [tmsCycleAt_fin]
  refine ⟨⟨_, tmsLevels_length _ _, table_walk_all frm dst⟩, ?_⟩
  intro l hl
  by_contra hlt
  have hlt : l.length < (tmsCycleCells.getD (frm.val * 16 + dst.val) ⟨0, 0⟩).count :=
    Nat.lt_of_not_le hlt
  have h8 := table_count_le_all frm dst
  have hk : l.length < 9 := by omega
  have hno := table_no_shorter_all frm dst hne ⟨l.length, hk⟩ hlt
  have hyes := tapReach_of_walk l frm dst hl
  simp only [hyes] at hno
  exact Bool.noConfusion hno

theorem tms_table_minimal_witness :
    (∃ l : List Bool, l.length = (tmsCycleAt (fun _ => ⟨0, 0⟩) (1 : Fin 16) (9 : Fin 16)).count ∧
        tapWalk (1 : Fin 16) l = (9 : Fin 16)) ∧
    ∀ l : List Bool, tapWalk (1 : Fin 16) l = (9 : Fin 16) →
        (tmsCycleAt (fun _ => ⟨0, 0⟩) (1 : Fin 16) (9 : Fin 16)).count ≤ l.length :=
  tms_table_minimal (fun _ => ⟨0, 0⟩) 1 9 (by decide)

/-- C4, as the claim states it, fails: the entry from TestLogicReset to
itself has count 1. -/
theorem self_transition_count_counterexample :
    ¬ ∀ A : Fin 16, (tmsCycleAt (fun _ => ⟨0, 0⟩) A A).count = 0 := by
  intro h
  have := h 0
  revert this
  decide

/-- C4, amended. The entry from a TAP state to itself has count 0, except
for TestLogicReset, RunTestIdle, PauseDR and PauseIR, where it has count 1 and
its single TMS bit is the self-loop edge of that state. -/
theorem self_transition_count (past : Nat → TmsCycle) (A : Fin 16) :
    (tmsCycleAt past A A).count =
        (if A.val = JtagTLR ∨ A.val = JtagRTI ∨ A.val = JtagPauDR ∨ A.val = JtagPauIR
          then 1 else 0) ∧
    tapWalk A (tmsLevels (tmsCycleAt past A A).tmsbits (tmsCycleAt past A A).count) = A := by
  rw [tmsCycleAt_fin]
  refine ⟨?_, table_walk_all A A⟩
  revert A
  decide


/-! ## The clock primitive and the state sequencer -/

theorem cyclesOf_append (a b : List Event) :
    cyclesOf (a ++ b) = cyclesOf a ++ cyclesOf b := by
  induction a with
  | nil => rfl
  | cons e rest ih => cases e <;> simp [cyclesOf, ih]

theorem tdoSamples_append (a b : List Event) :
    tdoSamples (a ++ b) = tdoSamples a ++ tdoSamples b := by
  induction a with
  | nil => rfl
  | cons e rest ih =>
    cases e with
    | get_gpio pin v => cases pin <;> simp [tdoSamples, ih]
    | gpiod_get_value pin v => cases pin <;> simp [tdoSamples, ih]
    | _ => simp [tdoSamples, ih]

theorem dataReads_append (a b : List Event) :
    dataReads (a ++ b) = dataReads a + dataReads b := by
  induction a with
  | nil => simp [dataReads]
  | cons e rest ih => cases e <;> simp [dataReads, ih, Nat.add_assoc]

theorem dataWrites_append (a b : List Event) :
    dataWrites (a ++ b) = dataWrites a + dataWrites b := by
  induction a with
  | nil => simp [dataWrites]
  | cons e rest ih => cases e <;> simp [dataWrites, ih, Nat.add_assoc]

/-- What one call of `TCK_Cycle` does to the driver state: the cached TMS
level becomes `TMS`, the log grows by the call record and its line accesses,
and TDO is sampled exactly when `no_tdo` is 0. -/
theorem TCK_Cycle_spec (env : Env) (jtag : jtag_info) (no_tdo TMS TDI : Nat) :
    ∃ ops : List Event,
      (TCK_Cycle env jtag no_tdo TMS TDI).2 =
        { jtag with tms_level := TMS, log := jtag.log ++ .cycle no_tdo TMS TDI :: ops } ∧
      cyclesOf ops = [] ∧
      (tdoSamples ops).length = (if no_tdo = 0 then 1 else 0) ∧
      dataReads ops = 0 ∧ dataWrites ops = 0 := by
  obtain ⟨pspi, freq, controller, tms_level, tapstate, is_open, mode, gpio_ctrl, log⟩ := jtag
  by_cases hg : gpio_ctrl = GPIOCTRL_DIRECT <;> by_cases ht : tms_level = TMS <;>
    by_cases hn : no_tdo = 0 <;>
    simp [TCK_Cycle, jtag_info.emit, set_gpio, get_gpio, gpiod_set_value, gpiod_get_value,
      hg, ht, hn, cyclesOf, tdoSamples, dataReads, dataWrites]

theorem tlr_loop_spec (env : Env) (n : Nat) (jtag : jtag_info) :
    ∃ ops : List Event,
      tlr_loop env n jtag =
        { jtag with tms_level := (if n = 0 then jtag.tms_level else 1),
                    log := jtag.log ++ ops } ∧
      cyclesOf ops = List.replicate n (1, 1, 0) ∧ tdoSamples ops = [] ∧
      dataReads ops = 0 ∧ dataWrites ops = 0 := by
  induction n generalizing jtag with
  | zero => exact ⟨[], by simp [tlr_loop], rfl, rfl, rfl, rfl⟩
  | succ n ih =>
    obtain ⟨ops1, h1, hc1, ht1, hr1, hw1⟩ := TCK_Cycle_spec env jtag 1 1 0
    obtain ⟨ops2, h2, hc2, ht2, hr2, hw2⟩ := ih (TCK_Cycle env jtag 1 1 0).2
    refine ⟨.cycle 1 1 0 :: ops1 ++ ops2, ?_, ?_, ?_, ?_, ?_⟩
    · rw [tlr_loop, h2, h1]
      by_cases hn : n = 0 <;> simp [hn]
    · simp [cyclesOf, cyclesOf_append, hc1, hc2, List.replicate_succ]
    · have : tdoSamples ops1 = [] := List.length_eq_zero.mp (by simpa using ht1)
      simp [tdoSamples, tdoSamples_append, this, ht2]
    · simp [dataReads, dataReads_append, hr1, hr2]
    · simp [dataWrites, dataWrites_append, hw1, hw2]

theorem tms_loop_spec (env : Env) (n tmsbits : Nat) (jtag : jtag_info) :
    ∃ (ops : List Event) (lvl : Nat),
      tms_loop env n tmsbits jtag =
        { jtag with tms_level := lvl, log := jtag.log ++ ops } ∧
      cyclesOf ops = (tmsArgs tmsbits n).map (fun b => (1, b, 0)) ∧
      tdoSamples ops = [] ∧ dataReads ops = 0 ∧ dataWrites ops = 0 := by
  induction n generalizing jtag tmsbits with
  | zero => exact ⟨[], jtag.tms_level, by simp [tms_loop], rfl, rfl, rfl, rfl⟩
  | succ n ih =>
    obtain ⟨ops1, h1, hc1, ht1, hr1, hw1⟩ := TCK_Cycle_spec env jtag 1 (tmsbits &&& 1) 0
    obtain ⟨ops2, lvl, h2, hc2, ht2, hr2, hw2⟩ :=
      ih (tmsbits >>> 1) (TCK_Cycle env jtag 1 (tmsbits &&& 1) 0).2
    refine ⟨.cycle 1 (tmsbits &&& 1) 0 :: ops1 ++ ops2, lvl, ?_, ?_, ?_, ?_, ?_⟩
    · rw [tms_loop, h2, h1]
      simp
    · simp [cyclesOf, cyclesOf_append, hc1, hc2, tmsArgs]
    · have : tdoSamples ops1 = [] := List.length_eq_zero.mp (by simpa using ht1)
      simp [tdoSamples, tdoSamples_append, this, ht2]
    · simp [dataReads, dataReads_append, hr1, hr2]
    · simp [dataWrites, dataWrites_append, hw1, hw2]

/-- The reset branch of `npcm_jtag_set_tapstate`: whenever the range guard
lets the request through and the target is TestLogicReset. -/
theorem set_tapstate_TLR_spec (env : Env) (past : Nat → TmsCycle) (jtag : jtag_info)
    (from_state : Nat)
    (hfrom : (if from_state = JTAG_STATE_CURRENT then jtag.tapstate else from_state)
      ≤ JTAG_STATE_CURRENT) :
    ∃ ops : List Event,
      npcm_jtag_set_tapstate env past jtag from_state JtagTLR =
        (0, { jtag with tms_level := 1, tapstate := JtagTLR, log := jtag.log ++ ops }) ∧
      cyclesOf ops = List.replicate 9 (1, 1, 0) ∧ tdoSamples ops = [] ∧
      dataReads ops = 0 ∧ dataWrites ops = 0 := by
  obtain ⟨ops, h, hc, ht⟩ := tlr_loop_spec env 9 jtag
  refine ⟨ops, ?_, hc, ht⟩
  unfold npcm_jtag_set_tapstate
  have h1 : ¬ ((if from_state = JTAG_STATE_CURRENT then jtag.tapstate else from_state)
      > JTAG_STATE_CURRENT ∨ JtagTLR > JTAG_STATE_CURRENT) := by
    simp [JtagTLR, JTAG_STATE_CURRENT] at hfrom ⊢
    exact hfrom
  simp only [h1, if_false, if_true, h]
  simp

/-- The table branch of `npcm_jtag_set_tapstate` with a non-zero count. -/
theorem set_tapstate_table_spec (env : Env) (past : Nat → TmsCycle) (jtag : jtag_info)
    (from_state end_state : Nat)
    (hfrom : (if from_state = JTAG_STATE_CURRENT then jtag.tapstate else from_state)
      ≤ JTAG_STATE_CURRENT)
    (hend : end_state ≤ JTAG_STATE_CURRENT) (hne : end_state ≠ JtagTLR)
    (hcount : (tmsCycleAt past
      (if from_state = JTAG_STATE_CURRENT then jtag.tapstate else from_state)
      end_state).count ≠ 0) :
    ∃ (ops : List Event) (lvl : Nat),
      npcm_jtag_set_tapstate env past jtag from_state end_state =
        (0, { jtag with tms_level := lvl, tapstate := end_state, log := jtag.log ++ ops }) ∧
      cyclesOf ops = (tmsArgs
          (tmsCycleAt past
            (if from_state = JTAG_STATE_CURRENT then jtag.tapstate else from_state)
            end_state).tmsbits
          (tmsCycleAt past
            (if from_state = JTAG_STATE_CURRENT then jtag.tapstate else from_state)
            end_state).count).map (fun b => (1, b, 0)) ∧
      tdoSamples ops = [] ∧ dataReads ops = 0 ∧ dataWrites ops = 0 := by
  obtain ⟨ops, lvl, h, hc, ht⟩ := tms_loop_spec env
    (tmsCycleAt past
      (if from_state = JTAG_STATE_CURRENT then jtag.tapstate else from_state)
      end_state).count
    (tmsCycleAt past
      (if from_state = JTAG_STATE_CURRENT then jtag.tapstate else from_state)
      end_state).tmsbits jtag
  refine ⟨ops, lvl, ?_, hc, ht⟩
  unfold npcm_jtag_set_tapstate
  have h1 : ¬ ((if from_state = JTAG_STATE_CURRENT then jtag.tapstate else from_state)
      > JTAG_STATE_CURRENT ∨ end_state > JTAG_STATE_CURRENT) := by
    omega
  simp only [h1, if_false, hne, hcount, h]

/-- The table branch with a zero count returns at once and stores nothing. -/
theorem set_tapstate_zero_count (env : Env) (past : Nat → TmsCycle) (jtag : jtag_info)
    (from_state end_state : Nat)
    (hfrom : (if from_state = JTAG_STATE_CURRENT then jtag.tapstate else from_state)
      ≤ JTAG_STATE_CURRENT)
    (hend : end_state ≤ JTAG_STATE_CURRENT) (hne : end_state ≠ JtagTLR)
    (hcount : (tmsCycleAt past
      (if from_state = JTAG_STATE_CURRENT then jtag.tapstate else from_state)
      end_state).count = 0) :
    npcm_jtag_set_tapstate env past jtag from_state end_state = (0, jtag) := by
  unfold npcm_jtag_set_tapstate
  have h1 : ¬ ((if from_state = JTAG_STATE_CURRENT then jtag.tapstate else from_state)
      > JTAG_STATE_CURRENT ∨ end_state > JTAG_STATE_CURRENT) := by
    omega
  simp only [h1, if_false, hne, hcount]
  simp


/-! ## Claims about `npcm_jtag_set_tapstate` -/

set_option maxRecDepth 100000 in
theorem tapWalk_nine_ones : ∀ s : Fin 16, tapWalk s (List.replicate 9 true) = JtagTLR := by
  decide

/-- C2, at the failing input. With the tracked state at TestLogicReset, the
call `npcm_jtag_set_tapstate(jtag, JtagShfDR, JtagShfDR)` finds count 0 in
the table, returns 0 at once and leaves `tapstate` at TestLogicReset instead
of ShiftDR. -/
theorem set_tapstate_same_state_early_return (env : Env) (past : Nat → TmsCycle)
    (jtag : jtag_info) :
    npcm_jtag_set_tapstate env past { jtag with tapstate := JtagTLR } JtagShfDR JtagShfDR =
        (0, { jtag with tapstate := JtagTLR }) ∧
    (npcm_jtag_set_tapstate env past { jtag with tapstate := JtagTLR }
        JtagShfDR JtagShfDR).2.tapstate ≠ JtagShfDR := by
  have h : npcm_jtag_set_tapstate env past { jtag with tapstate := JtagTLR }
      JtagShfDR JtagShfDR = (0, { jtag with tapstate := JtagTLR }) := by
    apply set_tapstate_zero_count
    · simp [JtagShfDR, JTAG_STATE_CURRENT]
    · simp [JtagShfDR, JTAG_STATE_CURRENT]
    · simp [JtagShfDR, JtagTLR]
    · simp only [JtagShfDR, JTAG_STATE_CURRENT]
      rw [if_neg (by decide), tmsCycleAt_inside past 4 4 (by decide)]
      decide
  refine ⟨h, ?_⟩
  rw [h]
  simp [JtagTLR, JtagShfDR]

/-- C3. Reset override: a request whose target is TestLogicReset issues
exactly 9 clock cycles, each with TMS=1, TDI=0 and no TDO sample, returns 0
and leaves `tapstate` at TestLogicReset; this holds for every explicit `from`
among the 16 states whatever the tracked state is, and for `from` equal to
`JTAG_STATE_CURRENT` with every tracked state of the enumeration.  On the
graph, 9 edges with TMS=1 reach TestLogicReset from each of the 16 states. -/
theorem set_tapstate_reset_override (env : Env) (past : Nat → TmsCycle)
    (jtag : jtag_info) (from_state : Fin 16) (prior : Fin 17) :
    ((npcm_jtag_set_tapstate env past jtag from_state JtagTLR).1 = 0 ∧
      (npcm_jtag_set_tapstate env past jtag from_state JtagTLR).2.tapstate = JtagTLR ∧
      cyclesOf (npcm_jtag_set_tapstate env past jtag from_state JtagTLR).2.log =
        cyclesOf jtag.log ++ List.replicate 9 (1, 1, 0) ∧
      tdoSamples (npcm_jtag_set_tapstate env past jtag from_state JtagTLR).2.log =
        tdoSamples jtag.log) ∧
    ((npcm_jtag_set_tapstate env past { jtag with tapstate := prior }
        JTAG_STATE_CURRENT JtagTLR).1 = 0 ∧
      (npcm_jtag_set_tapstate env past { jtag with tapstate := prior }
        JTAG_STATE_CURRENT JtagTLR).2.tapstate = JtagTLR ∧
      cyclesOf (npcm_jtag_set_tapstate env past { jtag with tapstate := prior }
        JTAG_STATE_CURRENT JtagTLR).2.log =
        cyclesOf jtag.log ++ List.replicate 9 (1, 1, 0) ∧
      tdoSamples (npcm_jtag_set_tapstate env past { jtag with tapstate := prior }
        JTAG_STATE_CURRENT JtagTLR).2.log = tdoSamples jtag.log) ∧
    ∀ s : Fin 16, tapWalk s (List.replicate 9 true) = JtagTLR := by
  have hA : (if from_state.val = JTAG_STATE_CURRENT then jtag.tapstate else from_state.val)
      ≤ JTAG_STATE_CURRENT := by
    have := from_state.isLt
    rw [if_neg (by simp only [JTAG_STATE_CURRENT]; omega)]
    simp only [JTAG_STATE_CURRENT]; omega
  have hB : (if JTAG_STATE_CURRENT = JTAG_STATE_CURRENT
      then ({ jtag with tapstate := prior } : jtag_info).tapstate else JTAG_STATE_CURRENT)
      ≤ JTAG_STATE_CURRENT := by
    have := prior.isLt
    simp only [JTAG_STATE_CURRENT, if_true]; omega
  obtain ⟨opsA, hAeq, hAc, hAt, -, -⟩ := set_tapstate_TLR_spec env past jtag from_state hA
  obtain ⟨opsB, hBeq, hBc, hBt, -, -⟩ :=
    set_tapstate_TLR_spec env past { jtag with tapstate := prior } JTAG_STATE_CURRENT hB
  refine ⟨?_, ?_, tapWalk_nine_ones⟩
  · rw [hAeq]
    simp [cyclesOf_append, tdoSamples_append, hAc, hAt]
  · rw [hBeq]
    simp [cyclesOf_append, tdoSamples_append, hBc, hBt]

/-- C6, at the failing input. The range guard lets `to == JTAG_STATE_CURRENT`
through: `npcm_jtag_set_tapstate(jtag, JtagTLR, JTAG_STATE_CURRENT)` reads the
cell behind row TLR (column 16, which is the entry RTI -> TLR), clocks its three
TMS=1 cycles, stores 16 in `tapstate` and returns 0; the `JTAG_SIOCSTATE`
command returns 0 for the same request. -/
theorem set_tapstate_accepts_current_as_target (env : Env) (past : Nat → TmsCycle)
    (jtag : jtag_info) :
    (npcm_jtag_set_tapstate env past jtag JtagTLR JTAG_STATE_CURRENT).1 = 0 ∧
    (npcm_jtag_set_tapstate env past jtag JtagTLR JTAG_STATE_CURRENT).2.tapstate =
      JTAG_STATE_CURRENT ∧
    cyclesOf (npcm_jtag_set_tapstate env past jtag JtagTLR JTAG_STATE_CURRENT).2.log =
      cyclesOf jtag.log ++ [(1, 1, 0), (1, 1, 0), (1, 1, 0)] ∧
    (jtag_ioctl_SIOCSTATE env past jtag ⟨JtagTLR, JTAG_STATE_CURRENT, 0⟩).1 = 0 := by
  have hcell : tmsCycleAt past JtagTLR JTAG_STATE_CURRENT = ⟨0x07, 3⟩ := by
    simp only [JtagTLR, JTAG_STATE_CURRENT]
    rw [tmsCycleAt_inside past 0 16 (by decide)]
    decide
  have hif : (if JtagTLR = JTAG_STATE_CURRENT then jtag.tapstate else JtagTLR) = JtagTLR := by
    simp [JtagTLR, JTAG_STATE_CURRENT]
  obtain ⟨ops, lvl, h, hc, -, -, -⟩ := set_tapstate_table_spec env past jtag JtagTLR
    JTAG_STATE_CURRENT (by rw [hif]; simp [JtagTLR, JTAG_STATE_CURRENT]) (le_refl _)
    (by simp [JtagTLR, JTAG_STATE_CURRENT]) (by rw [hif, hcell]; simp)
  rw [hif, hcell] at hc
  refine ⟨by rw [h], by rw [h], ?_, ?_⟩
  · rw [h]
    simp [cyclesOf_append, hc, tmsArgs]
  · simp [jtag_ioctl_SIOCSTATE, JtagTLR, JTAG_STATE_CURRENT, JTAG_FORCE_RESET]


/-! ## Hardware-only steps -/

theorem scanCycles_append (a b : List Event) :
    scanCycles (a ++ b) = scanCycles a ++ scanCycles b := by
  simp [scanCycles, cyclesOf_append]

theorem HwStep.hw_refl (j : jtag_info) : HwStep j j 0 0 :=
  ⟨[], ⟨by simp, rfl, rfl, rfl, rfl, rfl, rfl, rfl, rfl, rfl⟩, rfl, rfl⟩

theorem HwStep.hw_trans {j j2 j3 : jtag_info} {r w r2 w2 : Nat}
    (h1 : HwStep j j2 r w) (h2 : HwStep j2 j3 r2 w2) : HwStep j j3 (r + r2) (w + w2) := by
  obtain ⟨a, ⟨ha1, ha2, ha3, ha4, ha5, ha6, ha7, ha8, ha9, ha10⟩, har, haw⟩ := h1
  obtain ⟨b, ⟨hb1, hb2, hb3, hb4, hb5, hb6, hb7, hb8, hb9, hb10⟩, hbr, hbw⟩ := h2
  refine ⟨a ++ b, ⟨?_, ?_, ?_, ?_, ?_, ?_, ?_, ?_, ?_, ?_⟩, ?_, ?_⟩
  · rw [hb1, ha1, List.append_assoc]
  · simp [cyclesOf_append, ha2, hb2]
  · rw [hb3, ha3]
  · rw [hb4, ha4]
  · rw [hb5, ha5]
  · rw [hb6, ha6]
  · rw [hb7, ha7]
  · rw [hb8, ha8]
  · rw [hb9, ha9]
  · rw [hb10, ha10]
  · rw [dataReads_append, har, hbr]
  · rw [dataWrites_append, haw, hbw]

theorem HwStep.emit (j : jtag_info) (e : Event) (he : cyclesOf [e] = []) :
    HwStep j (j.emit e) (dataReads [e]) (dataWrites [e]) :=
  ⟨[e], ⟨rfl, he, rfl, rfl, rfl, rfl, rfl, rfl, rfl, rfl⟩, rfl, rfl⟩

theorem HwStep.readb_stat (env : Env) (j : jtag_info) :
    HwStep j (readb env j PSPI_STAT).2 0 0 := by
  simpa [readb, dataReads, dataWrites, PSPI_STAT, PSPI_DATA] using
    HwStep.emit j (.readb PSPI_STAT (env.reg PSPI_STAT j.log % 256)) rfl

theorem HwStep.readw_stat (env : Env) (j : jtag_info) :
    HwStep j (readw env j PSPI_STAT).2 0 0 := by
  simpa [readw, dataReads, dataWrites, PSPI_STAT, PSPI_DATA] using
    HwStep.emit j (.readw PSPI_STAT (env.reg PSPI_STAT j.log % 65536)) rfl

theorem HwStep.readw_ctl1 (env : Env) (j : jtag_info) :
    HwStep j (readw env j PSPI_CTL1).2 0 0 := by
  simpa [readw, dataReads, dataWrites, PSPI_CTL1, PSPI_DATA] using
    HwStep.emit j (.readw PSPI_CTL1 (env.reg PSPI_CTL1 j.log % 65536)) rfl

theorem HwStep.writew_ctl1 (j : jtag_info) (v : Nat) :
    HwStep j (writew j PSPI_CTL1 v) 0 0 := by
  simpa [writew, dataReads, dataWrites, PSPI_CTL1, PSPI_DATA] using
    HwStep.emit j (.writew PSPI_CTL1 (v % 65536)) rfl

theorem HwStep.readw_data (env : Env) (j : jtag_info) :
    HwStep j (readw env j PSPI_DATA).2 1 0 := by
  simpa [readw, dataReads, dataWrites] using
    HwStep.emit j (.readw PSPI_DATA (env.reg PSPI_DATA j.log % 65536)) rfl

theorem HwStep.readb_data (env : Env) (j : jtag_info) :
    HwStep j (readb env j PSPI_DATA).2 1 0 := by
  simpa [readb, dataReads, dataWrites] using
    HwStep.emit j (.readb PSPI_DATA (env.reg PSPI_DATA j.log % 256)) rfl

theorem HwStep.writew_data (j : jtag_info) (v : Nat) :
    HwStep j (writew j PSPI_DATA v) 0 1 := by
  simpa [writew, dataReads, dataWrites] using
    HwStep.emit j (.writew PSPI_DATA (v % 65536)) rfl

theorem HwStep.writeb_data (j : jtag_info) (v : Nat) :
    HwStep j (writeb j PSPI_DATA v) 0 1 := by
  simpa [writeb, dataReads, dataWrites] using
    HwStep.emit j (.writeb PSPI_DATA (v % 256)) rfl

theorem HwStep.jiffies (env : Env) (j : jtag_info) :
    HwStep j (read_jiffies env j).2 0 0 := by
  simpa [read_jiffies, dataReads, dataWrites] using
    HwStep.emit j (.jiffies (env.jiffies j.log)) rfl

theorem HwStep.config_pins (j : jtag_info) (sel : Nat) :
    HwStep j (npcm_jtag_config_pins j sel) 0 0 := by
  unfold npcm_jtag_config_pins
  split
  · simpa [dataReads, dataWrites] using HwStep.emit j (.regmap_update_bits _ _ _) rfl
  · split
    · simpa [dataReads, dataWrites] using HwStep.emit j (.regmap_update_bits _ _ _) rfl
    · exact HwStep.hw_refl j

theorem HwStep.gpiod_get_tms (env : Env) (j : jtag_info) :
    HwStep j (gpiod_get_value env j .TMS).2 0 0 := by
  simpa [gpiod_get_value, dataReads, dataWrites] using
    HwStep.emit j (.gpiod_get_value .TMS (env.pin .TMS j.log)) rfl

/-- Changing fields that `HwFrame` does not constrain. -/
theorem HwStep.set_tms_level {j j2 : jtag_info} {r w : Nat} (h : HwStep j j2 r w) (v : Nat) :
    HwStep j { j2 with tms_level := v } r w := by
  obtain ⟨a, ⟨ha1, ha2, ha3, ha4, ha5, ha6, ha7, ha8, ha9, ha10⟩, har, haw⟩ := h
  exact ⟨a, ⟨ha1, ha2, ha3, ha4, ha5, ha6, ha7, ha8, ha9, ha10⟩, har, haw⟩

theorem HwStep.then_readb_stat (env : Env) {j j2 : jtag_info} {r w : Nat}
    (h : HwStep j j2 r w) : HwStep j (readb env j2 PSPI_STAT).2 r w :=
  h.hw_trans (HwStep.readb_stat env j2)

theorem HwStep.then_readw_stat (env : Env) {j j2 : jtag_info} {r w : Nat}
    (h : HwStep j j2 r w) : HwStep j (readw env j2 PSPI_STAT).2 r w :=
  h.hw_trans (HwStep.readw_stat env j2)

theorem HwStep.then_readw_ctl1 (env : Env) {j j2 : jtag_info} {r w : Nat}
    (h : HwStep j j2 r w) : HwStep j (readw env j2 PSPI_CTL1).2 r w :=
  h.hw_trans (HwStep.readw_ctl1 env j2)

theorem HwStep.then_writew_ctl1 {j j2 : jtag_info} {r w : Nat}
    (h : HwStep j j2 r w) (v : Nat) : HwStep j (writew j2 PSPI_CTL1 v) r w :=
  h.hw_trans (HwStep.writew_ctl1 j2 v)

theorem HwStep.then_jiffies (env : Env) {j j2 : jtag_info} {r w : Nat}
    (h : HwStep j j2 r w) : HwStep j (read_jiffies env j2).2 r w :=
  h.hw_trans (HwStep.jiffies env j2)

theorem HwStep.then_config_pins {j j2 : jtag_info} {r w : Nat}
    (h : HwStep j j2 r w) (sel : Nat) : HwStep j (npcm_jtag_config_pins j2 sel) r w :=
  h.hw_trans (HwStep.config_pins j2 sel)

theorem HwStep.then_gpiod_get_tms (env : Env) {j j2 : jtag_info} {r w : Nat}
    (h : HwStep j j2 r w) : HwStep j (gpiod_get_value env j2 .TMS).2 r w :=
  h.hw_trans (HwStep.gpiod_get_tms env j2)

theorem HwStep.switch_off (env : Env) (j : jtag_info) :
    HwStep j (jtag_switch_pspi_off env j) 0 0 := by
  unfold jtag_switch_pspi_off
  apply HwStep.set_tms_level
  apply HwStep.then_gpiod_get_tms
  apply HwStep.then_config_pins
  apply HwStep.then_writew_ctl1
  apply HwStep.then_readw_ctl1
  exact HwStep.hw_refl j

theorem HwStep.then_switch_off (env : Env) {j j2 : jtag_info} {r w : Nat}
    (h : HwStep j j2 r w) : HwStep j (jtag_switch_pspi_off env j2) r w :=
  h.hw_trans (HwStep.switch_off env j2)

theorem HwStep.switch_on (env : Env) (j j2 : jtag_info)
    (h : jtag_switch_pspi env j true = .ok j2) : HwStep j j2 0 0 := by
  unfold jtag_switch_pspi at h
  simp only [if_true] at h
  split at h
  · exact Except.noConfusion h
  · split at h
    · cases h; exact HwStep.hw_refl j
    · split at h <;> cases h <;>
        repeat (first
          | exact HwStep.hw_refl j
          | apply HwStep.then_readw_stat
          | apply HwStep.then_readb_stat
          | apply HwStep.then_writew_ctl1
          | apply HwStep.then_readw_ctl1
          | apply HwStep.then_config_pins)


/-! ## The scan loop on the bit-bang path -/

theorem Frame.frame_refl (j : jtag_info) : Frame j j [] :=
  ⟨by simp, rfl, rfl, rfl, rfl, rfl, rfl, rfl⟩

theorem Frame.frame_trans {j j2 j3 : jtag_info} {a b : List Event}
    (h1 : Frame j j2 a) (h2 : Frame j2 j3 b) : Frame j j3 (a ++ b) := by
  obtain ⟨ha1, ha2, ha3, ha4, ha5, ha6, ha7, ha8⟩ := h1
  obtain ⟨hb1, hb2, hb3, hb4, hb5, hb6, hb7, hb8⟩ := h2
  refine ⟨?_, ?_, ?_, ?_, ?_, ?_, ?_, ?_⟩
  · rw [hb1, ha1, List.append_assoc]
  · rw [hb2, ha2]
  · rw [hb3, ha3]
  · rw [hb4, ha4]
  · rw [hb5, ha5]
  · rw [hb6, ha6]
  · rw [hb7, ha7]
  · rw [hb8, ha8]

theorem HwFrame.toFrame {j j2 : jtag_info} {ops : List Event} (h : HwFrame j j2 ops) :
    Frame j j2 ops := by
  obtain ⟨h1, -, -, h4, h5, h6, h7, h8, h9, h10⟩ := h
  exact ⟨h1, h4, h5, h6, h7, h8, h9, h10⟩

/-- One bit-bang iteration of the scan loop: exactly one sampled clock cycle,
whose TMS is `scan_tms`, no traffic on the data register, and the tracked
state moves to Exit1 exactly when TMS is high. -/
theorem scan_gpio_step_spec (env : Env) (x : scan_xfer) (tdi : Nat → Nat)
    (jtag : jtag_info) (l : scan_locals) :
    ∃ (ops : List Event) (bit : Nat),
      Frame jtag (scan_gpio_step env x tdi jtag l).1 ops ∧
      cyclesOf ops = [(0, scan_tms x l, bit)] ∧
      dataReads ops = 0 ∧ dataWrites ops = 0 ∧
      (scan_gpio_step env x tdi jtag l).1.tapstate =
        (if scan_tms x l ≠ 0 then exit1Of jtag.tapstate else jtag.tapstate) ∧
      (scan_gpio_step env x tdi jtag l).2.bit_index = l.bit_index + 1 ∧
      (scan_gpio_step env x tdi jtag l).2.xfer_bits = l.xfer_bits ∧
      (scan_gpio_step env x tdi jtag l).2.remain_bits = l.remain_bits := by
  obtain ⟨pre, ⟨hp1, hp2, hp3, hp4, hp5, hp6, hp7, hp8, hp9, hp10⟩, hpr, hpw⟩ :
      HwStep jtag (if l.use_pspi then jtag_switch_pspi_off env jtag else jtag) 0 0 := by
    split
    · exact HwStep.switch_off env jtag
    · exact HwStep.hw_refl jtag
  obtain ⟨ops, h, hc, -, hr, hw⟩ := TCK_Cycle_spec env
    (if l.use_pspi then jtag_switch_pspi_off env jtag else jtag) 0 (scan_tms x l)
    (if l.bit_index / 8 < l.tdi_bytes then (tdi l.tdi_p >>> (l.bit_index % 8)) &&& 1 else 0)
  refine ⟨pre ++ .cycle 0 (scan_tms x l)
      (if l.bit_index / 8 < l.tdi_bytes then (tdi l.tdi_p >>> (l.bit_index % 8)) &&& 1 else 0)
      :: ops,
    (if l.bit_index / 8 < l.tdi_bytes then (tdi l.tdi_p >>> (l.bit_index % 8)) &&& 1 else 0),
    ?_, ?_, ?_, ?_, ?_, rfl, rfl, rfl⟩
  · unfold scan_gpio_step
    simp only [h]
    refine ⟨?_, ?_, ?_, ?_, ?_, ?_, ?_, ?_⟩ <;> split <;> simp [*]
  · simp [cyclesOf_append, cyclesOf, hp2, hc]
  · simp [dataReads_append, dataReads, hpr, hr]
  · simp [dataWrites_append, dataWrites, hpw, hw]
  · unfold scan_gpio_step exit1Of
    simp only [h]
    split <;> simp [*]

theorem scan_tms_eq (x : scan_xfer) (l : scan_locals) (h : l.bit_index < l.xfer_bits) :
    scan_tms x l =
      (if leavesShift x.end_tap_state ∧ l.xfer_bits - (l.bit_index + 1) = 0 then 1 else 0) := by
  unfold scan_tms leavesShift
  have e : (l.bit_index = l.xfer_bits - 1) ↔ (l.xfer_bits - (l.bit_index + 1) = 0) := by omega
  by_cases h1 : l.bit_index = l.xfer_bits - 1
  · have h2 := e.mp h1
    by_cases h3 : x.end_tap_state ≠ JtagShfDR ∧ x.end_tap_state ≠ JtagShfIR
    · rw [if_pos ⟨h1, h3⟩, if_pos ⟨h3, h2⟩]
    · have h4 : ¬ (l.bit_index = l.xfer_bits - 1 ∧ x.end_tap_state ≠ JtagShfDR ∧
          x.end_tap_state ≠ JtagShfIR) := fun hh => h3 hh.2
      have h5 : ¬ ((x.end_tap_state ≠ JtagShfDR ∧ x.end_tap_state ≠ JtagShfIR) ∧
          l.xfer_bits - (l.bit_index + 1) = 0) := fun hh => h3 hh.1
      rw [if_neg h4, if_neg h5]
  · have h2 : ¬ (l.xfer_bits - (l.bit_index + 1) = 0) := fun hh => h1 (e.mpr hh)
    have h4 : ¬ (l.bit_index = l.xfer_bits - 1 ∧ x.end_tap_state ≠ JtagShfDR ∧
        x.end_tap_state ≠ JtagShfIR) := fun hh => h1 hh.1
    have h5 : ¬ ((x.end_tap_state ≠ JtagShfDR ∧ x.end_tap_state ≠ JtagShfIR) ∧
        l.xfer_bits - (l.bit_index + 1) = 0) := fun hh => h2 hh.2
    rw [if_neg h4, if_neg h5]

theorem scanTmsArgs_succ (e k : Nat) :
    scanTmsArgs e (k + 1) = (if leavesShift e ∧ k = 0 then 1 else 0) :: scanTmsArgs e k := by
  unfold scanTmsArgs
  by_cases hl : leavesShift e
  · cases k with
    | zero => simp [hl]
    | succ k => simp [hl, List.replicate_succ]
  · simp [hl, List.replicate_succ]

theorem scanTmsArgs_length (e k : Nat) : (scanTmsArgs e k).length = k := by
  unfold scanTmsArgs
  split
  · rename_i h
    simp
    omega
  · simp

/-- Once the loop is on the bit-bang path it stays there: it clocks one
sampled cycle per remaining bit, raises TMS on the last one exactly when the
end state leaves Shift, and then ends. -/
theorem scan_loop_gpio (env : Env) (x : scan_xfer) (unit_len : Nat) (tdi : Nat → Nat)
    (fuel : Nat) :
    ∀ (n : Nat) (jtag : jtag_info) (l : scan_locals),
      scan_use_gpio unit_len jtag x l = true → l.bit_index ≤ l.xfer_bits →
      l.xfer_bits - l.bit_index ≤ n →
      ∃ (jtag2 : jtag_info) (l2 : scan_locals) (ops : List Event),
        scan_loop env x unit_len tdi fuel n jtag l = .ok (none, jtag2, l2) ∧
        Frame jtag jtag2 ops ∧
        (cyclesOf ops).map (fun c => c.1) = List.replicate (l.xfer_bits - l.bit_index) 0 ∧
        (cyclesOf ops).map (fun c => c.2.1) =
          scanTmsArgs x.end_tap_state (l.xfer_bits - l.bit_index) ∧
        dataReads ops = 0 ∧ dataWrites ops = 0 ∧
        jtag2.tapstate =
          (if leavesShift x.end_tap_state ∧ 0 < l.xfer_bits - l.bit_index
            then exit1Of jtag.tapstate else jtag.tapstate) := by
  intro n
  induction n with
  | zero =>
    intro jtag l _ hle hn
    have hk : l.xfer_bits - l.bit_index = 0 := by omega
    refine ⟨jtag, l, [], ?_, Frame.frame_refl jtag, ?_, ?_, rfl, rfl, ?_⟩
    · have : ¬ l.bit_index < l.xfer_bits := by omega
      simp [scan_loop, this]
    · simp [hk, cyclesOf]
    · simp [hk, cyclesOf, scanTmsArgs]
    · simp [hk]
  | succ n ih =>
    intro jtag l hg hle hn
    by_cases hlt : l.bit_index < l.xfer_bits
    · obtain ⟨ops1, bit, hf1, hc1, hr1, hw1, ht1, hb1, hx1, hrem1⟩ :=
        scan_gpio_step_spec env x tdi jtag l
      have hg2 : scan_use_gpio unit_len (scan_gpio_step env x tdi jtag l).1 x
          (scan_gpio_step env x tdi jtag l).2 = true := by
        unfold scan_use_gpio at hg ⊢
        rw [hrem1, hf1.2.1]
        exact hg
      obtain ⟨jtag2, l2, ops2, hl2, hf2, hc2, hm2, hr2, hw2, ht2⟩ :=
        ih (scan_gpio_step env x tdi jtag l).1 (scan_gpio_step env x tdi jtag l).2 hg2
          (by rw [hb1, hx1]; omega) (by rw [hb1, hx1]; omega)
      rw [hb1, hx1] at hc2 hm2 ht2
      have hk : l.xfer_bits - l.bit_index = (l.xfer_bits - (l.bit_index + 1)) + 1 := by omega
      refine ⟨jtag2, l2, ops1 ++ ops2, ?_, hf1.frame_trans hf2, ?_, ?_, ?_, ?_, ?_⟩
      · rw [scan_loop, if_pos hlt, if_pos hg]
        exact hl2
      · rw [hk, cyclesOf_append, hc1, List.map_append, hc2, List.replicate_succ]
        simp
      · rw [hk, scanTmsArgs_succ, cyclesOf_append, hc1, List.map_append, hm2,
          scan_tms_eq x l hlt]
        simp
      · rw [dataReads_append, hr1, hr2]
      · rw [dataWrites_append, hw1, hw2]
      · rw [ht2, ht1, scan_tms_eq x l hlt]
        by_cases hl : leavesShift x.end_tap_state
        · by_cases h0 : l.xfer_bits - (l.bit_index + 1) = 0
          · have : 0 < l.xfer_bits - l.bit_index := by omega
            simp [hl, h0, this]
          · have : 0 < l.xfer_bits - l.bit_index := by omega
            have h1 : 0 < l.xfer_bits - (l.bit_index + 1) := by omega
            simp [hl, h0, this, h1]
        · simp [hl]
    · have hk : l.xfer_bits - l.bit_index = 0 := by omega
      refine ⟨jtag, l, [], ?_, Frame.frame_refl jtag, ?_, ?_, rfl, rfl, ?_⟩
      · simp [scan_loop, hlt]
      · simp [hk, cyclesOf]
      · simp [hk, cyclesOf, scanTmsArgs]
      · simp [hk]


/-! ## The closing transition and the scan in bit-bang mode -/

theorem tapWalk_append (s : Nat) (a b : List Bool) :
    tapWalk s (a ++ b) = tapWalk (tapWalk s a) b := by
  induction a generalizing s with
  | nil => rfl
  | cons t rest ih => simp [tapWalk, ih]

theorem tapWalk_shift_zeros (s : Nat) (hs : s = JtagShfDR ∨ s = JtagShfIR) (n : Nat) :
    tapWalk s (List.replicate n false) = s := by
  induction n with
  | zero => rfl
  | succ n ih =>
    rw [List.replicate_succ, tapWalk]
    have h4 : tapNext JtagShfDR false = JtagShfDR := by decide
    have h11 : tapNext JtagShfIR false = JtagShfIR := by decide
    rcases hs with h | h
    · rw [h] at ih ⊢; rw [h4]; exact ih
    · rw [h] at ih ⊢; rw [h11]; exact ih

/-- On the graph, the TMS values of the scan cycles keep a Shift state where
it is, or move it to the Exit1 state of the same register on the last bit. -/
theorem tapWalk_scanTmsArgs (s : Nat) (hs : s = JtagShfDR ∨ s = JtagShfIR) (e k : Nat) :
    tapWalk s ((scanTmsArgs e k).map (fun v => v != 0)) =
      (if leavesShift e ∧ 0 < k then exit1Of s else s) := by
  unfold scanTmsArgs
  by_cases h : leavesShift e ∧ 0 < k
  · rw [if_pos h, if_pos h, List.map_append, tapWalk_append]
    have : (List.replicate (k - 1) 0).map (fun v => v != 0) = List.replicate (k - 1) false := by
      simp
    rw [this, tapWalk_shift_zeros s hs]
    have h4 : tapNext JtagShfDR true = exit1Of JtagShfDR := by decide
    have h11 : tapNext JtagShfIR true = exit1Of JtagShfIR := by decide
    rcases hs with h | h
    · rw [h]; simpa [tapWalk] using h4
    · rw [h]; simpa [tapWalk] using h11
  · rw [if_neg h, if_neg h]
    have : (List.replicate k 0).map (fun v => v != 0) = List.replicate k false := by
      simp
    rw [this, tapWalk_shift_zeros s hs]

set_option maxRecDepth 100000 in
theorem table_count_zero_diag : ∀ frm dst : Fin 16,
    (tmsCycleCells.getD (frm.val * 16 + dst.val) ⟨0, 0⟩).count = 0 → frm = dst := by
  decide!

/-- The transition `npcm_jtag_set_tapstate(jtag, JTAG_STATE_CURRENT, E)` from
a tracked state among the 16 TAP states to a target among them: it returns 0,
leaves `tapstate == E`, samples nothing, and the TMS levels it clocks lead
from the tracked state to `E` on the graph. -/
theorem set_tapstate_current_spec (env : Env) (past : Nat → TmsCycle) (jtag : jtag_info)
    (E : Nat) (hm : jtag.tapstate < 16) (hE : E < 16) :
    ∃ ops : List Event,
      (npcm_jtag_set_tapstate env past jtag JTAG_STATE_CURRENT E).1 = 0 ∧
      (npcm_jtag_set_tapstate env past jtag JTAG_STATE_CURRENT E).2.tapstate = E ∧
      Frame jtag (npcm_jtag_set_tapstate env past jtag JTAG_STATE_CURRENT E).2 ops ∧
      scanCycles ops = [] ∧ dataReads ops = 0 ∧ dataWrites ops = 0 ∧
      tapWalk jtag.tapstate ((cyclesOf ops).map tmsLevel) = E := by
  have hif : (if JTAG_STATE_CURRENT = JTAG_STATE_CURRENT then jtag.tapstate
      else JTAG_STATE_CURRENT) = jtag.tapstate := by simp
  have hfrom : (if JTAG_STATE_CURRENT = JTAG_STATE_CURRENT then jtag.tapstate
      else JTAG_STATE_CURRENT) ≤ JTAG_STATE_CURRENT := by
    rw [hif]; simp only [JTAG_STATE_CURRENT]; omega
  have hEle : E ≤ JTAG_STATE_CURRENT := by simp only [JTAG_STATE_CURRENT]; omega
  by_cases hT : E = JtagTLR
  · subst hT
    obtain ⟨ops, h, hc, -, hr, hw⟩ := set_tapstate_TLR_spec env past jtag JTAG_STATE_CURRENT hfrom
    refine ⟨ops, by rw [h], by rw [h], ?_, ?_, ?_, ?_, ?_⟩
    · rw [h]; exact ⟨rfl, rfl, rfl, rfl, rfl, rfl, rfl, rfl⟩
    · simp [scanCycles, hc]
    · exact hr
    · exact hw
    · rw [hc]
      have := tapWalk_nine_ones ⟨jtag.tapstate, hm⟩
      simpa [tmsLevel] using this
  · have hcell : tmsCycleAt past jtag.tapstate E =
        tmsCycleCells.getD (jtag.tapstate * 16 + E) ⟨0, 0⟩ :=
      tmsCycleAt_inside past jtag.tapstate E (by omega)
    by_cases hcount : (tmsCycleAt past jtag.tapstate E).count = 0
    · have hz := set_tapstate_zero_count env past jtag JTAG_STATE_CURRENT E hfrom hEle hT
        (by rw [hif]; exact hcount)
      have hdiag := table_count_zero_diag ⟨jtag.tapstate, hm⟩ ⟨E, hE⟩
        (by rw [hcell] at hcount; exact hcount)
      have hEq : jtag.tapstate = E := congrArg Fin.val hdiag
      refine ⟨[], by rw [hz], by rw [hz]; exact hEq, by rw [hz]; exact Frame.frame_refl jtag,
        rfl, rfl, rfl, ?_⟩
      simpa [cyclesOf, tapWalk] using hEq
    · obtain ⟨ops, lvl, h, hc, -, hr, hw⟩ := set_tapstate_table_spec env past jtag
        JTAG_STATE_CURRENT E hfrom hEle hT (by rw [hif]; exact hcount)
      rw [hif] at hc
      refine ⟨ops, by rw [h], by rw [h], ?_, ?_, hr, hw, ?_⟩
      · rw [h]; exact ⟨rfl, rfl, rfl, rfl, rfl, rfl, rfl, rfl⟩
      · rw [scanCycles, hc]
        simp
      · rw [hc, hcell]
        have := table_walk_all ⟨jtag.tapstate, hm⟩ ⟨E, hE⟩
        simpa [tmsLevels, tmsLevel, Function.comp_def] using this

/-- Outside hardware-assisted mode a scan from a Shift state with buffers
that pass the null checks returns 0, given a loop bound of at least `N`. -/
theorem scan_bitbang_returns (env : Env) (past : Nat → TmsCycle) (fuel : Nat)
    (jtag : jtag_info) (x : scan_xfer) (tdi tdo : Option (Nat → Nat))
    (hmode : jtag.mode ≠ MODE_PSPI)
    (hX : jtag.tapstate = JtagShfDR ∨ jtag.tapstate = JtagShfIR)
    (hN : 1 ≤ x.length)
    (htdi : tdi.isNone → x.tdi_bytes = 0) (htdo : tdo.isNone → x.tdo_bytes = 0)
    (hfuel : x.length ≤ fuel) :
    ∃ r : scan_result,
      npcm_jtag_readwrite_scan env past fuel jtag x tdi tdo = .ok r ∧ r.ret = 0 := by
  have hg : scan_use_gpio (jtag.pspi.mode * 8) jtag x (scan_init x tdo) = true := by
    simp [scan_use_gpio, hmode]
  obtain ⟨mid, l, scanOps, hloop, -⟩ :=
    scan_loop_gpio env x (jtag.pspi.mode * 8) (tdi.getD (fun _ => 0)) fuel fuel jtag
      (scan_init x tdo) hg (by simp [scan_init]) (by simpa [scan_init] using hfuel)
  refine ⟨⟨0, (npcm_jtag_set_tapstate env past mid JTAG_STATE_CURRENT x.end_tap_state).2,
    tdo.map (fun _ => l.tdo)⟩, ?_, rfl⟩
  unfold npcm_jtag_readwrite_scan
  have h1 : ¬ (jtag.tapstate ≠ JtagShfDR ∧ jtag.tapstate ≠ JtagShfIR) := by
    rcases hX with h | h <;> simp [h]
  have h2 : ¬ x.length = 0 := by omega
  have h3 : ¬ (tdi.isNone = true ∧ x.tdi_bytes ≠ 0) := fun hh => hh.2 (htdi hh.1)
  have h4 : ¬ (tdo.isNone = true ∧ x.tdo_bytes ≠ 0) := fun hh => hh.2 (htdo hh.1)
  have h5 : ¬ (jtag.mode = MODE_PSPI ∧ (scan_init x tdo).remain_bits > jtag.pspi.mode * 8) :=
    fun hh => hmode hh.1
  have h6 : ¬ ((scan_init x tdo).use_pspi = true ∧ jtag.pspi.enable_irq = true) := by
    simp [scan_init]
  rw [if_neg h1, if_neg h2, if_neg h3, if_neg h4]
  simp only [scan_enable, if_neg h5, scan_bulk, if_neg h6, scan_finish, hloop]


/-! ## Claims about `npcm_jtag_readwrite_scan` -/

/-- C7. Scan precondition and atomicity: when the tracked state is neither
ShiftDR nor ShiftIR, or when the length is 0, the scan returns `-EINVAL`
with the driver state (tracked state, cached TMS level, hardware channel,
log of accesses) and the output buffer exactly as they were: no clock cycle
and no hardware access is made. -/
theorem scan_rejects_bad_state_or_length (env : Env) (past : Nat → TmsCycle) (fuel : Nat)
    (jtag : jtag_info) (x : scan_xfer) (tdi tdo : Option (Nat → Nat))
    (h : (jtag.tapstate ≠ JtagShfDR ∧ jtag.tapstate ≠ JtagShfIR) ∨ x.length = 0) :
    npcm_jtag_readwrite_scan env past fuel jtag x tdi tdo = .ok ⟨-EINVAL, jtag, tdo⟩ := by
  unfold npcm_jtag_readwrite_scan
  by_cases h1 : jtag.tapstate ≠ JtagShfDR ∧ jtag.tapstate ≠ JtagShfIR
  · rw [if_pos h1]
  · rcases h with h | h
    · exact absurd h h1
    · rw [if_neg h1, if_pos h]

theorem scan_rejects_bad_state_or_length_witness :
    npcm_jtag_readwrite_scan ⟨fun _ _ => 0, fun _ _ => 0, fun _ => 0⟩ (fun _ => ⟨0, 0⟩) 0
        ⟨⟨0, false, 2, fun _ => 0, fun _ => 0, 0, 0, 0, 0, false⟩, 0, 1, 1, JtagRTI, true,
          MODE_GPIO, GPIOCTRL_DIRECT, []⟩
        ⟨8, 1, 1, JtagRTI⟩ (some fun _ => 0) (some fun _ => 0) =
      .ok ⟨-EINVAL,
        ⟨⟨0, false, 2, fun _ => 0, fun _ => 0, 0, 0, 0, 0, false⟩, 0, 1, 1, JtagRTI, true,
          MODE_GPIO, GPIOCTRL_DIRECT, []⟩, some fun _ => 0⟩ :=
  scan_rejects_bad_state_or_length _ _ 0 _ ⟨8, 1, 1, JtagRTI⟩ _ _ (Or.inl ⟨by decide, by decide⟩)

/-- C8. In bit-bang mode, a scan of `N >= 1` bits from ShiftDR or ShiftIR
to any of the 16 TAP states returns 0 with `tapstate` at the end state.  The
loop clocks `N` sampled cycles (`scanOps`) and leaves the driver in `mid`,
from where the closing transition (`closeOps`) is made; the TMS levels of all
cycles, replayed on the graph from the start state, end in the end state.
When the end state is not a Shift state, TMS is 1 on exactly the `N`-th scan
cycle and `mid` tracks the Exit1 state of the same register, which is also
where the graph is after the scan cycles. -/
theorem scan_bitbang_mode (env : Env) (past : Nat → TmsCycle) (fuel : Nat)
    (jtag : jtag_info) (x : scan_xfer) (tdi tdo : Option (Nat → Nat))
    (hmode : jtag.mode = MODE_GPIO)
    (hX : jtag.tapstate = JtagShfDR ∨ jtag.tapstate = JtagShfIR)
    (hN : 1 ≤ x.length) (hE : x.end_tap_state < 16)
    (htdi : tdi.isNone → x.tdi_bytes = 0) (htdo : tdo.isNone → x.tdo_bytes = 0)
    (hfuel : x.length ≤ fuel) :
    ∃ (r : scan_result) (mid : jtag_info) (l : scan_locals) (scanOps closeOps : List Event),
      npcm_jtag_readwrite_scan env past fuel jtag x tdi tdo = .ok r ∧
      r.ret = 0 ∧ r.jtag.tapstate = x.end_tap_state ∧
      scan_loop env x (jtag.pspi.mode * 8) (tdi.getD (fun _ => 0)) fuel fuel jtag
        (scan_init x tdo) = .ok (none, mid, l) ∧
      r.jtag = (npcm_jtag_set_tapstate env past mid JTAG_STATE_CURRENT x.end_tap_state).2 ∧
      mid.log = jtag.log ++ scanOps ∧ r.jtag.log = mid.log ++ closeOps ∧
      (cyclesOf scanOps).map (fun c => c.1) = List.replicate x.length 0 ∧
      (cyclesOf scanOps).map (fun c => c.2.1) = scanTmsArgs x.end_tap_state x.length ∧
      scanCycles closeOps = [] ∧
      tapWalk jtag.tapstate ((cyclesOf (scanOps ++ closeOps)).map tmsLevel) =
        x.end_tap_state ∧
      (leavesShift x.end_tap_state →
        (cyclesOf scanOps).map (fun c => c.2.1) = List.replicate (x.length - 1) 0 ++ [1] ∧
        mid.tapstate = exit1Of jtag.tapstate ∧
        tapWalk jtag.tapstate ((cyclesOf scanOps).map tmsLevel) = exit1Of jtag.tapstate) := by
  have hg : scan_use_gpio (jtag.pspi.mode * 8) jtag x (scan_init x tdo) = true := by
    simp [scan_use_gpio, hmode, MODE_GPIO, MODE_PSPI]
  obtain ⟨mid, l, scanOps, hloop, hf, hc0, hcm, -, -, hmt⟩ :=
    scan_loop_gpio env x (jtag.pspi.mode * 8) (tdi.getD (fun _ => 0)) fuel fuel jtag
      (scan_init x tdo) hg
      (by simp [scan_init]) (by simpa [scan_init] using hfuel)
  have hk : (scan_init x tdo).xfer_bits - (scan_init x tdo).bit_index = x.length := by
    simp [scan_init]
  rw [hk] at hc0 hcm hmt
  have hmid16 : mid.tapstate < 16 := by
    rw [hmt]
    unfold exit1Of
    rcases hX with h | h <;> rw [h] <;> split <;>
      simp [JtagShfDR, JtagShfIR, JtagEx1DR, JtagEx1IR]
  obtain ⟨closeOps, hret, htap, hfc, hsc, -, -, hwalk⟩ :=
    set_tapstate_current_spec env past mid x.end_tap_state hmid16 hE
  have hwalkScan : tapWalk jtag.tapstate ((cyclesOf scanOps).map tmsLevel) = mid.tapstate := by
    have := tapWalk_scanTmsArgs jtag.tapstate hX x.end_tap_state x.length
    rw [← hcm, List.map_map] at this
    rw [hmt]
    have hpos : (0 < x.length) := hN
    simpa [hpos, tmsLevel, Function.comp_def] using this
  refine ⟨⟨0, (npcm_jtag_set_tapstate env past mid JTAG_STATE_CURRENT x.end_tap_state).2,
      tdo.map (fun _ => l.tdo)⟩, mid, l, scanOps, closeOps, ?_, rfl, htap, hloop, rfl, hf.1,
      hfc.1, hc0, hcm, hsc, ?_, ?_⟩
  · unfold npcm_jtag_readwrite_scan
    have h1 : ¬ (jtag.tapstate ≠ JtagShfDR ∧ jtag.tapstate ≠ JtagShfIR) := by
      rcases hX with h | h <;> simp [h]
    have h2 : ¬ x.length = 0 := by omega
    have h3 : ¬ (tdi.isNone = true ∧ x.tdi_bytes ≠ 0) := fun hh => hh.2 (htdi hh.1)
    have h4 : ¬ (tdo.isNone = true ∧ x.tdo_bytes ≠ 0) := fun hh => hh.2 (htdo hh.1)
    have h5 : ¬ (jtag.mode = MODE_PSPI ∧ (scan_init x tdo).remain_bits > jtag.pspi.mode * 8) := by
      simp [hmode, MODE_GPIO, MODE_PSPI]
    have h6 : ¬ ((scan_init x tdo).use_pspi = true ∧ jtag.pspi.enable_irq = true) := by
      simp [scan_init]
    rw [if_neg h1, if_neg h2, if_neg h3, if_neg h4]
    simp only [scan_enable, if_neg h5, scan_bulk, if_neg h6, scan_finish, hloop]
  · rw [cyclesOf_append, List.map_append, tapWalk_append, hwalkScan]
    exact hwalk
  · intro hl
    have hpos : (0 < x.length) := hN
    refine ⟨?_, ?_, ?_⟩
    · rw [hcm]; simp [scanTmsArgs, hl, hpos]
    · rw [hmt]; simp [hl, hpos]
    · rw [hwalkScan, hmt]; simp [hl, hpos]


/-! ## The polled hardware path and the scan loop in general -/

theorem pspi_poll_spec (env : Env) (waiting : Nat → Bool) (timeout : Nat) :
    ∀ (n : Nat) (jtag jtag2 : jtag_info) (b : Bool),
      pspi_poll env waiting timeout n jtag = .ok (b, jtag2) → HwStep jtag jtag2 0 0 := by
  intro n
  induction n with
  | zero => intro jtag jtag2 b h; simp [pspi_poll] at h
  | succ n ih =>
    intro jtag jtag2 b h
    rw [pspi_poll] at h
    simp only at h
    split at h
    · split at h
      · cases h
        exact ((HwStep.readb_stat env jtag).then_jiffies env).hw_trans
          (HwStep.emit _ .time_after rfl)
      · exact ((HwStep.readb_stat env jtag).then_jiffies env).hw_trans (ih _ _ _ h)
    · cases h
      exact HwStep.readb_stat env jtag

/-- One iteration on the polled hardware path: either it times out, having
read no word, or it writes one word, reads one word back and advances the
bit index by one unit. -/
theorem scan_pspi_step_spec (env : Env) (fuel unit_len : Nat) (tdi : Nat → Nat)
    (jtag jtag2 : jtag_info) (l l2 : scan_locals) (ret : Option Int)
    (h : scan_pspi_step env fuel unit_len tdi jtag l = .ok (ret, jtag2, l2)) :
    (ret = none ∧ HwStep jtag jtag2 1 1 ∧ l2.bit_index = l.bit_index + unit_len ∧
      l2.remain_bits = l.remain_bits - unit_len ∧ l2.xfer_bits = l.xfer_bits) ∨
    (ret = some (-ETIMEDOUT) ∧ ∃ w : Nat, HwStep jtag jtag2 0 w) := by
  unfold scan_pspi_step at h
  simp only at h
  split at h
  · exact Except.noConfusion h
  · rename_i j1 hp1
    cases h
    right
    exact ⟨rfl, 0, ((HwStep.jiffies env jtag).hw_trans (pspi_poll_spec _ _ _ _ _ _ _ hp1)).then_switch_off env⟩
  · rename_i j1 hp1
    have s1 : HwStep jtag j1 0 0 :=
      (HwStep.jiffies env jtag).hw_trans (pspi_poll_spec _ _ _ _ _ _ _ hp1)
    have s2 : HwStep jtag
        (if l.bit_index / 8 + 1 < l.tdi_bytes then
          writew j1 PSPI_DATA ((REVERSE (tdi l.tdi_p) <<< 8) ||| REVERSE (tdi (l.tdi_p + 1)))
        else writew j1 PSPI_DATA 0) 0 1 := by
      split
      · exact s1.hw_trans (HwStep.writew_data j1 _)
      · exact s1.hw_trans (HwStep.writew_data j1 _)
    split at h
    · exact Except.noConfusion h
    · rename_i j2 hp2
      cases h
      right
      exact ⟨rfl, 1, ((s2.then_jiffies env).hw_trans (pspi_poll_spec _ _ _ _ _ _ _ hp2)).then_switch_off env⟩
    · rename_i j2 hp2
      cases h
      left
      refine ⟨rfl, ?_, rfl, rfl, rfl⟩
      exact ((s2.then_jiffies env).hw_trans (pspi_poll_spec _ _ _ _ _ _ _ hp2)).hw_trans
        (HwStep.readw_data env j2)

theorem scan_use_gpio_false (unit_len : Nat) (jtag : jtag_info) (x : scan_xfer)
    (l : scan_locals) (h : ¬ scan_use_gpio unit_len jtag x l = true) :
    jtag.mode = MODE_PSPI ∧ unit_len ≤ l.remain_bits ∧
      (l.remain_bits = unit_len → x.end_tap_state = JtagShfDR) := by
  unfold scan_use_gpio at h
  simp only [decide_eq_true_eq, not_or, not_and, not_not, not_lt, ne_eq] at h
  exact h

/-- The scan loop in any mode.  Every cycle it clocks samples TDO.  When it
runs to its end, each polled unit was written and read once, the units and the
bit-bang cycles together account for the bits that were left, TMS is high on
the last cycle exactly when the end state leaves Shift, and the tracked state
follows.  When it returns early it has timed out before any cycle was
clocked. -/
theorem scan_loop_spec (env : Env) (x : scan_xfer) (unit_len : Nat) (tdi : Nat → Nat)
    (fuel : Nat) :
    ∀ (n : Nat) (jtag : jtag_info) (l : scan_locals) (ret : Option Int)
      (jtag2 : jtag_info) (l2 : scan_locals),
      l.bit_index ≤ l.xfer_bits →
      (scan_use_gpio unit_len jtag x l = true ∨ l.bit_index + l.remain_bits = l.xfer_bits) →
      scan_loop env x unit_len tdi fuel n jtag l = .ok (ret, jtag2, l2) →
      ∃ ops : List Event,
        Frame jtag jtag2 ops ∧
        (cyclesOf ops).map (fun c => c.1) = List.replicate (cyclesOf ops).length 0 ∧
        (scan_use_gpio unit_len jtag x l = true → ret = none ∧ dataReads ops = 0) ∧
        (ret = none →
          (cyclesOf ops).map (fun c => c.2.1) =
            scanTmsArgs x.end_tap_state (cyclesOf ops).length ∧
          unit_len * dataReads ops + (cyclesOf ops).length = l.xfer_bits - l.bit_index ∧
          dataWrites ops = dataReads ops ∧
          jtag2.tapstate =
            (if leavesShift x.end_tap_state ∧ 0 < (cyclesOf ops).length
              then exit1Of jtag.tapstate else jtag.tapstate)) ∧
        (ret ≠ none →
          ret = some (-ETIMEDOUT) ∧ cyclesOf ops = [] ∧ dataReads ops ≤ dataWrites ops ∧
          jtag2.tapstate = jtag.tapstate) := by
  intro n
  induction n with
  | zero =>
    intro jtag l ret jtag2 l2 hle _ h
    rw [scan_loop] at h
    split at h
    · exact Except.noConfusion h
    · rename_i hlt
      cases h
      have hk : l.xfer_bits - l.bit_index = 0 := by omega
      exact ⟨[], Frame.frame_refl jtag, by simp [cyclesOf], fun _ => ⟨rfl, rfl⟩,
        fun _ => ⟨by simp [cyclesOf, scanTmsArgs], by simp [cyclesOf, dataReads, hk], rfl,
          by simp [cyclesOf]⟩,
        fun hh => absurd rfl hh⟩
  | succ n ih =>
    intro jtag l ret jtag2 l2 hle hinv h
    rw [scan_loop] at h
    by_cases hlt : l.bit_index < l.xfer_bits
    · rw [if_pos hlt] at h
      by_cases hg : scan_use_gpio unit_len jtag x l = true
      · rw [if_pos hg] at h
        obtain ⟨ops1, bit, hf1, hc1, hr1, hw1, ht1, hb1, hx1, hrem1⟩ :=
          scan_gpio_step_spec env x tdi jtag l
        have hg2 : scan_use_gpio unit_len (scan_gpio_step env x tdi jtag l).1 x
            (scan_gpio_step env x tdi jtag l).2 = true := by
          unfold scan_use_gpio at hg ⊢
          rw [hrem1, hf1.2.1]
          exact hg
        obtain ⟨ops2, hf2, hc2, hgp2, hn2, -⟩ :=
          ih _ _ ret jtag2 l2 (by rw [hb1, hx1]; omega) (Or.inl hg2) h
        obtain ⟨hret, hr2⟩ := hgp2 hg2
        obtain ⟨hm2, hcnt2, hw2, ht2⟩ := hn2 hret
        rw [hb1, hx1, hr2] at hcnt2
        have hk2 : (cyclesOf ops2).length = l.xfer_bits - (l.bit_index + 1) := by omega
        have hlen : (cyclesOf (ops1 ++ ops2)).length = (cyclesOf ops2).length + 1 := by
          rw [cyclesOf_append, hc1]; simp
        refine ⟨ops1 ++ ops2, hf1.frame_trans hf2, ?_, fun _ => ⟨hret, ?_⟩, fun _ => ⟨?_, ?_, ?_, ?_⟩,
          fun hh => absurd hret hh⟩
        · rw [hlen, cyclesOf_append, hc1, List.map_append, hc2, List.replicate_succ]
          simp
        · rw [dataReads_append, hr1, hr2]
        · rw [hlen, scanTmsArgs_succ, cyclesOf_append, hc1, List.map_append, hm2,
            scan_tms_eq x l hlt, hk2]
          simp
        · rw [hlen, dataReads_append, hr1, hr2]
          omega
        · rw [dataWrites_append, dataReads_append, hw1, hr1, hw2]
        · rw [ht2, ht1, scan_tms_eq x l hlt, hlen, hk2]
          by_cases hl : leavesShift x.end_tap_state
          · by_cases h0 : l.xfer_bits - (l.bit_index + 1) = 0
            · simp [hl, h0]
            · have h1 : 0 < l.xfer_bits - (l.bit_index + 1) := by omega
              simp [hl, h0, h1]
          · simp [hl]
      · rw [if_neg hg] at h
        obtain ⟨hmode, hrem, -⟩ := scan_use_gpio_false unit_len jtag x l hg
        have heq : l.bit_index + l.remain_bits = l.xfer_bits := by
          rcases hinv with h1 | h1
          · exact absurd h1 hg
          · exact h1
        split at h
        · exact Except.noConfusion h
        · rename_i r1 j1 l1 hstep
          rcases scan_pspi_step_spec env fuel unit_len tdi jtag j1 l l1 (some r1) hstep with
            ⟨hnone, -⟩ | ⟨hto, w, ops1, hfr, hr1, hw1⟩
          · exact Option.noConfusion hnone
          · cases h
            refine ⟨ops1, hfr.toFrame, by rw [hfr.2.1]; rfl, fun hh => absurd hh hg,
              fun hh => Option.noConfusion hh, fun _ => ⟨hto, hfr.2.1, ?_, hfr.2.2.1⟩⟩
            rw [hr1]; exact Nat.zero_le _
        · rename_i j1 l1 hstep
          rcases scan_pspi_step_spec env fuel unit_len tdi jtag j1 l l1 none hstep with
            ⟨-, ⟨ops1, hfr, hr1, hw1⟩, hb1, hrem1, hx1⟩ | ⟨hto, -⟩
          · obtain ⟨ops2, hf2, hc2, -, hn2, hs2⟩ :=
              ih j1 l1 ret jtag2 l2 (by rw [hb1, hx1]; omega)
                (Or.inr (by rw [hb1, hrem1, hx1]; omega)) h
            have hcyc : cyclesOf (ops1 ++ ops2) = cyclesOf ops2 := by
              rw [cyclesOf_append, hfr.2.1]; rfl
            refine ⟨ops1 ++ ops2, hfr.toFrame.frame_trans hf2, by rw [hcyc]; exact hc2,
              fun hh => absurd hh hg, fun hr => ?_, fun hr => ?_⟩
            · obtain ⟨hm2, hcnt2, hw2, ht2⟩ := hn2 hr
              rw [hb1, hx1] at hcnt2
              refine ⟨by rw [hcyc]; exact hm2, ?_, ?_, ?_⟩
              · rw [hcyc, dataReads_append, hr1, Nat.mul_add]
                omega
              · rw [dataWrites_append, dataReads_append, hw1, hr1, hw2]
              · rw [hcyc, ht2, hfr.2.2.1]
            · obtain ⟨hto, hc0, hrw, ht2⟩ := hs2 hr
              refine ⟨hto, by rw [hcyc]; exact hc0, ?_, by rw [ht2, hfr.2.2.1]⟩
              rw [dataWrites_append, dataReads_append, hw1, hr1]
              omega
          · exact Option.noConfusion hto
    · rw [if_neg hlt] at h
      cases h
      have hk : l.xfer_bits - l.bit_index = 0 := by omega
      exact ⟨[], Frame.frame_refl jtag, by simp [cyclesOf], fun _ => ⟨rfl, rfl⟩,
        fun _ => ⟨by simp [cyclesOf, scanTmsArgs], by simp [cyclesOf, dataReads, hk], rfl,
          by simp [cyclesOf]⟩,
        fun hh => absurd rfl hh⟩


/-! ## The interrupt-driven bulk transfer -/

theorem HwStep.set_pspi {j j2 : jtag_info} {r w : Nat} (h : HwStep j j2 r w) (p : npcm_pspi)
    (h1 : p.mode = j2.pspi.mode) (h2 : p.enable_irq = j2.pspi.enable_irq)
    (h3 : p.apb_clk_rate = j2.pspi.apb_clk_rate) :
    HwStep j { j2 with pspi := p } r w := by
  obtain ⟨a, ⟨ha1, ha2, ha3, ha4, ha5, ha6, ha7, ha8, ha9, ha10⟩, har, haw⟩ := h
  exact ⟨a, ⟨ha1, ha2, ha3, ha4, ha5, ha6, ha7, h1.trans ha8, h2.trans ha9, h3.trans ha10⟩,
    har, haw⟩

theorem XferStep.xfer_refl (j : jtag_info) : XferStep j j 0 0 :=
  ⟨HwStep.hw_refl j, rfl, rfl, fun h => Or.inl h⟩

theorem XferStep.xfer_trans {j j2 j3 : jtag_info} {r w r2 w2 : Nat}
    (h1 : XferStep j j2 r w) (h2 : XferStep j2 j3 r2 w2) :
    XferStep j j3 (r + r2) (w + w2) := by
  obtain ⟨a1, a2, a3, a4⟩ := h1
  obtain ⟨b1, b2, b3, b4⟩ := h2
  refine ⟨a1.hw_trans b1, by omega, by omega, ?_⟩
  intro hd
  rcases b4 hd with h | h
  · rcases a4 h with h' | h'
    · exact Or.inl h'
    · exact Or.inr (by omega)
  · exact Or.inr h

/-- A hardware-only step that leaves the transfer's counters alone. -/
theorem XferStep.of_hw {j j2 : jtag_info} (h : HwStep j j2 0 0)
    (hp : j2.pspi = j.pspi) : XferStep j j2 0 0 :=
  ⟨h, by rw [hp]; rfl, by rw [hp]; rfl, fun hd => Or.inl (by rw [hp] at hd; exact hd)⟩

@[simp] theorem emit_pspi (j : jtag_info) (e : Event) : (j.emit e).pspi = j.pspi := rfl

@[simp] theorem readb_pspi (env : Env) (j : jtag_info) (reg : Nat) :
    (readb env j reg).2.pspi = j.pspi := rfl

@[simp] theorem readw_pspi (env : Env) (j : jtag_info) (reg : Nat) :
    (readw env j reg).2.pspi = j.pspi := rfl

@[simp] theorem writeb_pspi (j : jtag_info) (reg v : Nat) : (writeb j reg v).pspi = j.pspi := rfl

@[simp] theorem writew_pspi (j : jtag_info) (reg v : Nat) : (writew j reg v).pspi = j.pspi := rfl

theorem pspi_send_spec (env : Env) (jtag : jtag_info) (hm : jtag.pspi.mode = BIT_MODE_16) :
    ∃ w : Nat, XferStep jtag (pspi_send env jtag).2 0 w ∧
      (pspi_send env jtag).2.pspi.tx_bytes =
        (if jtag.pspi.tx_bytes < 2 then jtag.pspi.tx_bytes else jtag.pspi.tx_bytes - 2) ∧
      (pspi_send env jtag).2.pspi.rx_bytes = jtag.pspi.rx_bytes ∧
      w = (if jtag.pspi.tx_bytes < 2 then 0 else 1) := by
  have h8 : ¬ (BIT_MODE_16 = BIT_MODE_8) := by decide
  by_cases hlt : jtag.pspi.tx_bytes < 2
  · have e : pspi_send env jtag = (-EINVAL, jtag) := by
      simp [pspi_send, hm, BIT_MODE_16, hlt]
    rw [e]
    exact ⟨0, XferStep.xfer_refl jtag, by simp [hlt], rfl, by simp [hlt]⟩
  · have e : pspi_send env jtag =
        ((0 : Int), { (writew { (readb env jtag PSPI_STAT).2 with
                pspi := { jtag.pspi with tx_bytes := jtag.pspi.tx_bytes - 2 } } PSPI_DATA
              ((REVERSE (jtag.pspi.tx_mem jtag.pspi.tx_buf) <<< 8) |||
                REVERSE (jtag.pspi.tx_mem (jtag.pspi.tx_buf + 1)))) with
              pspi := { jtag.pspi with tx_bytes := jtag.pspi.tx_bytes - 2,
                                       tx_buf := jtag.pspi.tx_buf + 2 } }) := by
      simp [pspi_send, hm, BIT_MODE_16, BIT_MODE_8, hlt, PSPI_STAT_BSY]
    rw [e]
    refine ⟨1, ⟨?_, ?_, ?_, ?_⟩, by simp [hlt], rfl, by simp [hlt]⟩
    · apply HwStep.set_pspi _ _ rfl rfl rfl
      exact ((HwStep.readb_stat env jtag).set_pspi _ rfl rfl rfl).hw_trans
        (HwStep.writew_data _ _)
    · rfl
    · show jtag.pspi.tx_bytes - 2 + 2 * 1 = jtag.pspi.tx_bytes
      omega
    · intro hd; exact Or.inl hd

theorem pspi_recv_spec (env : Env) (jtag : jtag_info) (hm : jtag.pspi.mode = BIT_MODE_16) :
    ∃ r : Nat, XferStep jtag (pspi_recv env jtag).2 r 0 ∧
      (pspi_recv env jtag).2.pspi.rx_bytes =
        (if jtag.pspi.rx_bytes < 2 then jtag.pspi.rx_bytes else jtag.pspi.rx_bytes - 2) ∧
      (pspi_recv env jtag).2.pspi.tx_bytes = jtag.pspi.tx_bytes ∧
      (pspi_recv env jtag).2.pspi.xfer_done = jtag.pspi.xfer_done ∧
      (pspi_recv env jtag).2.pspi.mode = jtag.pspi.mode := by
  by_cases hlt : jtag.pspi.rx_bytes < 2
  · have e : pspi_recv env jtag = (-EINVAL, jtag) := by
      simp [pspi_recv, hm, BIT_MODE_16, hlt]
    rw [e]
    exact ⟨0, XferStep.xfer_refl jtag, by simp [hlt], rfl, rfl, rfl⟩
  · refine ⟨1, ⟨⟨[.readw PSPI_DATA (env.reg PSPI_DATA jtag.log % 65536)], ?_, ?_, ?_⟩,
      ?_, ?_, ?_⟩, ?_, ?_, ?_, ?_⟩
    · simp [pspi_recv, hm, BIT_MODE_16, BIT_MODE_8, hlt, HwFrame, readw, jtag_info.emit,
        cyclesOf]
    · simp [dataReads]
    · simp [dataWrites]
    · simp [pspi_recv, hm, BIT_MODE_16, BIT_MODE_8, hlt]
      omega
    · simp [pspi_recv, hm, BIT_MODE_16, BIT_MODE_8, hlt]
    · intro hd
      left
      simpa [pspi_recv, hm, BIT_MODE_16, BIT_MODE_8, hlt] using hd
    · simp [pspi_recv, hm, BIT_MODE_16, BIT_MODE_8, hlt]
    · simp [pspi_recv, hm, BIT_MODE_16, BIT_MODE_8, hlt]
    · simp [pspi_recv, hm, BIT_MODE_16, BIT_MODE_8, hlt]
    · simp [pspi_recv, hm, BIT_MODE_16, BIT_MODE_8, hlt]

theorem complete_spec (jtag : jtag_info) (h0 : jtag.pspi.rx_bytes = 0) :
    XferStep jtag (complete jtag) 0 0 := by
  refine ⟨⟨[.complete], ⟨rfl, rfl, rfl, rfl, rfl, rfl, rfl, rfl, rfl, rfl⟩, rfl, rfl⟩,
    rfl, rfl, fun _ => Or.inr h0⟩

/-- One invocation of the interrupt handler, whatever the status register
shows: it receives at most one unit, and only when the register shows a full
receive buffer; it sends at most one unit, and does send one when the register
shows the channel idle and bytes are left to send; and it signals the
completion only when nothing is left to receive. -/
theorem pspi_irq_handler_spec (env : Env) (jtag : jtag_info)
    (hm : jtag.pspi.mode = BIT_MODE_16) :
    ∃ r w : Nat, XferStep jtag (pspi_irq_handler env jtag) r w ∧ r ≤ 1 ∧ w ≤ 1 ∧
      (r = 1 → (readb env (jtag.emit .irq) PSPI_STAT).1 &&& (1 <<< PSPI_STAT_RBF) ≠ 0) ∧
      ((readb env (jtag.emit .irq) PSPI_STAT).1 &&& (1 <<< PSPI_STAT_BSY) = 0 →
        2 ≤ jtag.pspi.tx_bytes → w = 1) := by
  have s0 : XferStep jtag (readb env (jtag.emit .irq) PSPI_STAT).2 0 0 :=
    XferStep.of_hw ((HwStep.emit jtag .irq rfl).hw_trans (HwStep.readb_stat env _)) rfl
  have hm0 : (readb env (jtag.emit .irq) PSPI_STAT).2.pspi.mode = BIT_MODE_16 := hm
  /- the receive half -/
  obtain ⟨r, j2, hj2, s2, hr, hm2, hrbf2⟩ : ∃ (r : Nat) (j2 : jtag_info),
      j2 = (if (readb env (jtag.emit .irq) PSPI_STAT).1 &&& (1 <<< PSPI_STAT_RBF) ≠ 0 then
          (if (if (readb env (jtag.emit .irq) PSPI_STAT).2.pspi.rx_bytes ≠ 0
                then (pspi_recv env (readb env (jtag.emit .irq) PSPI_STAT).2).2
                else (readb env (jtag.emit .irq) PSPI_STAT).2).pspi.rx_bytes = 0
            then complete (if (readb env (jtag.emit .irq) PSPI_STAT).2.pspi.rx_bytes ≠ 0
                then (pspi_recv env (readb env (jtag.emit .irq) PSPI_STAT).2).2
                else (readb env (jtag.emit .irq) PSPI_STAT).2)
            else (if (readb env (jtag.emit .irq) PSPI_STAT).2.pspi.rx_bytes ≠ 0
                then (pspi_recv env (readb env (jtag.emit .irq) PSPI_STAT).2).2
                else (readb env (jtag.emit .irq) PSPI_STAT).2))
        else (readb env (jtag.emit .irq) PSPI_STAT).2) ∧
      XferStep jtag j2 r 0 ∧ r ≤ 1 ∧ j2.pspi.mode = BIT_MODE_16 ∧
      (r = 1 → (readb env (jtag.emit .irq) PSPI_STAT).1 &&& (1 <<< PSPI_STAT_RBF) ≠ 0) := by
    by_cases hrbf : (readb env (jtag.emit .irq) PSPI_STAT).1 &&& (1 <<< PSPI_STAT_RBF) ≠ 0
    · rw [if_pos hrbf]
      obtain ⟨r1, j1, hj1, s1, hr1, hm1⟩ : ∃ (r1 : Nat) (j1 : jtag_info),
          j1 = (if (readb env (jtag.emit .irq) PSPI_STAT).2.pspi.rx_bytes ≠ 0
                then (pspi_recv env (readb env (jtag.emit .irq) PSPI_STAT).2).2
                else (readb env (jtag.emit .irq) PSPI_STAT).2) ∧
          XferStep jtag j1 r1 0 ∧ r1 ≤ 1 ∧ j1.pspi.mode = BIT_MODE_16 := by
        by_cases hrx : (readb env (jtag.emit .irq) PSPI_STAT).2.pspi.rx_bytes ≠ 0
        · rw [if_pos hrx]
          obtain ⟨r1, sr, hrxv, -, -, hmr⟩ := pspi_recv_spec env _ hm0
          refine ⟨r1, _, rfl, s0.xfer_trans sr |> fun t => by simpa using t, ?_, hmr.trans hm0⟩
          have h1 := sr.2.1
          rw [hrxv] at h1
          split at h1 <;> omega
        · rw [if_neg hrx]
          exact ⟨0, _, rfl, s0, Nat.zero_le _, hm0⟩
      rw [← hj1]
      by_cases hz : j1.pspi.rx_bytes = 0
      · rw [if_pos hz]
        exact ⟨r1, _, rfl, by simpa using s1.xfer_trans (complete_spec j1 hz), hr1, hm1,
          fun _ => hrbf⟩
      · rw [if_neg hz]
        exact ⟨r1, _, rfl, s1, hr1, hm1, fun _ => hrbf⟩
    · rw [if_neg hrbf]
      exact ⟨0, _, rfl, s0, Nat.zero_le _, hm0, fun h => absurd h (by decide)⟩
  have e : pspi_irq_handler env jtag =
      (if (readb env (jtag.emit .irq) PSPI_STAT).1 &&& (1 <<< PSPI_STAT_BSY) = 0 then
        (if j2.pspi.tx_bytes ≠ 0 then (pspi_send env j2).2 else j2) else j2) := by
    rw [hj2]; rfl
  have htx2 : j2.pspi.tx_bytes = jtag.pspi.tx_bytes := by
    have := s2.2.2.1
    omega
  rw [e]
  by_cases hb : (readb env (jtag.emit .irq) PSPI_STAT).1 &&& (1 <<< PSPI_STAT_BSY) = 0
  · rw [if_pos hb]
    by_cases htx : j2.pspi.tx_bytes ≠ 0
    · rw [if_pos htx]
      obtain ⟨w, sw, -, -, hw⟩ := pspi_send_spec env j2 hm2
      refine ⟨r, w, by simpa using s2.xfer_trans sw, hr, ?_, hrbf2, ?_⟩
      · rw [hw]; split <;> omega
      · intro _ h2
        rw [hw, htx2, if_neg (by omega)]
    · rw [if_neg htx]
      refine ⟨r, 0, s2, hr, Nat.zero_le _, hrbf2, ?_⟩
      intro _ h2
      rw [htx2] at htx
      omega
  · rw [if_neg hb]
    exact ⟨r, 0, s2, hr, Nat.zero_le _, hrbf2, fun h => absurd h hb⟩

/-- On hardware that reports a full receive buffer only when idle, the
handler keeps the counters in order. -/
theorem pspi_irq_handler_order (env : Env) (jtag : jtag_info)
    (hm : jtag.pspi.mode = BIT_MODE_16) (henv : ReceiveImpliesIdle env)
    (ho : XferOrder jtag) : XferOrder (pspi_irq_handler env jtag) := by
  obtain ⟨r, w, ⟨-, hrx, htx, -⟩, hr, hw, hrbf, hidle⟩ := pspi_irq_handler_spec env jtag hm
  obtain ⟨⟨a, ha⟩, ⟨b, hb⟩, hord⟩ := ho
  refine ⟨⟨a - r, by omega⟩, ⟨b - w, by omega⟩, ?_⟩
  by_cases hr1 : r = 1
  · have hidle2 := henv _ (hrbf hr1)
    by_cases ht0 : jtag.pspi.tx_bytes = 0
    · left; omega
    · have hw1 := hidle hidle2 (by omega)
      right
      rcases hord with h | h
      · exact absurd h ht0
      · omega
  · have hr0 : r = 0 := by omega
    rcases hord with h | h
    · left; omega
    · by_cases ht : (pspi_irq_handler env jtag).pspi.tx_bytes = 0
      · left; exact ht
      · right; omega

/-- The wait for the completion: when it ends, everything that was still to
be received has been read from the data register. -/
theorem wait_for_completion_spec (env : Env) :
    ∀ (fuel : Nat) (jtag jtag2 : jtag_info),
      jtag.pspi.mode = BIT_MODE_16 →
      (jtag.pspi.xfer_done = true → jtag.pspi.rx_bytes = 0) →
      wait_for_completion env fuel jtag = .ok jtag2 →
      ∃ r w : Nat, XferStep jtag jtag2 r w ∧ jtag2.pspi.rx_bytes = 0 ∧
        (ReceiveImpliesIdle env → XferOrder jtag → XferOrder jtag2) := by
  intro fuel
  induction fuel with
  | zero =>
    intro jtag jtag2 _ hd h
    rw [wait_for_completion] at h
    split at h
    · rename_i hdone
      cases h
      exact ⟨0, 0, XferStep.xfer_refl jtag, hd hdone, fun _ ho => ho⟩
    · exact Except.noConfusion h
  | succ fuel ih =>
    intro jtag jtag2 hm hd h
    rw [wait_for_completion] at h
    split at h
    · rename_i hdone
      cases h
      exact ⟨0, 0, XferStep.xfer_refl jtag, hd hdone, fun _ ho => ho⟩
    · rename_i hdone
      obtain ⟨r1, w1, s1, -, -, -, -⟩ := pspi_irq_handler_spec env jtag hm
      have hm1 : (pspi_irq_handler env jtag).pspi.mode = BIT_MODE_16 := by
        obtain ⟨ops, hf, -, -⟩ := s1.1
        exact hf.2.2.2.2.2.2.2.1.trans hm
      have hd1 : (pspi_irq_handler env jtag).pspi.xfer_done = true →
          (pspi_irq_handler env jtag).pspi.rx_bytes = 0 := by
        intro hh
        rcases s1.2.2.2 hh with h' | h'
        · exact absurd h' hdone
        · exact h'
      obtain ⟨r2, w2, s2, hz, hord⟩ := ih _ jtag2 hm1 hd1 h
      exact ⟨r1 + r2, w1 + w2, s1.xfer_trans s2, hz,
        fun henv ho => hord henv (pspi_irq_handler_order env jtag hm henv ho)⟩

theorem pspi_xfer_setup_spec (env : Env) (jtag : jtag_info)
    (tx rx : Nat → Nat) (tb rb n : Nat) :
    HwStep jtag (pspi_xfer_setup env jtag tx tb rx rb n).2.2 0 0 ∧
    (pspi_xfer_setup env jtag tx tb rx rb n).2.2.pspi.tx_bytes = n ∧
    (pspi_xfer_setup env jtag tx tb rx rb n).2.2.pspi.rx_bytes = n ∧
    (pspi_xfer_setup env jtag tx tb rx rb n).2.2.pspi.xfer_done = false ∧
    (pspi_xfer_setup env jtag tx tb rx rb n).2.2.pspi.mode = jtag.pspi.mode := by
  refine ⟨?_, rfl, rfl, rfl, rfl⟩
  unfold pspi_xfer_setup
  apply HwStep.then_readb_stat
  apply HwStep.then_writew_ctl1
  apply HwStep.then_readw_ctl1
  exact (HwStep.hw_refl jtag).set_pspi _ rfl rfl rfl

/-- The interrupt-driven transfer of `n` bytes with the 16-bit unit: when it
succeeds, exactly `n / 2` words were read from the data register and at most
as many were written; on hardware that reports a full receive buffer only
when idle, exactly as many were written.  When it fails, the data register
was not touched. -/
theorem pspi_xfer_spec (env : Env) (fuel : Nat) (jtag jtag2 : jtag_info)
    (tx rx : Option (Nat → Nat)) (tb rb n : Nat) (ret : Int)
    (hm : jtag.pspi.mode = BIT_MODE_16)
    (h : pspi_xfer env fuel jtag tx tb rx rb n = .ok (ret, jtag2)) :
    (ret = 0 ∧ ∃ r w : Nat, HwStep jtag jtag2 r w ∧ 2 * r = n ∧ w ≤ r ∧ 1 ≤ w ∧
        jtag2.pspi.tx_bytes + 2 * w = n ∧ (ReceiveImpliesIdle env → w = r)) ∨
    (ret ≠ 0 ∧ HwStep jtag jtag2 0 0) := by
  unfold pspi_xfer at h
  have hne : (-EINVAL : Int) ≠ 0 := by decide
  have hnb : (-EBUSY : Int) ≠ 0 := by decide
  cases tx with
  | none => simp only at h; cases h; exact Or.inr ⟨hne, HwStep.hw_refl jtag⟩
  | some txm =>
    cases rx with
    | none => simp only at h; cases h; exact Or.inr ⟨hne, HwStep.hw_refl jtag⟩
    | some rxm =>
      simp only [hm] at h
      obtain ⟨hsetup, htx0, hrx0, hd0, hm0⟩ := pspi_xfer_setup_spec env jtag txm rxm tb rb n
      rw [hm] at hm0
      split at h
      · cases h; exact Or.inr ⟨hne, HwStep.hw_refl jtag⟩
      · rename_i hn0
        split at h
        · exact Except.noConfusion h
        · split at h
          · cases h; exact Or.inr ⟨hne, HwStep.hw_refl jtag⟩
          · rename_i hmod
            split at h
            · /- the channel is idle: send one unit and wait -/
              split at h
              · exact Except.noConfusion h
              · rename_i jw hwait
                cases h
                left
                refine ⟨rfl, ?_⟩
                obtain ⟨w1, s1, htx1, hrx1, hw1⟩ := pspi_send_spec env _ hm0
                rw [htx0] at htx1 hw1
                rw [hrx0] at hrx1
                have hn2 : 2 ≤ n := by
                  simp only [BIT_MODE_16] at hmod
                  omega
                have heven : 2 ∣ n := by
                  simp only [BIT_MODE_16] at hmod
                  omega
                rw [if_neg (by omega)] at htx1 hw1
                have hms : (pspi_send env
                    (pspi_xfer_setup env jtag txm tb rxm rb n).2.2).2.pspi.mode = BIT_MODE_16 := by
                  obtain ⟨ops, hf, -, -⟩ := s1.1
                  exact hf.2.2.2.2.2.2.2.1.trans hm0
                have hds : (pspi_send env
                    (pspi_xfer_setup env jtag txm tb rxm rb n).2.2).2.pspi.xfer_done = true →
                    (pspi_send env
                      (pspi_xfer_setup env jtag txm tb rxm rb n).2.2).2.pspi.rx_bytes = 0 := by
                  intro hh
                  rcases s1.2.2.2 hh with h' | h'
                  · rw [hd0] at h'; exact Bool.noConfusion h'
                  · exact h'
                obtain ⟨r2, w2, s2, hz, hord⟩ :=
                  wait_for_completion_spec env fuel _ jw hms hds hwait
                have hrxa := s2.2.1
                have htxa := s2.2.2.1
                rw [hrx1] at hrxa
                rw [htx1] at htxa
                refine ⟨0 + 0 + r2, 0 + w1 + w2, ?_, by omega, ?_, by omega, ?_, ?_⟩
                · exact ((hsetup.hw_trans s1.1).hw_trans s2.1).then_writew_ctl1 _
                · rw [hw1]; omega
                · show jw.pspi.tx_bytes + 2 * (0 + w1 + w2) = n
                  rw [hw1]; omega
                · intro henv
                  have ho := hord henv ⟨by rw [hrx1]; exact heven,
                    by rw [htx1]; exact (Nat.dvd_sub' heven (dvd_refl 2)),
                    by rw [htx1, hrx1]; right; omega⟩
                  obtain ⟨-, -, ho3⟩ := ho
                  rw [hw1]
                  omega
            · cases h
              exact Or.inr ⟨hnb, hsetup.then_writew_ctl1 _⟩


/-! ## The scan as a whole -/

/-- Whatever the arguments, `npcm_jtag_set_tapstate` only clocks cycles that
do not sample TDO and does not touch the data register. -/
theorem set_tapstate_frame (env : Env) (past : Nat → TmsCycle) (jtag : jtag_info)
    (from_state end_state : Nat) :
    ∃ ops : List Event,
      Frame jtag (npcm_jtag_set_tapstate env past jtag from_state end_state).2 ops ∧
      scanCycles ops = [] ∧ dataReads ops = 0 ∧ dataWrites ops = 0 := by
  by_cases hguard : (if from_state = JTAG_STATE_CURRENT then jtag.tapstate else from_state)
      > JTAG_STATE_CURRENT ∨ end_state > JTAG_STATE_CURRENT
  · have e : npcm_jtag_set_tapstate env past jtag from_state end_state = (-1, jtag) := by
      unfold npcm_jtag_set_tapstate
      simp only [hguard, if_true]
    rw [e]
    exact ⟨[], Frame.frame_refl jtag, rfl, rfl, rfl⟩
  · have hfrom : (if from_state = JTAG_STATE_CURRENT then jtag.tapstate else from_state)
        ≤ JTAG_STATE_CURRENT := by omega
    have hend : end_state ≤ JTAG_STATE_CURRENT := by omega
    by_cases hT : end_state = JtagTLR
    · subst hT
      obtain ⟨ops, h, hc, -, hr, hw⟩ := set_tapstate_TLR_spec env past jtag from_state hfrom
      rw [h]
      exact ⟨ops, ⟨rfl, rfl, rfl, rfl, rfl, rfl, rfl, rfl⟩, by simp [scanCycles, hc], hr, hw⟩
    · by_cases hcount : (tmsCycleAt past
          (if from_state = JTAG_STATE_CURRENT then jtag.tapstate else from_state)
          end_state).count = 0
      · rw [set_tapstate_zero_count env past jtag from_state end_state hfrom hend hT hcount]
        exact ⟨[], Frame.frame_refl jtag, rfl, rfl, rfl⟩
      · obtain ⟨ops, lvl, h, hc, -, hr, hw⟩ := set_tapstate_table_spec env past jtag
          from_state end_state hfrom hend hT hcount
        rw [h]
        refine ⟨ops, ⟨rfl, rfl, rfl, rfl, rfl, rfl, rfl, rfl⟩, ?_, hr, hw⟩
        rw [scanCycles, hc]
        simp

theorem scan_enable_spec (env : Env) (unit_len : Nat) (jtag j1 : jtag_info)
    (l l1 : scan_locals) (h : scan_enable env unit_len jtag l = .ok (j1, l1)) :
    HwStep jtag j1 0 0 ∧ l1.remain_bits = l.remain_bits ∧ l1.bit_index = l.bit_index ∧
      l1.xfer_bits = l.xfer_bits ∧
      (l.use_pspi = false →
        (l1.use_pspi = true ↔ (jtag.mode = MODE_PSPI ∧ l.remain_bits > unit_len))) := by
  unfold scan_enable at h
  split at h
  · rename_i hc
    split at h
    · exact Except.noConfusion h
    · rename_i j hj
      cases h
      exact ⟨HwStep.switch_on env jtag _ hj, rfl, rfl, rfl, fun _ => ⟨fun _ => hc, fun _ => rfl⟩⟩
  · rename_i hc
    cases h
    refine ⟨HwStep.hw_refl jtag, rfl, rfl, rfl, fun hl => ⟨fun h1 => ?_, fun h1 => absurd h1 hc⟩⟩
    rw [hl] at h1
    exact Bool.noConfusion h1

theorem scan_bulk_bytes_le (remain_bits : Nat) :
    scan_bulk_bytes 16 remain_bits * 8 ≤ remain_bits := by
  unfold scan_bulk_bytes
  simp only
  split <;> omega

/-- The bulk part of the scan with the 16-bit unit: when it does not return,
the words it read account for the bits it took off the remaining length. -/
theorem scan_bulk_spec (env : Env) (fuel : Nat) (j1 j2 : jtag_info)
    (tdi tdo : Option (Nat → Nat)) (l1 l2 : scan_locals) (ret : Option Int)
    (hm : j1.pspi.mode = BIT_MODE_16) (hx : l1.xfer_bits = l1.remain_bits)
    (h : scan_bulk env fuel 16 j1 tdi tdo l1 = .ok (ret, j2, l2)) :
    (ret = none ∧ ∃ r w : Nat, HwStep j1 j2 r w ∧ w ≤ r ∧ (ReceiveImpliesIdle env → w = r) ∧
        l2.bit_index = l1.bit_index ∧ l2.xfer_bits = l2.remain_bits ∧
        16 * r + l2.remain_bits = l1.remain_bits ∧
        2 * r = (if l1.use_pspi = true ∧ j1.pspi.enable_irq = true
          then scan_bulk_bytes 16 l1.remain_bits else 0)) ∨
    (∃ c : Int, ret = some c ∧ c ≠ 0 ∧ HwStep j1 j2 0 0) := by
  unfold scan_bulk at h
  split at h
  · rename_i hcond
    rw [if_neg (by decide)] at h
    simp only at h
    split at h
    · exact Except.noConfusion h
    · rename_i c jx hxfer
      rcases pspi_xfer_spec env fuel j1 jx tdi _ _ _ _ c hm hxfer with
        ⟨hc0, r, w, hs, hr, hwr, -, -, henv⟩ | ⟨hc, hs⟩
      · rw [if_neg (by simp [hc0])] at h
        cases h
        left
        have hle := scan_bulk_bytes_le l1.remain_bits
        exact ⟨rfl, r, w, hs, hwr, henv, rfl, rfl, by simp only; omega,
          by rw [if_pos hcond]; exact hr⟩
      · rw [if_pos hc] at h
        cases h
        right
        exact ⟨c, rfl, hc, hs.then_switch_off env⟩
  · rename_i hcond
    cases h
    left
    exact ⟨rfl, 0, 0, HwStep.hw_refl j1, Nat.le_refl _, fun _ => rfl, rfl, hx, by omega,
      by rw [if_neg hcond]⟩

/-- The scan with the 16-bit unit, in any mode and against any hardware.  If
it returns an error, no cycle was clocked and the tracked state is unchanged.
If it returns 0, then before the closing transition (state `mid`, accesses
`bodyOps`) every cycle sampled TDO, TMS was high on the last cycle exactly when
the end state leaves Shift, 16 bits per word read from the data register plus
one bit per cycle make up the length, and no more words were written than
read. -/
theorem scan_spec (env : Env) (past : Nat → TmsCycle) (fuel : Nat)
    (jtag : jtag_info) (x : scan_xfer) (tdi tdo : Option (Nat → Nat)) (r : scan_result)
    (hm : jtag.pspi.mode = BIT_MODE_16)
    (hX : jtag.tapstate = JtagShfDR ∨ jtag.tapstate = JtagShfIR)
    (hN : x.length ≠ 0)
    (h : npcm_jtag_readwrite_scan env past fuel jtag x tdi tdo = .ok r) :
    (r.ret ≠ 0 ∧ ∃ ops : List Event, Frame jtag r.jtag ops ∧ cyclesOf ops = [] ∧
        r.jtag.tapstate = jtag.tapstate) ∨
    (r.ret = 0 ∧ ∃ (mid : jtag_info) (bodyOps : List Event),
        Frame jtag mid bodyOps ∧
        r.jtag = (npcm_jtag_set_tapstate env past mid JTAG_STATE_CURRENT x.end_tap_state).2 ∧
        (cyclesOf bodyOps).map (fun c => c.1) = List.replicate (cyclesOf bodyOps).length 0 ∧
        (cyclesOf bodyOps).map (fun c => c.2.1) =
          scanTmsArgs x.end_tap_state (cyclesOf bodyOps).length ∧
        16 * dataReads bodyOps + (cyclesOf bodyOps).length = x.length ∧
        dataWrites bodyOps ≤ dataReads bodyOps ∧
        (ReceiveImpliesIdle env → dataWrites bodyOps = dataReads bodyOps) ∧
        mid.tapstate =
          (if leavesShift x.end_tap_state ∧ 0 < (cyclesOf bodyOps).length
            then exit1Of jtag.tapstate else jtag.tapstate) ∧
        ∃ bulkOps loopOps : List Event,
          bodyOps = bulkOps ++ loopOps ∧ cyclesOf bulkOps = [] ∧
          2 * dataReads bulkOps =
            (if jtag.mode = MODE_PSPI ∧ 16 < x.length ∧ jtag.pspi.enable_irq = true
              then scan_bulk_bytes 16 x.length else 0) ∧
          dataWrites bulkOps ≤ dataReads bulkOps ∧
          (ReceiveImpliesIdle env → dataWrites bulkOps = dataReads bulkOps) ∧
          dataWrites loopOps = dataReads loopOps) := by
  have hne : (-EINVAL : Int) ≠ 0 := by decide
  have hnt : (-ETIMEDOUT : Int) ≠ 0 := by decide
  have hu : jtag.pspi.mode * 8 = 16 := by rw [hm]; rfl
  unfold npcm_jtag_readwrite_scan at h
  have h1 : ¬ (jtag.tapstate ≠ JtagShfDR ∧ jtag.tapstate ≠ JtagShfIR) := by
    rcases hX with h' | h' <;> simp [h']
  rw [if_neg h1, if_neg hN] at h
  simp only [hu] at h
  split at h
  · cases h
    exact Or.inl ⟨hne, [], Frame.frame_refl jtag, rfl, rfl⟩
  · split at h
    · cases h
      exact Or.inl ⟨hne, [], Frame.frame_refl jtag, rfl, rfl⟩
    · split at h
      · exact Except.noConfusion h
      · rename_i j1 l1 hen
        obtain ⟨s1, hrem1, hbi1, hxb1, hup1⟩ := scan_enable_spec env 16 jtag j1 _ l1 hen
        obtain ⟨ops1, hf1, hr1, hw1⟩ := s1
        have hm1 : j1.pspi.mode = BIT_MODE_16 := hf1.2.2.2.2.2.2.2.1.trans hm
        have hx1 : l1.xfer_bits = l1.remain_bits := by rw [hxb1, hrem1]; rfl
        split at h
        · exact Except.noConfusion h
        · rename_i c j2 l2 hbulk
          cases h
          rcases scan_bulk_spec env fuel j1 j2 tdi tdo l1 l2 (some c) hm1 hx1 hbulk with
            ⟨hnone, -⟩ | ⟨c', hc', hc0, ops2, hf2, -, -⟩
          · exact Option.noConfusion hnone
          · cases hc'
            exact Or.inl ⟨hc0, ops1 ++ ops2, hf1.toFrame.frame_trans hf2.toFrame,
              by rw [cyclesOf_append, hf1.2.1, hf2.2.1]; rfl,
              hf2.2.2.1.trans hf1.2.2.1⟩
        · rename_i j2 l2 hbulk
          rcases scan_bulk_spec env fuel j1 j2 tdi tdo l1 l2 none hm1 hx1 hbulk with
            ⟨-, rb, wb, ⟨ops2, hf2, hr2, hw2⟩, hwr, henvb, hbi2, hxb2, hcnt2, hbb⟩ |
              ⟨c', hc', -⟩
          · unfold scan_finish at h
            have hb0 : l2.bit_index = 0 := by rw [hbi2, hbi1]; rfl
            split at h
            · exact Except.noConfusion h
            · rename_i c j3 l3 hloop
              cases h
              obtain ⟨ops3, hf3, -, -, -, hto⟩ := scan_loop_spec env x 16 _ fuel fuel j2 l2
                (some c) j3 l3 (by omega) (Or.inr (by omega)) hloop
              obtain ⟨hc, hcyc, -, htap⟩ := hto (by simp)
              cases hc
              exact Or.inl ⟨hnt, ops1 ++ ops2 ++ ops3,
                (hf1.toFrame.frame_trans hf2.toFrame).frame_trans hf3,
                by rw [cyclesOf_append, cyclesOf_append, hf1.2.1, hf2.2.1, hcyc]; rfl,
                htap.trans (hf2.2.2.1.trans hf1.2.2.1)⟩
            · rename_i j3 l3 hloop
              cases h
              obtain ⟨ops3, hf3, hc3, -, hok, -⟩ := scan_loop_spec env x 16 _ fuel fuel j2 l2
                none j3 l3 (by omega) (Or.inr (by omega)) hloop
              obtain ⟨hm3, hcnt3, hw3, ht3⟩ := hok rfl
              have hcyc : cyclesOf (ops1 ++ ops2 ++ ops3) = cyclesOf ops3 := by
                rw [cyclesOf_append, cyclesOf_append, hf1.2.1, hf2.2.1]; rfl
              have hrd : dataReads (ops1 ++ ops2 ++ ops3) = rb + dataReads ops3 := by
                rw [dataReads_append, dataReads_append, hr1, hr2]; omega
              have hwd : dataWrites (ops1 ++ ops2 ++ ops3) = wb + dataWrites ops3 := by
                rw [dataWrites_append, dataWrites_append, hw1, hw2]; omega
              have hlen : l1.remain_bits = x.length := by rw [hrem1]; rfl
              refine Or.inr ⟨rfl, j3, ops1 ++ ops2 ++ ops3,
                (hf1.toFrame.frame_trans hf2.toFrame).frame_trans hf3, rfl, ?_, ?_, ?_, ?_, ?_, ?_,
                ops1 ++ ops2, ops3, rfl, ?_, ?_, ?_, ?_, hw3⟩
              · rw [hcyc]; exact hc3
              · rw [hcyc]; exact hm3
              · rw [hcyc, hrd]; omega
              · rw [hrd, hwd, hw3]; omega
              · intro henv
                rw [hrd, hwd, hw3, henvb henv]
              · rw [hcyc, ht3, hf2.2.2.1, hf1.2.2.1]
              · rw [cyclesOf_append, hf1.2.1, hf2.2.1]; rfl
              · rw [dataReads_append, hr1, hr2, Nat.zero_add, hbb, hlen, hf1.2.2.2.2.2.2.2.2.1]
                have hiff := hup1 rfl
                have hrem0 : (scan_init x tdo).remain_bits = x.length := rfl
                rw [hrem0] at hiff
                by_cases hc : jtag.mode = MODE_PSPI ∧ 16 < x.length ∧
                    jtag.pspi.enable_irq = true
                · rw [if_pos hc, if_pos ⟨hiff.mpr ⟨hc.1, hc.2.1⟩, hc.2.2⟩]
                · rw [if_neg hc, if_neg]
                  intro hh
                  exact hc ⟨(hiff.mp hh.1).1, (hiff.mp hh.1).2, hh.2⟩
              · rw [dataWrites_append, dataReads_append, hw1, hr1, hw2, hr2]; omega
              · intro henv
                rw [dataWrites_append, dataReads_append, hw1, hr1, hw2, hr2, henvb henv]
          · exact Option.noConfusion hc'


theorem scan_bitbang_mode_witness :
    ∃ r : scan_result,
      npcm_jtag_readwrite_scan ready_env no_past 8 (sample_jtag MODE_GPIO false JtagShfDR)
        ⟨8, 1, 1, JtagRTI⟩ (some fun _ => 0) (some fun _ => 0) = .ok r ∧
      r.ret = 0 ∧ r.jtag.tapstate = JtagRTI :=
  let ⟨r, _, _, _, _, h1, h2, h3, _⟩ :=
    scan_bitbang_mode ready_env no_past 8 (sample_jtag MODE_GPIO false JtagShfDR)
      ⟨8, 1, 1, JtagRTI⟩ (some fun _ => 0) (some fun _ => 0) rfl (Or.inl rfl)
      (by decide) (by decide) (by simp) (by simp) (by decide)
  ⟨r, h1, h2, h3⟩

theorem map_eq_replicate_mem {α β : Type} (f : α → β) (l : List α) (n : Nat) (b : β)
    (h : l.map f = List.replicate n b) : ∀ c ∈ l, f c = b := by
  intro c hc
  have : f c ∈ l.map f := List.mem_map_of_mem f hc
  rw [h] at this
  exact (List.mem_replicate.mp this).2

theorem scanCycles_of_all_sampled (ops : List Event)
    (h : (cyclesOf ops).map (fun c => c.1) = List.replicate (cyclesOf ops).length 0) :
    scanCycles ops = cyclesOf ops := by
  unfold scanCycles
  apply List.filter_eq_self.mpr
  intro c hc
  have := map_eq_replicate_mem _ _ _ _ h c hc
  simp [this]

/-- C9, as the claim states it, fails: a one-bit scan in bit-bang mode from
ShiftDR with end state ShiftIR clocks TMS=1 cycles in its closing transition
(ShiftDR to ShiftIR through Exit1DR). -/
theorem continue_shifting_counterexample :
    ¬ ∀ r : scan_result,
      npcm_jtag_readwrite_scan ready_env no_past 1 (sample_jtag MODE_GPIO false JtagShfDR)
        ⟨1, 1, 1, JtagShfIR⟩ (some fun _ => 0) (some fun _ => 0) = .ok r →
      (∀ c ∈ cyclesOf r.jtag.log, c.2.1 = 0) ∧
        (r.jtag.tapstate = JtagShfDR ∨ r.jtag.tapstate = JtagShfIR) := by
  intro h
  have h2 := (h _ rfl).1
  revert h2
  decide

set_option maxRecDepth 100000 in
theorem table_shift_to_shift :
    (tmsCycleCells.getD (JtagShfDR * 16 + JtagShfDR) ⟨0, 0⟩).count = 0 ∧
    (tmsCycleCells.getD (JtagShfIR * 16 + JtagShfIR) ⟨0, 0⟩).count = 0 ∧
    tmsCycleCells.getD (JtagShfDR * 16 + JtagShfIR) ⟨0, 0⟩ = ⟨0x0f, 6⟩ ∧
    tmsCycleCells.getD (JtagShfIR * 16 + JtagShfDR) ⟨0, 0⟩ = ⟨0x07, 5⟩ := by
  decide

/-- The closing transition between Shift states: nothing when the end state
is the tracked Shift state, else the table's path to the other register. -/
theorem set_tapstate_between_shift (env : Env) (past : Nat → TmsCycle) (mid : jtag_info)
    (E : Nat) (hX : mid.tapstate = JtagShfDR ∨ mid.tapstate = JtagShfIR)
    (hE : E = JtagShfDR ∨ E = JtagShfIR) :
    ∃ ops : List Event,
      (npcm_jtag_set_tapstate env past mid JTAG_STATE_CURRENT E).2.log = mid.log ++ ops ∧
      (npcm_jtag_set_tapstate env past mid JTAG_STATE_CURRENT E).2.tapstate = E ∧
      scanCycles ops = [] ∧
      (cyclesOf ops).map (fun c => c.2.1) =
        (if E = mid.tapstate then []
          else if mid.tapstate = JtagShfDR then [1, 1, 1, 1, 0, 0] else [1, 1, 1, 0, 0]) := by
  have hif : (if JTAG_STATE_CURRENT = JTAG_STATE_CURRENT then mid.tapstate
      else JTAG_STATE_CURRENT) = mid.tapstate := by simp
  have hX16 : mid.tapstate < 16 := by
    rcases hX with h | h <;> rw [h] <;> decide
  have hE16 : E < 16 := by
    rcases hE with h | h <;> rw [h] <;> decide
  have hfrom : (if JTAG_STATE_CURRENT = JTAG_STATE_CURRENT then mid.tapstate
      else JTAG_STATE_CURRENT) ≤ JTAG_STATE_CURRENT := by
    rw [hif]; simp only [JTAG_STATE_CURRENT]; omega
  have hEle : E ≤ JTAG_STATE_CURRENT := by simp only [JTAG_STATE_CURRENT]; omega
  have hT : E ≠ JtagTLR := by
    rcases hE with h | h <;> rw [h] <;> decide
  have hcell : tmsCycleAt past mid.tapstate E =
      tmsCycleCells.getD (mid.tapstate * 16 + E) ⟨0, 0⟩ :=
    tmsCycleAt_inside past mid.tapstate E (by omega)
  obtain ⟨t1, t2, t3, t4⟩ := table_shift_to_shift
  by_cases hsame : E = mid.tapstate
  · have hcount : (tmsCycleAt past (if JTAG_STATE_CURRENT = JTAG_STATE_CURRENT
        then mid.tapstate else JTAG_STATE_CURRENT) E).count = 0 := by
      rw [hif, hcell, hsame]
      rcases hX with h | h <;> rw [h]
      · exact t1
      · exact t2
    rw [set_tapstate_zero_count env past mid JTAG_STATE_CURRENT E hfrom hEle hT hcount]
    exact ⟨[], by simp, hsame.symm, rfl, by simp [hsame, cyclesOf]⟩
  · have hentry : tmsCycleAt past mid.tapstate E =
        (if mid.tapstate = JtagShfDR then ⟨0x0f, 6⟩ else ⟨0x07, 5⟩) := by
      rw [hcell]
      rcases hX with h | h <;> rcases hE with h' | h'
      · exact absurd (h'.trans h.symm) hsame
      · rw [h, h', if_pos rfl]; exact t3
      · rw [h, h', if_neg (by decide)]; exact t4
      · exact absurd (h'.trans h.symm) hsame
    have hcount : (tmsCycleAt past (if JTAG_STATE_CURRENT = JTAG_STATE_CURRENT
        then mid.tapstate else JTAG_STATE_CURRENT) E).count ≠ 0 := by
      rw [hif, hentry]; split <;> decide
    obtain ⟨ops, lvl, h, hc, -, -, -⟩ := set_tapstate_table_spec env past mid
      JTAG_STATE_CURRENT E hfrom hEle hT hcount
    rw [hif, hentry] at hc
    refine ⟨ops, by rw [h], by rw [h], ?_, ?_⟩
    · rw [scanCycles, hc]; simp
    · rw [hc, if_neg hsame]
      split <;> simp [tmsArgs]

/-- C9, amended. For a scan of `N >= 1` bits (16-bit unit) that starts in
ShiftDR or ShiftIR and whose end state is ShiftDR or ShiftIR, whenever the
call returns: every cycle of the scan loop samples TDO and has TMS = 0, so no
Exit1 transition is fired there.  When the end state is the Shift state the
scan started in, no further cycle is clocked and `tapstate` stays.  When the
call returns 0, `tapstate` is the end state; if that is the Shift state of the
other register, the closing transition clocks the table's path to it (TMS
1,1,1,1,0,0 from ShiftDR, 1,1,1,0,0 from ShiftIR).  When the call returns an
error, no cycle was clocked and `tapstate` is unchanged.  Outside
hardware-assisted mode the call does return, with 0. -/
theorem scan_continue_shifting (env : Env) (past : Nat → TmsCycle) (fuel : Nat)
    (jtag : jtag_info) (x : scan_xfer) (tdi tdo : Option (Nat → Nat))
    (hm : jtag.pspi.mode = BIT_MODE_16)
    (hX : jtag.tapstate = JtagShfDR ∨ jtag.tapstate = JtagShfIR)
    (hN : 1 ≤ x.length)
    (hE : x.end_tap_state = JtagShfDR ∨ x.end_tap_state = JtagShfIR) :
    (∀ r : scan_result, npcm_jtag_readwrite_scan env past fuel jtag x tdi tdo = .ok r →
      ∃ bodyOps closeOps : List Event,
        r.jtag.log = jtag.log ++ bodyOps ++ closeOps ∧
        (∀ c ∈ cyclesOf bodyOps, c.1 = 0 ∧ c.2.1 = 0) ∧
        scanCycles closeOps = [] ∧
        (x.end_tap_state = jtag.tapstate →
          cyclesOf closeOps = [] ∧ r.jtag.tapstate = jtag.tapstate) ∧
        (r.ret = 0 → r.jtag.tapstate = x.end_tap_state ∧
          (cyclesOf closeOps).map (fun c => c.2.1) =
            (if x.end_tap_state = jtag.tapstate then []
              else if jtag.tapstate = JtagShfDR then [1, 1, 1, 1, 0, 0]
              else [1, 1, 1, 0, 0])) ∧
        (r.ret ≠ 0 → r.jtag.tapstate = jtag.tapstate ∧ cyclesOf (bodyOps ++ closeOps) = [])) ∧
    (jtag.mode ≠ MODE_PSPI → (tdi.isNone → x.tdi_bytes = 0) → (tdo.isNone → x.tdo_bytes = 0) →
      x.length ≤ fuel →
      ∃ r : scan_result,
        npcm_jtag_readwrite_scan env past fuel jtag x tdi tdo = .ok r ∧ r.ret = 0) := by
  have hnl : ¬ leavesShift x.end_tap_state := by
    unfold leavesShift
    rcases hE with h' | h' <;> simp [h']
  refine ⟨?_, fun hmode htdi htdo hfuel =>
    scan_bitbang_returns env past fuel jtag x tdi tdo hmode hX hN htdi htdo hfuel⟩
  intro r h
  rcases scan_spec env past fuel jtag x tdi tdo r hm hX (by omega) h with
    ⟨hret, ops, hf, hc, ht⟩ | ⟨hret, mid, bodyOps, hf, hr, hc0, hcm, -, -, -, hmt, -⟩
  · refine ⟨ops, [], by rw [hf.1]; simp, ?_, rfl, fun _ => ⟨rfl, ht⟩,
      fun h0 => absurd h0 hret, fun _ => ⟨ht, by simpa using hc⟩⟩
    intro c hcm
    rw [hc] at hcm
    exact absurd hcm (List.not_mem_nil c)
  · have hmt2 : mid.tapstate = jtag.tapstate := by
      rw [hmt, if_neg (fun hh => hnl hh.1)]
    have hcm2 : (cyclesOf bodyOps).map (fun c => c.2.1) =
        List.replicate (cyclesOf bodyOps).length 0 := by
      rw [hcm]
      unfold scanTmsArgs
      rw [if_neg (fun hh => hnl hh.1)]
    obtain ⟨closeOps, hlog, htap, hsc, hcl⟩ :=
      set_tapstate_between_shift env past mid x.end_tap_state (by rw [hmt2]; exact hX) hE
    rw [← hr] at hlog htap
    rw [hmt2] at hcl
    refine ⟨bodyOps, closeOps, by rw [hlog, hf.1], ?_, hsc, ?_, fun _ => ⟨htap, hcl⟩,
      fun hne => absurd hret hne⟩
    · intro c hcmem
      exact ⟨map_eq_replicate_mem _ _ _ _ hc0 c hcmem, map_eq_replicate_mem _ _ _ _ hcm2 c hcmem⟩
    · intro hsame
      rw [if_pos hsame] at hcl
      exact ⟨List.map_eq_nil_iff.mp hcl, by rw [htap, hsame]⟩

theorem scan_continue_shifting_witness :
    ∃ r : scan_result,
      npcm_jtag_readwrite_scan ready_env no_past 8 (sample_jtag MODE_PSPI false JtagShfDR)
        ⟨8, 1, 1, JtagShfDR⟩ (some fun _ => 0) (some fun _ => 0) = .ok r ∧
      r.jtag.tapstate = JtagShfDR ∧
      ∃ bodyOps closeOps : List Event,
        r.jtag.log = [] ++ bodyOps ++ closeOps ∧
        (∀ c ∈ cyclesOf bodyOps, c.1 = 0 ∧ c.2.1 = 0) ∧ cyclesOf closeOps = [] :=
  ⟨_, rfl, rfl,
    let ⟨b, c, h1, h2, _, h4, _⟩ :=
      (scan_continue_shifting ready_env no_past 8 (sample_jtag MODE_PSPI false JtagShfDR)
        ⟨8, 1, 1, JtagShfDR⟩ (some fun _ => 0) (some fun _ => 0) rfl (Or.inl rfl)
        (by decide) (Or.inl rfl)).1 _ rfl
    ⟨b, c, h1, h2, (h4 rfl).1⟩⟩


/-- C10. Mixed-mode conservation, for the 16-bit unit and any hardware: the
accesses of a scan that returns 0 split into the bulk part (enabling the
channel and the interrupt-driven transfer), the loop and the closing
transition.  The bulk part clocks no cycle and moves exactly the byte count
that the scan computed for it (two bytes per word read from the data
register; no more words are written than read, and exactly as many on
hardware that reports a full receive buffer only when idle).  In the loop
every polled unit is written once and read once.  The closing transition
shifts nothing.  And 8 * (bulk bytes) + 16 * (polled units) + (bit-bang
cycles of the loop) is the length `N`. -/
theorem scan_conservation (env : Env) (past : Nat → TmsCycle) (fuel : Nat)
    (jtag : jtag_info) (x : scan_xfer) (tdi tdo : Option (Nat → Nat)) (r : scan_result)
    (hm : jtag.pspi.mode = BIT_MODE_16)
    (h : npcm_jtag_readwrite_scan env past fuel jtag x tdi tdo = .ok r)
    (hret : r.ret = 0) :
    ∃ bulkOps loopOps closeOps : List Event,
      r.jtag.log = jtag.log ++ bulkOps ++ loopOps ++ closeOps ∧
      cyclesOf bulkOps = [] ∧
      2 * dataReads bulkOps =
        (if jtag.mode = MODE_PSPI ∧ 16 < x.length ∧ jtag.pspi.enable_irq = true
          then scan_bulk_bytes 16 x.length else 0) ∧
      dataWrites bulkOps ≤ dataReads bulkOps ∧
      (ReceiveImpliesIdle env → dataWrites bulkOps = dataReads bulkOps) ∧
      dataWrites loopOps = dataReads loopOps ∧
      scanCycles closeOps = [] ∧ dataReads closeOps = 0 ∧ dataWrites closeOps = 0 ∧
      8 * (2 * dataReads bulkOps) + 16 * dataWrites loopOps + (scanCycles loopOps).length =
        x.length := by
  have hne : (-EINVAL : Int) ≠ 0 := by decide
  /- a scan that returns 0 started in a Shift state with a non-zero length -/
  have hX : jtag.tapstate = JtagShfDR ∨ jtag.tapstate = JtagShfIR := by
    by_contra hcon
    have h1 : jtag.tapstate ≠ JtagShfDR ∧ jtag.tapstate ≠ JtagShfIR :=
      ⟨fun e => hcon (Or.inl e), fun e => hcon (Or.inr e)⟩
    unfold npcm_jtag_readwrite_scan at h
    rw [if_pos h1] at h
    cases h
    exact hne hret
  have hN : x.length ≠ 0 := by
    intro hcon
    have h1 : ¬ (jtag.tapstate ≠ JtagShfDR ∧ jtag.tapstate ≠ JtagShfIR) := by
      rcases hX with h' | h' <;> simp [h']
    unfold npcm_jtag_readwrite_scan at h
    rw [if_neg h1, if_pos hcon] at h
    cases h
    exact hne hret
  rcases scan_spec env past fuel jtag x tdi tdo r hm hX hN h with
    ⟨hbad, -⟩ | ⟨-, mid, bodyOps, hf, hr, hc0, -, hcnt, -, -, -, bulkOps, loopOps, hsplit,
      hbc, hbr, hbw, hbe, hlw⟩
  · exact absurd hret hbad
  · obtain ⟨closeOps, hfc, hsc, hcr, hcw⟩ :=
      set_tapstate_frame env past mid JTAG_STATE_CURRENT x.end_tap_state
    rw [← hr] at hfc
    have hcyc : cyclesOf bodyOps = cyclesOf loopOps := by
      rw [hsplit, cyclesOf_append, hbc]; rfl
    have hsl : scanCycles loopOps = cyclesOf loopOps := by
      apply scanCycles_of_all_sampled
      rw [← hcyc]; exact hc0
    refine ⟨bulkOps, loopOps, closeOps, ?_, hbc, hbr, hbw, hbe, hlw, hsc, hcr, hcw, ?_⟩
    · rw [hfc.1, hf.1, hsplit]
      simp only [List.append_assoc]
    · have hlen : (cyclesOf bodyOps).length = (cyclesOf loopOps).length := by rw [hcyc]
      have hrd : dataReads bodyOps = dataReads bulkOps + dataReads loopOps := by
        rw [hsplit, dataReads_append]
      rw [hsl, hlw]
      omega

theorem scan_conservation_witness :
    ∃ r : scan_result,
      npcm_jtag_readwrite_scan ready_env no_past 4 (sample_jtag MODE_PSPI true JtagShfDR)
        ⟨35, 5, 5, JtagRTI⟩ (some fun _ => 0) (some fun _ => 0) = .ok r ∧
      r.ret = 0 ∧
      ∃ bulkOps loopOps closeOps : List Event,
        r.jtag.log = [] ++ bulkOps ++ loopOps ++ closeOps ∧
        2 * dataReads bulkOps = 4 ∧
        8 * (2 * dataReads bulkOps) + 16 * dataWrites loopOps + (scanCycles loopOps).length =
          35 :=
  ⟨_, rfl, rfl,
    let ⟨b, l, c, h1, _, h3, _, _, _, _, _, _, h10⟩ :=
      scan_conservation ready_env no_past 4 (sample_jtag MODE_PSPI true JtagShfDR)
        ⟨35, 5, 5, JtagRTI⟩ (some fun _ => 0) (some fun _ => 0) _ rfl rfl rfl
    ⟨b, l, c, h1, h3, h10⟩⟩

/-! ## The bit-order adapter, the clock primitive and raw bit-bang -/

theorem REVERSE_REVERSE (x : Nat) (h : x < 256) : REVERSE (REVERSE x) = x := by
  have key : ∀ y : Fin 256, REVERSE (REVERSE y.val) = y.val := by
    set_option maxRecDepth 100000 in decide
  exact key ⟨x, h⟩

theorem REVERSE_lt (x : Nat) (h : x < 256) : REVERSE x < 256 := by
  have key : ∀ y : Fin 256, REVERSE y.val < 256 := by
    set_option maxRecDepth 100000 in decide
  exact key ⟨x, h⟩

/-- C17: the bit-order adapter is self-inverse: for every byte value `x` in
0..255, `REVERSE(REVERSE(x)) == x`, where `REVERSE(x)` is
`(reverse[x & 0x0f] << 4) | reverse[(x & 0xf0) >> 4]` over the nibble table. -/
theorem REVERSE_self_inverse :
    ∀ x : Fin 256,
      REVERSE x.val =
        ((reverse.getD (x.val &&& 0x0f) 0 <<< 4) ||| reverse.getD ((x.val &&& 0xf0) >>> 4) 0) ∧
      REVERSE (REVERSE x.val) = x.val := by
  intro x
  exact ⟨rfl, REVERSE_REVERSE x.val x.isLt⟩

theorem lineOps_append (a b : List Event) : lineOps (a ++ b) = lineOps a ++ lineOps b := by
  induction a with
  | nil => rfl
  | cons e a ih => cases e <;> simp [lineOps, ih]

theorem timeouts_append (a b : List Event) : timeouts (a ++ b) = timeouts a + timeouts b := by
  induction a with
  | nil => simp [timeouts]
  | cons e a ih => cases e <;> simp [timeouts, ih]; omega

theorem channel_enabled_append (before : Bool) (a b : List Event) :
    channel_enabled before (a ++ b) = channel_enabled (channel_enabled before a) b := by
  induction a generalizing before with
  | nil => rfl
  | cons e a ih => cases e <;> simp [channel_enabled, ih]

theorem pins_pspi_append (before : Bool) (a b : List Event) :
    pins_pspi before (a ++ b) = pins_pspi (pins_pspi before a) b := by
  induction a generalizing before with
  | nil => rfl
  | cons e a ih => cases e <;> simp [pins_pspi, ih]

theorem level_ne_zero (x : Nat) : ((if x = 0 then 0 else 1 : Nat) != 0) = (x != 0) := by
  by_cases h : x = 0 <;> simp [h]

theorem level_le_one (c : Prop) [Decidable c] : (if c then 0 else 1 : Nat) ≤ 1 := by
  split <;> simp

/-- One clock cycle in full: the accesses after the call record are line
operations only, in the order of the source, with at most one TDO sample,
whose value the call returns as a `u8`. -/
theorem TCK_Cycle_full (env : Env) (jtag : jtag_info) (no_tdo TMS TDI : Nat) :
    ∃ (ops : List Event) (s : Nat),
      (TCK_Cycle env jtag no_tdo TMS TDI).2 =
        { jtag with tms_level := TMS, log := jtag.log ++ .cycle no_tdo TMS TDI :: ops } ∧
      (lineOps ops).length = ops.length ∧
      lineOps ops =
        [.write .TDI (TDI != 0)] ++
        (if jtag.tms_level ≠ TMS then [.write .TMS (TMS != 0)] else []) ++
        [.write .TCK true] ++
        (if no_tdo = 0 then [.read .TDO] else []) ++
        [.write .TCK false] ∧
      tdoSamples ops = (if no_tdo = 0 then [s] else []) ∧
      (TCK_Cycle env jtag no_tdo TMS TDI).1 = (if no_tdo = 0 then s % 256 else 0) ∧
      (jtag.gpio_ctrl = GPIOCTRL_DIRECT → s ≤ 1) ∧
      cyclesOf ops = [] := by
  obtain ⟨pspi, freq, controller, tms_level, tapstate, is_open, mode, gpio_ctrl, log⟩ := jtag
  by_cases hg : gpio_ctrl = GPIOCTRL_DIRECT
  · let pre : List Event :=
      [.set_gpio .TDI (if TDI ≠ 0 then 1 else 0)]
        ++ (if tms_level ≠ TMS then [.set_gpio .TMS (if TMS ≠ 0 then 1 else 0)] else [])
        ++ [.set_gpio .TCK 1]
    let s : Nat := if env.pin .TDO (log ++ .cycle no_tdo TMS TDI :: pre) ≠ 0 then 1 else 0
    refine ⟨pre ++ (if no_tdo = 0 then [.get_gpio .TDO s] else []) ++ [.set_gpio .TCK 0], s, ?_⟩
    by_cases ht : tms_level = TMS <;> by_cases hn : no_tdo = 0 <;>
      simp [pre, s, TCK_Cycle, jtag_info.emit, set_gpio, get_gpio, hg, ht, hn, cyclesOf,
        tdoSamples, lineOps, level_ne_zero, level_le_one]
  · let pre : List Event :=
      [.gpiod_set_value .TDI TDI]
        ++ (if tms_level ≠ TMS then [.gpiod_set_value .TMS TMS] else [])
        ++ [.gpiod_set_value .TCK 1]
    let s : Nat := env.pin .TDO (log ++ .cycle no_tdo TMS TDI :: pre)
    refine ⟨pre ++ (if no_tdo = 0 then [.gpiod_get_value .TDO s] else []) ++
      [.gpiod_set_value .TCK 0], s, ?_⟩
    by_cases ht : tms_level = TMS <;> by_cases hn : no_tdo = 0 <;>
      simp [pre, s, TCK_Cycle, jtag_info.emit, gpiod_set_value, gpiod_get_value, hg, ht, hn,
        cyclesOf, tdoSamples, lineOps]

/-- C18: for every tms, tdi, sample flag, cached TMS level and pin-control
strategy `g`, `TCK_Cycle` performs exactly this sequence of line operations:
write TDI (high iff `TDI` is non-zero); write TMS if and only if `TMS`
differs from the cached level; raise TCK; read TDO if and only if sampling
is requested (`no_tdo == 0`); lower TCK.  It makes no other access, the
cached level is `TMS` afterwards, and the result is the sampled value as a
`u8` (0 or 1 with direct register access), 0 when not sampling.  The
sequence does not depend on the strategy. -/
theorem TCK_Cycle_line_operations (env : Env) (jtag : jtag_info) (no_tdo TMS TDI g : Nat) :
    ∃ (ops : List Event) (s : Nat),
      (TCK_Cycle env { jtag with gpio_ctrl := g } no_tdo TMS TDI).2 =
        { jtag with gpio_ctrl := g, tms_level := TMS,
                    log := jtag.log ++ .cycle no_tdo TMS TDI :: ops } ∧
      (lineOps ops).length = ops.length ∧
      lineOps ops =
        [.write .TDI (TDI != 0)] ++
        (if jtag.tms_level ≠ TMS then [.write .TMS (TMS != 0)] else []) ++
        [.write .TCK true] ++
        (if no_tdo = 0 then [.read .TDO] else []) ++
        [.write .TCK false] ∧
      tdoSamples ops = (if no_tdo = 0 then [s] else []) ∧
      (TCK_Cycle env { jtag with gpio_ctrl := g } no_tdo TMS TDI).1 =
        (if no_tdo = 0 then s % 256 else 0) ∧
      (g = GPIOCTRL_DIRECT → s ≤ 1) := by
  obtain ⟨ops, s, h1, h2, h3, h4, h5, h6, -⟩ :=
    TCK_Cycle_full env { jtag with gpio_ctrl := g } no_tdo TMS TDI
  exact ⟨ops, s, h1, h2, h3, h4, h5, h6⟩

theorem bitbangs_loop_spec (env : Env) (n : Nat) :
    ∀ (i : Nat) (jtag : jtag_info) (data : Nat → tck_bitbang),
    ∃ ops : List Event,
      (bitbangs_loop env n i jtag data).1.log = jtag.log ++ ops ∧
      (bitbangs_loop env n i jtag data).1.tapstate = jtag.tapstate ∧
      cyclesOf ops = (List.range n).map (fun k => (0, (data (i + k)).tms, (data (i + k)).tdi)) ∧
      (List.range n).map (fun k => ((bitbangs_loop env n i jtag data).2 (i + k)).tdo) =
        (tdoSamples ops).map (fun s => s % 256) ∧
      (∀ k, ((bitbangs_loop env n i jtag data).2 k).tms = (data k).tms ∧
            ((bitbangs_loop env n i jtag data).2 k).tdi = (data k).tdi ∧
            (k < i ∨ i + n ≤ k → (bitbangs_loop env n i jtag data).2 k = data k)) := by
  induction n with
  | zero =>
    intro i jtag data
    exact ⟨[], by simp [bitbangs_loop], rfl, rfl, rfl, fun k => ⟨rfl, rfl, fun _ => rfl⟩⟩
  | succ n ih =>
    intro i jtag data
    obtain ⟨ops1, s, h1, -, -, hs1, hv1, -, hc1⟩ :=
      TCK_Cycle_full env jtag 0 (data i).tms (data i).tdi
    simp only [if_true] at hs1 hv1
    obtain ⟨ops2, hl2, ht2, hc2, hs2, hk2⟩ := ih (i + 1)
      (npcm_jtag_bitbang env jtag (data i)).2
      (Function.update data i (npcm_jtag_bitbang env jtag (data i)).1)
    have hupd : ∀ k, k ≠ i →
        Function.update data i (npcm_jtag_bitbang env jtag (data i)).1 k = data k :=
      fun k hk => Function.update_noteq hk _ _
    have hself : Function.update data i (npcm_jtag_bitbang env jtag (data i)).1 i =
        { data i with tdo := s % 256 } := by
      simp [npcm_jtag_bitbang, hv1]
    refine ⟨.cycle 0 (data i).tms (data i).tdi :: ops1 ++ ops2, ?_, ?_, ?_, ?_, ?_⟩
    · rw [bitbangs_loop, hl2]
      simp [npcm_jtag_bitbang, h1]
    · rw [bitbangs_loop, ht2]
      simp [npcm_jtag_bitbang, h1]
    · rw [List.cons_append,
        show cyclesOf (.cycle 0 (data i).tms (data i).tdi :: (ops1 ++ ops2)) =
          (0, (data i).tms, (data i).tdi) :: cyclesOf (ops1 ++ ops2) from rfl,
        cyclesOf_append, hc1, hc2, List.nil_append, List.range_succ_eq_map, List.map_cons,
        List.map_map, Nat.add_zero]
      congr 1
      apply List.map_congr_left
      intro k _
      have : i + 1 + k ≠ i := by omega
      simp [hupd _ this, Nat.add_assoc, Nat.add_comm 1 k]
    · rw [bitbangs_loop, List.cons_append,
        show tdoSamples (.cycle 0 (data i).tms (data i).tdi :: (ops1 ++ ops2)) =
          tdoSamples (ops1 ++ ops2) from rfl,
        tdoSamples_append, hs1, List.range_succ_eq_map, List.map_cons, List.map_map,
        Nat.add_zero, List.singleton_append, List.map_cons]
      congr 1
      · have := (hk2 i).2.2 (Or.inl (by omega))
        simp only [Nat.add_zero]
        rw [this, hself]
      · rw [← hs2]
        apply List.map_congr_left
        intro k _
        simp [Nat.add_assoc, Nat.add_comm 1 k]
    · intro k
      rw [bitbangs_loop]
      obtain ⟨a, b, c⟩ := hk2 k
      by_cases hk : k = i
      · subst hk
        refine ⟨?_, ?_, fun h => by omega⟩
        · rw [a, hself]
        · rw [b, hself]
      · rw [hupd k hk] at a b c
        exact ⟨a, b, fun h => c (by omega)⟩

/-- C20 (counterexample): a packet whose length equals the bound is not
accepted.  With the bound at 65535, for instance, a packet of 65535 pairs is
rejected with `-EINVAL` and nothing is clocked; by the guard of the command
the same holds for every value of the bound. -/
theorem bitbang_length_at_bound_rejected :
    (jtag_ioctl_IOCBITBANG ready_env 65535 (sample_jtag MODE_GPIO false JtagRTI)
        ⟨65535, fun _ => ⟨0, 0, 0⟩⟩).1 = -EINVAL ∧
    (jtag_ioctl_IOCBITBANG ready_env 65535 (sample_jtag MODE_GPIO false JtagRTI)
        ⟨65535, fun _ => ⟨0, 0, 0⟩⟩).2.1.log = [] := by
  simp [jtag_ioctl_IOCBITBANG, sample_jtag]

/-- C20 (amended): a packet whose length is below `JTAG_MAX_XFER_DATA_LEN` is
accepted: the command returns 0 and clocks exactly `length` cycles in order,
cycle `i` sampling TDO and driving the pair `(tms_i, tdi_i)`; the sample of
cycle `i`, as a byte, is stored as `tdo_i`, and nothing else in the user
memory changes.  A packet whose length is the bound or more is rejected with
`-EINVAL`, and then no cycle is clocked and nothing is stored. -/
theorem bitbang_command (env : Env) (JTAG_MAX_XFER_DATA_LEN : Nat) (priv : jtag_info)
    (bitbang : bitbang_packet) :
    if bitbang.length < JTAG_MAX_XFER_DATA_LEN then
      ∃ ops : List Event,
        (jtag_ioctl_IOCBITBANG env JTAG_MAX_XFER_DATA_LEN priv bitbang).1 = 0 ∧
        (jtag_ioctl_IOCBITBANG env JTAG_MAX_XFER_DATA_LEN priv bitbang).2.1.log =
          priv.log ++ ops ∧
        cyclesOf ops = (List.range bitbang.length).map
          (fun i => (0, (bitbang.data i).tms, (bitbang.data i).tdi)) ∧
        (tdoSamples ops).length = bitbang.length ∧
        (List.range bitbang.length).map
            (fun i => ((jtag_ioctl_IOCBITBANG env JTAG_MAX_XFER_DATA_LEN priv bitbang).2.2 i).tdo) =
          (tdoSamples ops).map (fun s => s % 256) ∧
        (∀ i, ((jtag_ioctl_IOCBITBANG env JTAG_MAX_XFER_DATA_LEN priv bitbang).2.2 i).tms =
                (bitbang.data i).tms ∧
              ((jtag_ioctl_IOCBITBANG env JTAG_MAX_XFER_DATA_LEN priv bitbang).2.2 i).tdi =
                (bitbang.data i).tdi) ∧
        (∀ i, bitbang.length ≤ i →
              (jtag_ioctl_IOCBITBANG env JTAG_MAX_XFER_DATA_LEN priv bitbang).2.2 i =
                bitbang.data i)
    else
      jtag_ioctl_IOCBITBANG env JTAG_MAX_XFER_DATA_LEN priv bitbang =
        (-EINVAL, priv, bitbang.data) := by
  split
  · rename_i hlt
    obtain ⟨ops, hl, -, hc, hs, hk⟩ := bitbangs_loop_spec env bitbang.length 0 priv bitbang.data
    have e : jtag_ioctl_IOCBITBANG env JTAG_MAX_XFER_DATA_LEN priv bitbang =
        (0, (bitbangs_loop env bitbang.length 0 priv bitbang.data).1,
          fun i => if i < bitbang.length then
            (bitbangs_loop env bitbang.length 0 priv bitbang.data).2 i else bitbang.data i) := by
      unfold jtag_ioctl_IOCBITBANG npcm_jtag_bitbangs
      rw [if_neg (by omega)]
    rw [e]
    simp only [Nat.zero_add] at hc hs
    refine ⟨ops, rfl, hl, hc, ?_, ?_, ?_, ?_⟩
    · have := congrArg List.length hs
      simpa using this.symm
    · rw [← hs]
      apply List.map_congr_left
      intro i hi
      simp only [List.mem_range] at hi
      simp [hi]
    · intro i
      simp only
      split
      · exact ⟨(hk i).1, (hk i).2.1⟩
      · exact ⟨rfl, rfl⟩
    · intro i hi
      simp only
      rw [if_neg (by omega)]
  · rename_i hge
    unfold jtag_ioctl_IOCBITBANG
    rw [if_pos (by omega)]

/-! ## The transfer wrapper and the enabling of the channel -/

theorem set_tapstate_same_shift (env : Env) (past : Nat → TmsCycle) (jtag : jtag_info)
    (s : Nat) (hs : s = JtagShfDR ∨ s = JtagShfIR) :
    npcm_jtag_set_tapstate env past jtag s s = (0, jtag) := by
  have h16 : s < 16 := by rcases hs with h | h <;> rw [h] <;> decide
  have hc : s ≠ JTAG_STATE_CURRENT := by rcases hs with h | h <;> rw [h] <;> decide
  apply set_tapstate_zero_count
  · rw [if_neg hc]; simp only [JTAG_STATE_CURRENT]; omega
  · simp only [JTAG_STATE_CURRENT]; omega
  · rcases hs with h | h <;> rw [h] <;> decide
  · rw [if_neg hc, tmsCycleAt_inside past s s (by omega)]
    rcases hs with h | h <;> rw [h] <;> decide

/-- C13: with the tracked state at TestLogicReset (as initialisation leaves
it), a Data transfer with `from == ShiftDR` or an Instruction transfer with
`from == ShiftIR`, of any length to any end state, does not bring `tapstate`
to the Shift state: the transition returns early with `tapstate` still
TestLogicReset, the scan then fails with `-EINVAL`, and `npcm_jtag_xfer`
returns `-EINVAL` with no access made. -/
theorem xfer_from_shift_state_fails (env : Env) (past : Nat → TmsCycle) (fuel : Nat)
    (jtag : jtag_info) (direction endstate length bytes : Nat) (data tdo : Nat → Nat) :
    npcm_jtag_xfer env past fuel { jtag with tapstate := JtagTLR }
        ⟨JTAG_SDR_XFER, direction, JtagShfDR, endstate, length⟩ data bytes (some tdo) =
      .ok (-EINVAL, { jtag with tapstate := JtagTLR },
        fun i => if i < bytes then tdo i else data i) ∧
    npcm_jtag_xfer env past fuel { jtag with tapstate := JtagTLR }
        ⟨JTAG_SIR_XFER, direction, JtagShfIR, endstate, length⟩ data bytes (some tdo) =
      .ok (-EINVAL, { jtag with tapstate := JtagTLR },
        fun i => if i < bytes then tdo i else data i) := by
  constructor
  · unfold npcm_jtag_xfer
    simp only
    rw [if_neg (by decide), set_tapstate_same_shift env past _ JtagShfDR (Or.inl rfl)]
    unfold npcm_jtag_readwrite_scan
    rw [if_pos (show _ ≠ JtagShfDR ∧ _ ≠ JtagShfIR from ⟨by simp [JtagTLR, JtagShfDR],
      by simp [JtagTLR, JtagShfIR]⟩)]
    rfl
  · unfold npcm_jtag_xfer
    simp only
    rw [if_pos (by decide), set_tapstate_same_shift env past _ JtagShfIR (Or.inr rfl)]
    unfold npcm_jtag_readwrite_scan
    rw [if_pos (show _ ≠ JtagShfDR ∧ _ ≠ JtagShfIR from ⟨by simp [JtagTLR, JtagShfDR],
      by simp [JtagTLR, JtagShfIR]⟩)]
    rfl

/-- C19: with `freq == 25000000` and a reference clock of 25 MHz the divisor
is `-1`.  `jtag_switch_pspi(jtag, true)` then returns without touching the
channel, and it has no return value; a 32-bit scan to RunTestIdle still takes
the hardware path for its first unit (one write to and one read from
`PSPI_DATA`) and returns 0, and `npcm_jtag_runtest` with 16 cycles likewise
writes one unit to `PSPI_DATA` and returns 0. -/
theorem invalid_frequency_not_reported :
    jtag_switch_pspi ready_env (fast_jtag false) true = .ok (fast_jtag false) ∧
    (∃ r : scan_result,
      npcm_jtag_readwrite_scan ready_env no_past 32 (fast_jtag false) ⟨32, 4, 4, JtagRTI⟩
        (some (fun _ => 0)) (some (fun _ => 0)) = .ok r ∧
      r.ret = 0 ∧ dataWrites r.jtag.log = 1 ∧ dataReads r.jtag.log = 1) ∧
    (∃ j : jtag_info,
      npcm_jtag_runtest ready_env 4 (fast_jtag false) 16 true true = .ok (0, j) ∧
      dataWrites j.log = 1) := by
  set_option maxRecDepth 100000 in
  exact ⟨rfl, ⟨_, rfl, rfl, rfl, rfl⟩, ⟨_, rfl, rfl⟩⟩

/-! ## Waits that run out of time, and the state of the channel -/

theorem isPin_measures (ops : List Event) (h : ops.all Event.isPin = true) (b : Bool) :
    timeouts ops = 0 ∧ channel_enabled b ops = b ∧ pins_pspi b ops = b ∧
      dataReads ops = 0 ∧ dataWrites ops = 0 := by
  induction ops with
  | nil => exact ⟨rfl, rfl, rfl, rfl, rfl⟩
  | cons e ops ih =>
    simp only [List.all_cons, Bool.and_eq_true] at h
    obtain ⟨he, hops⟩ := h
    obtain ⟨h1, h2, h3, h4, h5⟩ := ih hops
    cases e <;> simp [Event.isPin] at he <;>
      simp [timeouts, channel_enabled, pins_pspi, dataReads, dataWrites, h1, h2, h3, h4, h5]

theorem TCK_Cycle_isPin (env : Env) (jtag : jtag_info) (no_tdo TMS TDI : Nat) :
    ∃ ops : List Event,
      (TCK_Cycle env jtag no_tdo TMS TDI).2 =
        { jtag with tms_level := TMS, log := jtag.log ++ ops } ∧
      ops.all Event.isPin = true ∧ cyclesOf ops = [(no_tdo, TMS, TDI)] := by
  obtain ⟨pspi, freq, controller, tms_level, tapstate, is_open, mode, gpio_ctrl, log⟩ := jtag
  by_cases hg : gpio_ctrl = GPIOCTRL_DIRECT <;> by_cases ht : tms_level = TMS <;>
    by_cases hn : no_tdo = 0 <;>
    simp [TCK_Cycle, jtag_info.emit, set_gpio, get_gpio, gpiod_set_value, gpiod_get_value,
      hg, ht, hn, cyclesOf, Event.isPin]

theorem idle_loop_spec (env : Env) (n : Nat) (jtag : jtag_info) :
    ∃ ops : List Event,
      idle_loop env n jtag =
        { jtag with tms_level := (if n = 0 then jtag.tms_level else 0),
                    log := jtag.log ++ ops } ∧
      ops.all Event.isPin = true ∧ cyclesOf ops = List.replicate n (0, 0, 0) := by
  induction n generalizing jtag with
  | zero => exact ⟨[], by simp [idle_loop], rfl, rfl⟩
  | succ n ih =>
    obtain ⟨ops1, h1, hp1, hc1⟩ := TCK_Cycle_isPin env jtag 0 0 0
    obtain ⟨ops2, h2, hp2, hc2⟩ := ih (TCK_Cycle env jtag 0 0 0).2
    refine ⟨ops1 ++ ops2, ?_, ?_, ?_⟩
    · rw [idle_loop, h2, h1]
      by_cases hn : n = 0 <;> simp [hn]
    · simp [List.all_append, hp1, hp2]
    · simp [cyclesOf_append, hc1, hc2, List.replicate_succ]

@[simp] theorem timeouts_emit (j : jtag_info) (e : Event) (h : e ≠ .time_after) :
    timeouts (j.emit e).log = timeouts j.log := by
  cases e <;> simp [jtag_info.emit, timeouts_append, timeouts] at h ⊢

@[simp] theorem timeouts_readb (env : Env) (j : jtag_info) (reg : Nat) :
    timeouts (readb env j reg).2.log = timeouts j.log := by
  simp [readb]

@[simp] theorem timeouts_readw (env : Env) (j : jtag_info) (reg : Nat) :
    timeouts (readw env j reg).2.log = timeouts j.log := by
  simp [readw]

@[simp] theorem timeouts_writeb (j : jtag_info) (reg v : Nat) :
    timeouts (writeb j reg v).log = timeouts j.log := by
  simp [writeb]

@[simp] theorem timeouts_writew (j : jtag_info) (reg v : Nat) :
    timeouts (writew j reg v).log = timeouts j.log := by
  simp [writew]

@[simp] theorem timeouts_read_jiffies (env : Env) (j : jtag_info) :
    timeouts (read_jiffies env j).2.log = timeouts j.log := by
  simp [read_jiffies]

@[simp] theorem timeouts_config_pins (j : jtag_info) (sel : Nat) :
    timeouts (npcm_jtag_config_pins j sel).log = timeouts j.log := by
  unfold npcm_jtag_config_pins
  split
  · simp
  · split <;> simp

@[simp] theorem timeouts_gpiod_get_value (env : Env) (j : jtag_info) (pin : Pin) :
    timeouts (gpiod_get_value env j pin).2.log = timeouts j.log := by
  simp [gpiod_get_value]

@[simp] theorem timeouts_switch_off (env : Env) (j : jtag_info) :
    timeouts (jtag_switch_pspi_off env j).log = timeouts j.log := by
  simp [jtag_switch_pspi_off]

theorem timeouts_switch_on (env : Env) (j j2 : jtag_info)
    (h : jtag_switch_pspi env j true = .ok j2) : timeouts j2.log = timeouts j.log := by
  unfold jtag_switch_pspi at h
  simp only [if_true] at h
  split at h
  · exact Except.noConfusion h
  · split at h
    · cases h; rfl
    · split at h <;> cases h <;> simp

@[simp] theorem timeouts_pspi_send (env : Env) (j : jtag_info) :
    timeouts (pspi_send env j).2.log = timeouts j.log := by
  unfold pspi_send
  simp only
  split
  · rfl
  · split
    · simp
    · split <;> simp

@[simp] theorem timeouts_pspi_recv (env : Env) (j : jtag_info) :
    timeouts (pspi_recv env j).2.log = timeouts j.log := by
  unfold pspi_recv
  simp only
  split
  · rfl
  · split <;> simp [readb, readw, jtag_info.emit, timeouts_append, timeouts]

@[simp] theorem timeouts_complete (j : jtag_info) :
    timeouts (complete j).log = timeouts j.log := by
  simp [complete]

@[simp] theorem timeouts_irq_handler (env : Env) (j : jtag_info) :
    timeouts (pspi_irq_handler env j).log = timeouts j.log := by
  unfold pspi_irq_handler
  simp only
  repeat' split
  all_goals simp

theorem timeouts_wait (env : Env) :
    ∀ (fuel : Nat) (j j2 : jtag_info),
      wait_for_completion env fuel j = .ok j2 → timeouts j2.log = timeouts j.log := by
  intro fuel
  induction fuel with
  | zero =>
    intro j j2 h
    rw [wait_for_completion] at h
    split at h
    · cases h; rfl
    · exact Except.noConfusion h
  | succ fuel ih =>
    intro j j2 h
    rw [wait_for_completion] at h
    split at h
    · cases h; rfl
    · rw [ih _ _ h]; simp

@[simp] theorem timeouts_xfer_setup (env : Env) (j : jtag_info)
    (tx rx : Nat → Nat) (tb rb n : Nat) :
    timeouts (pspi_xfer_setup env j tx tb rx rb n).2.2.log = timeouts j.log := by
  simp [pspi_xfer_setup, readw, readb, writew, jtag_info.emit, timeouts_append, timeouts]

theorem timeouts_pspi_xfer (env : Env) (fuel : Nat) (j j2 : jtag_info)
    (tx rx : Option (Nat → Nat)) (tb rb n : Nat) (ret : Int)
    (h : pspi_xfer env fuel j tx tb rx rb n = .ok (ret, j2)) :
    timeouts j2.log = timeouts j.log := by
  unfold pspi_xfer at h
  cases tx with
  | none => simp only at h; cases h; rfl
  | some txm =>
    cases rx with
    | none => simp only at h; cases h; rfl
    | some rxm =>
      simp only at h
      split at h
      · cases h; rfl
      · split at h
        · exact Except.noConfusion h
        · split at h
          · cases h; rfl
          · split at h
            · split at h
              · exact Except.noConfusion h
              · rename_i jw hw
                cases h
                simp [timeouts_wait env _ _ _ hw]
            · cases h
              simp

/-! ## The stages of the scan -/

theorem tlr_loop_isPin (env : Env) (n : Nat) (jtag : jtag_info) :
    ∃ ops : List Event,
      (tlr_loop env n jtag).log = jtag.log ++ ops ∧ ops.all Event.isPin = true := by
  induction n generalizing jtag with
  | zero => exact ⟨[], by simp [tlr_loop], rfl⟩
  | succ n ih =>
    obtain ⟨ops1, h1, hp1, -⟩ := TCK_Cycle_isPin env jtag 1 1 0
    obtain ⟨ops2, h2, hp2⟩ := ih (TCK_Cycle env jtag 1 1 0).2
    refine ⟨ops1 ++ ops2, ?_, ?_⟩
    · rw [tlr_loop, h2, h1]; simp
    · simp [List.all_append, hp1, hp2]

theorem tms_loop_isPin (env : Env) (n : Nat) :
    ∀ (tmsbits : Nat) (jtag : jtag_info), ∃ ops : List Event,
      (tms_loop env n tmsbits jtag).log = jtag.log ++ ops ∧ ops.all Event.isPin = true := by
  induction n with
  | zero => intro tmsbits jtag; exact ⟨[], by simp [tms_loop], rfl⟩
  | succ n ih =>
    intro tmsbits jtag
    obtain ⟨ops1, h1, hp1, -⟩ := TCK_Cycle_isPin env jtag 1 (tmsbits &&& 1) 0
    obtain ⟨ops2, h2, hp2⟩ := ih (tmsbits >>> 1) (TCK_Cycle env jtag 1 (tmsbits &&& 1) 0).2
    refine ⟨ops1 ++ ops2, ?_, ?_⟩
    · rw [tms_loop, h2, h1]; simp
    · simp [List.all_append, hp1, hp2]

theorem set_tapstate_isPin (env : Env) (past : Nat → TmsCycle) (jtag : jtag_info)
    (from_state end_state : Nat) :
    ∃ ops : List Event,
      (npcm_jtag_set_tapstate env past jtag from_state end_state).2.log = jtag.log ++ ops ∧
      ops.all Event.isPin = true := by
  unfold npcm_jtag_set_tapstate
  simp only
  generalize (if from_state = JTAG_STATE_CURRENT then jtag.tapstate else from_state) = frm
  by_cases hguard : frm > JTAG_STATE_CURRENT ∨ end_state > JTAG_STATE_CURRENT
  · rw [if_pos hguard]
    exact ⟨[], by simp, rfl⟩
  · rw [if_neg hguard]
    by_cases hT : end_state = JtagTLR
    · rw [if_pos hT]
      obtain ⟨ops, h, hp⟩ := tlr_loop_isPin env 9 jtag
      exact ⟨ops, by simpa using h, hp⟩
    · rw [if_neg hT]
      by_cases hc : (tmsCycleAt past frm end_state).count = 0
      · rw [if_pos hc]
        exact ⟨[], by simp, rfl⟩
      · rw [if_neg hc]
        obtain ⟨ops, h, hp⟩ := tms_loop_isPin env (tmsCycleAt past frm end_state).count
          (tmsCycleAt past frm end_state).tmsbits jtag
        exact ⟨ops, by simpa using h, hp⟩

theorem timeouts_of_isPin (j j2 : jtag_info) (ops : List Event)
    (h : j2.log = j.log ++ ops) (hp : ops.all Event.isPin = true) :
    timeouts j2.log = timeouts j.log := by
  rw [h, timeouts_append, (isPin_measures ops hp false).1, Nat.add_zero]

theorem channel_of_isPin (b : Bool) (j j2 : jtag_info) (ops : List Event)
    (h : j2.log = j.log ++ ops) (hp : ops.all Event.isPin = true) :
    channel_enabled b j2.log = channel_enabled b j.log ∧
      pins_pspi b j2.log = pins_pspi b j.log := by
  rw [h, channel_enabled_append, pins_pspi_append, (isPin_measures ops hp _).2.1,
    (isPin_measures ops hp _).2.2.1]
  exact ⟨rfl, rfl⟩

theorem clear_spien (v : Nat) :
    (clear_bits v (1 <<< PSPI_CTL1_SPIEN) % 65536) &&& (1 <<< PSPI_CTL1_SPIEN) = 0 := by
  have h1 : clear_bits v (1 <<< PSPI_CTL1_SPIEN) = v &&& 65534 := rfl
  have h2 : v &&& 65534 ≤ 65534 := Nat.and_le_right
  have h3 : (65534 &&& 1 <<< PSPI_CTL1_SPIEN) = 0 := by decide
  rw [h1, Nat.mod_eq_of_lt (by omega), Nat.and_assoc, h3, Nat.and_zero]

/-- The disable branch of `jtag_switch_pspi` leaves the enable bit clear and,
with a controller that the driver knows, the pins in GPIO function. -/
theorem switch_off_channel (env : Env) (j : jtag_info) (b : Bool) :
    channel_enabled b (jtag_switch_pspi_off env j).log = false ∧
    (j.controller = PSPI1 ∨ j.controller = PSPI2 →
      pins_pspi b (jtag_switch_pspi_off env j).log = false) := by
  have hcl := clear_spien (env.reg PSPI_CTL1 j.log % 65536)
  constructor
  · unfold jtag_switch_pspi_off npcm_jtag_config_pins
    simp only
    split
    · simp [gpiod_get_value, jtag_info.emit, writew, readw, channel_enabled_append,
        channel_enabled, hcl]
    · split <;>
        simp [gpiod_get_value, jtag_info.emit, writew, readw, channel_enabled_append,
          channel_enabled, hcl]
  · intro hc
    unfold jtag_switch_pspi_off npcm_jtag_config_pins
    simp only
    rcases hc with hc | hc
    · have e : (writew (readw env j PSPI_CTL1).2 PSPI_CTL1
          (clear_bits (readw env j PSPI_CTL1).1 (1 <<< PSPI_CTL1_SPIEN))).controller = PSPI1 := hc
      rw [if_pos e]
      simp [gpiod_get_value, jtag_info.emit, writew, readw, pins_pspi_append, pins_pspi,
        PSPI1SEL_GPIO]
    · have e : (writew (readw env j PSPI_CTL1).2 PSPI_CTL1
          (clear_bits (readw env j PSPI_CTL1).1 (1 <<< PSPI_CTL1_SPIEN))).controller = PSPI2 := hc
      have e1 : ¬ (writew (readw env j PSPI_CTL1).2 PSPI_CTL1
          (clear_bits (readw env j PSPI_CTL1).1 (1 <<< PSPI_CTL1_SPIEN))).controller = PSPI1 := by
        rw [e]; decide
      rw [if_neg e1, if_pos e]
      simp [gpiod_get_value, jtag_info.emit, writew, readw, pins_pspi_append, pins_pspi,
        PSPI2SEL_GPIO]

theorem pspi_poll_timeouts (env : Env) (waiting : Nat → Bool) (timeout : Nat) :
    ∀ (n : Nat) (jtag jtag2 : jtag_info) (b : Bool),
      pspi_poll env waiting timeout n jtag = .ok (b, jtag2) →
      timeouts jtag2.log = timeouts jtag.log + (if b then 1 else 0) := by
  intro n
  induction n with
  | zero => intro jtag jtag2 b h; simp [pspi_poll] at h
  | succ n ih =>
    intro jtag jtag2 b h
    rw [pspi_poll] at h
    simp only at h
    split at h
    · split at h
      · cases h
        simp [jtag_info.emit, timeouts_append, timeouts, read_jiffies, readb]
      · rw [ih _ _ _ h]; simp
    · cases h
      simp

theorem scan_pspi_step_timeouts (env : Env) (fuel unit_len : Nat) (tdi : Nat → Nat)
    (jtag jtag2 : jtag_info) (l l2 : scan_locals) (ret : Option Int)
    (h : scan_pspi_step env fuel unit_len tdi jtag l = .ok (ret, jtag2, l2)) :
    (ret = none ∧ timeouts jtag2.log = timeouts jtag.log) ∨
    (ret = some (-ETIMEDOUT) ∧ timeouts jtag2.log = timeouts jtag.log + 1 ∧
      ∃ j : jtag_info, jtag2 = jtag_switch_pspi_off env j) := by
  unfold scan_pspi_step at h
  simp only at h
  split at h
  · exact Except.noConfusion h
  · rename_i j1 hp1
    cases h
    right
    have := pspi_poll_timeouts _ _ _ _ _ _ _ hp1
    exact ⟨rfl, by simp [this], j1, rfl⟩
  · rename_i j1 hp1
    have t1 := pspi_poll_timeouts _ _ _ _ _ _ _ hp1
    simp only [Bool.false_eq_true, if_false, Nat.add_zero, timeouts_read_jiffies] at t1
    split at h
    · exact Except.noConfusion h
    · rename_i j2 hp2
      cases h
      right
      have t2 := pspi_poll_timeouts _ _ _ _ _ _ _ hp2
      refine ⟨rfl, ?_, j2, rfl⟩
      rw [timeouts_switch_off, t2]
      split <;> simp [t1]
    · rename_i j2 hp2
      cases h
      left
      have t2 := pspi_poll_timeouts _ _ _ _ _ _ _ hp2
      refine ⟨rfl, ?_⟩
      rw [timeouts_readw, t2]
      split <;> simp [t1]

theorem scan_gpio_step_timeouts (env : Env) (x : scan_xfer) (tdi : Nat → Nat)
    (jtag : jtag_info) (l : scan_locals) :
    timeouts (scan_gpio_step env x tdi jtag l).1.log = timeouts jtag.log := by
  unfold scan_gpio_step
  simp only
  obtain ⟨ops, h, hp, -⟩ := TCK_Cycle_isPin env
    (if l.use_pspi then jtag_switch_pspi_off env jtag else jtag) 0 (scan_tms x l)
    (if l.bit_index / 8 < l.tdi_bytes then (tdi l.tdi_p >>> (l.bit_index % 8)) &&& 1 else 0)
  have hpre : timeouts (if l.use_pspi then jtag_switch_pspi_off env jtag else jtag).log =
      timeouts jtag.log := by split <;> simp
  rw [h]
  have := (isPin_measures ops hp false).1
  split <;> simp [timeouts_append, this, hpre]

/-- A scan loop in which a wait ran out of time returns from inside the loop,
straight after the disable branch of `jtag_switch_pspi`; a loop that ran to
its end saw no wait run out of time. -/
theorem scan_loop_timeouts (env : Env) (x : scan_xfer) (unit_len : Nat) (tdi : Nat → Nat)
    (fuel : Nat) :
    ∀ (n : Nat) (jtag : jtag_info) (l : scan_locals) (ret : Option Int)
      (jtag2 : jtag_info) (l2 : scan_locals),
      scan_loop env x unit_len tdi fuel n jtag l = .ok (ret, jtag2, l2) →
      (ret = none ∧ timeouts jtag2.log = timeouts jtag.log) ∨
      (ret = some (-ETIMEDOUT) ∧ timeouts jtag2.log = timeouts jtag.log + 1 ∧
        ∃ j : jtag_info, jtag2 = jtag_switch_pspi_off env j) := by
  intro n
  induction n with
  | zero =>
    intro jtag l ret jtag2 l2 h
    rw [scan_loop] at h
    split at h
    · exact Except.noConfusion h
    · cases h; exact Or.inl ⟨rfl, rfl⟩
  | succ n ih =>
    intro jtag l ret jtag2 l2 h
    rw [scan_loop] at h
    split at h
    · split at h
      · have := ih _ _ _ _ _ h
        rw [scan_gpio_step_timeouts] at this
        exact this
      · split at h
        · exact Except.noConfusion h
        · rename_i c j1 l1 hs
          rcases scan_pspi_step_timeouts env fuel unit_len tdi jtag j1 l l1 (some c) hs with
            ⟨hn, -⟩ | hr
          · exact Option.noConfusion hn
          · cases h
            exact Or.inr hr
        · rename_i j1 l1 hs
          rcases scan_pspi_step_timeouts env fuel unit_len tdi jtag j1 l l1 none hs with
            ⟨-, t1⟩ | ⟨hn, -⟩
          · have := ih _ _ _ _ _ h
            rw [t1] at this
            exact this
          · exact Option.noConfusion hn
    · cases h; exact Or.inl ⟨rfl, rfl⟩

/-- The stages of a scan that passed its first two checks. -/
theorem scan_stages (env : Env) (past : Nat → TmsCycle) (fuel : Nat)
    (jtag : jtag_info) (x : scan_xfer) (tdi tdo : Option (Nat → Nat)) (r : scan_result)
    (hX : jtag.tapstate = JtagShfDR ∨ jtag.tapstate = JtagShfIR)
    (hN : x.length ≠ 0)
    (h : npcm_jtag_readwrite_scan env past fuel jtag x tdi tdo = .ok r) :
    r = ⟨-EINVAL, jtag, tdo⟩ ∨
    ∃ (j1 : jtag_info) (l1 : scan_locals) (c2 : Option Int) (j2 : jtag_info) (l2 : scan_locals),
      ¬ (tdi.isNone ∧ x.tdi_bytes ≠ 0) ∧ ¬ (tdo.isNone ∧ x.tdo_bytes ≠ 0) ∧
      scan_enable env (jtag.pspi.mode * 8) jtag (scan_init x tdo) = .ok (j1, l1) ∧
      scan_bulk env fuel (jtag.pspi.mode * 8) j1 tdi tdo l1 = .ok (c2, j2, l2) ∧
      ((∃ c : Int, c2 = some c ∧ r = ⟨c, j2, tdo.map (fun _ => l2.tdo)⟩) ∨
       (c2 = none ∧ ∃ (c3 : Option Int) (j3 : jtag_info) (l3 : scan_locals),
          scan_loop env x (jtag.pspi.mode * 8) (tdi.getD (fun _ => 0)) fuel fuel j2 l2 =
            .ok (c3, j3, l3) ∧
          ((∃ c : Int, c3 = some c ∧ r = ⟨c, j3, tdo.map (fun _ => l3.tdo)⟩) ∨
           (c3 = none ∧
            r = ⟨0, (npcm_jtag_set_tapstate env past j3 JTAG_STATE_CURRENT x.end_tap_state).2,
                 tdo.map (fun _ => l3.tdo)⟩)))) := by
  unfold npcm_jtag_readwrite_scan at h
  have h1 : ¬ (jtag.tapstate ≠ JtagShfDR ∧ jtag.tapstate ≠ JtagShfIR) := by
    rcases hX with h' | h' <;> simp [h']
  rw [if_neg h1, if_neg hN] at h
  split at h
  · cases h; exact Or.inl rfl
  · rename_i hi
    split at h
    · cases h; exact Or.inl rfl
    · rename_i ho
      split at h
      · exact Except.noConfusion h
      · rename_i j1 l1 hen
        split at h
        · exact Except.noConfusion h
        · rename_i c j2 l2 hbulk
          cases h
          exact Or.inr ⟨j1, l1, some c, j2, l2, hi, ho, hen, hbulk, Or.inl ⟨c, rfl, rfl⟩⟩
        · rename_i j2 l2 hbulk
          refine Or.inr ⟨j1, l1, none, j2, l2, hi, ho, hen, hbulk, Or.inr ⟨rfl, ?_⟩⟩
          unfold scan_finish at h
          split at h
          · exact Except.noConfusion h
          · rename_i c j3 l3 hloop
            cases h
            exact ⟨some c, j3, l3, hloop, Or.inl ⟨c, rfl, rfl⟩⟩
          · rename_i j3 l3 hloop
            cases h
            exact ⟨none, j3, l3, hloop, Or.inr ⟨rfl, rfl⟩⟩

/-! ## The run-clock command -/

theorem nonzeroDataWrites_append (a b : List Event) :
    nonzeroDataWrites (a ++ b) = nonzeroDataWrites a + nonzeroDataWrites b := by
  induction a with
  | nil => simp [nonzeroDataWrites]
  | cons e a ih => cases e <;> simp [nonzeroDataWrites, ih]; all_goals omega

theorem nonzero_of_isPin (ops : List Event) (h : ops.all Event.isPin = true) :
    nonzeroDataWrites ops = 0 := by
  induction ops with
  | nil => rfl
  | cons e ops ih =>
    simp only [List.all_cons, Bool.and_eq_true] at h
    obtain ⟨he, hops⟩ := h
    cases e <;> simp [Event.isPin] at he <;> simp [nonzeroDataWrites, ih hops]

@[simp] theorem nonzero_readb (env : Env) (j : jtag_info) (reg : Nat) :
    nonzeroDataWrites (readb env j reg).2.log = nonzeroDataWrites j.log := by
  simp [readb, jtag_info.emit, nonzeroDataWrites_append, nonzeroDataWrites]

@[simp] theorem nonzero_readw (env : Env) (j : jtag_info) (reg : Nat) :
    nonzeroDataWrites (readw env j reg).2.log = nonzeroDataWrites j.log := by
  simp [readw, jtag_info.emit, nonzeroDataWrites_append, nonzeroDataWrites]

@[simp] theorem nonzero_writew_ctl1 (j : jtag_info) (v : Nat) :
    nonzeroDataWrites (writew j PSPI_CTL1 v).log = nonzeroDataWrites j.log := by
  simp [writew, jtag_info.emit, nonzeroDataWrites_append, nonzeroDataWrites, PSPI_CTL1,
    PSPI_DATA]

@[simp] theorem nonzero_writew_zero (j : jtag_info) (reg : Nat) :
    nonzeroDataWrites (writew j reg 0).log = nonzeroDataWrites j.log := by
  simp [writew, jtag_info.emit, nonzeroDataWrites_append, nonzeroDataWrites]

@[simp] theorem nonzero_read_jiffies (env : Env) (j : jtag_info) :
    nonzeroDataWrites (read_jiffies env j).2.log = nonzeroDataWrites j.log := by
  simp [read_jiffies, jtag_info.emit, nonzeroDataWrites_append, nonzeroDataWrites]

@[simp] theorem nonzero_emit_irq (j : jtag_info) :
    nonzeroDataWrites (j.emit .irq).log = nonzeroDataWrites j.log := by
  simp [jtag_info.emit, nonzeroDataWrites_append, nonzeroDataWrites]

@[simp] theorem nonzero_emit_time_after (j : jtag_info) :
    nonzeroDataWrites (j.emit .time_after).log = nonzeroDataWrites j.log := by
  simp [jtag_info.emit, nonzeroDataWrites_append, nonzeroDataWrites]

@[simp] theorem nonzero_config_pins (j : jtag_info) (sel : Nat) :
    nonzeroDataWrites (npcm_jtag_config_pins j sel).log = nonzeroDataWrites j.log := by
  unfold npcm_jtag_config_pins
  split
  · simp [jtag_info.emit, nonzeroDataWrites_append, nonzeroDataWrites]
  · split <;> simp [jtag_info.emit, nonzeroDataWrites_append, nonzeroDataWrites]

@[simp] theorem nonzero_gpiod_get_value (env : Env) (j : jtag_info) (pin : Pin) :
    nonzeroDataWrites (gpiod_get_value env j pin).2.log = nonzeroDataWrites j.log := by
  simp [gpiod_get_value, jtag_info.emit, nonzeroDataWrites_append, nonzeroDataWrites]

@[simp] theorem nonzero_switch_off (env : Env) (j : jtag_info) :
    nonzeroDataWrites (jtag_switch_pspi_off env j).log = nonzeroDataWrites j.log := by
  simp [jtag_switch_pspi_off]

theorem nonzero_switch_on (env : Env) (j j2 : jtag_info)
    (h : jtag_switch_pspi env j true = .ok j2) :
    nonzeroDataWrites j2.log = nonzeroDataWrites j.log := by
  unfold jtag_switch_pspi at h
  simp only [if_true] at h
  split at h
  · exact Except.noConfusion h
  · split at h
    · cases h; rfl
    · split at h <;> cases h <;> simp

theorem nonzero_pspi_poll (env : Env) (waiting : Nat → Bool) (timeout : Nat) :
    ∀ (n : Nat) (jtag jtag2 : jtag_info) (b : Bool),
      pspi_poll env waiting timeout n jtag = .ok (b, jtag2) →
      nonzeroDataWrites jtag2.log = nonzeroDataWrites jtag.log := by
  intro n
  induction n with
  | zero => intro jtag jtag2 b h; simp [pspi_poll] at h
  | succ n ih =>
    intro jtag jtag2 b h
    rw [pspi_poll] at h
    simp only at h
    split at h
    · split at h
      · cases h; simp
      · rw [ih _ _ _ h]; simp
    · cases h; simp

/-- The loop over the units of `npcm_jtag_runtest`: when it runs to its end,
each of the `n` units was written as zero and read back; when it leaves for
`err_pspi`, a wait ran out of time and `ret` is `-ETIMEDOUT`. -/
theorem runtest_units_spec (env : Env) (fuel : Nat) :
    ∀ (n : Nat) (jtag j2 : jtag_info) (ret : Option Int),
      runtest_units env fuel n jtag = .ok (ret, j2) →
      ∃ r w : Nat, HwStep jtag j2 r w ∧
        nonzeroDataWrites j2.log = nonzeroDataWrites jtag.log ∧
        ((ret = none ∧ r = n ∧ w = n ∧ timeouts j2.log = timeouts jtag.log) ∨
         (ret = some (-ETIMEDOUT) ∧ timeouts j2.log = timeouts jtag.log + 1)) := by
  intro n
  induction n with
  | zero =>
    intro jtag j2 ret h
    rw [runtest_units] at h
    cases h
    exact ⟨0, 0, HwStep.hw_refl jtag, rfl, Or.inl ⟨rfl, rfl, rfl, rfl⟩⟩
  | succ n ih =>
    intro jtag j2 ret h
    rw [runtest_units] at h
    simp only at h
    split at h
    · exact Except.noConfusion h
    · rename_i j1 hp1
      have s1 : HwStep jtag j1 0 0 :=
        (HwStep.jiffies env jtag).hw_trans (pspi_poll_spec _ _ _ _ _ _ _ hp1)
      have t1 := pspi_poll_timeouts _ _ _ _ _ _ _ hp1
      have z1 := nonzero_pspi_poll _ _ _ _ _ _ _ hp1
      cases h
      exact ⟨0, 0, s1, by simp [z1], Or.inr ⟨rfl, by simp [t1]⟩⟩
    · rename_i j1 hp1
      have s1 : HwStep jtag j1 0 0 :=
        (HwStep.jiffies env jtag).hw_trans (pspi_poll_spec _ _ _ _ _ _ _ hp1)
      have t1 := pspi_poll_timeouts _ _ _ _ _ _ _ hp1
      have z1 := nonzero_pspi_poll _ _ _ _ _ _ _ hp1
      simp only [Bool.false_eq_true, if_false, Nat.add_zero, timeouts_read_jiffies] at t1
      simp only [nonzero_read_jiffies] at z1
      have s2 : HwStep jtag (writew j1 PSPI_DATA 0) 0 1 := s1.hw_trans (HwStep.writew_data j1 _)
      split at h
      · exact Except.noConfusion h
      · rename_i j3 hp2
        have s3 := (s2.hw_trans (HwStep.jiffies env _)).hw_trans
          (pspi_poll_spec _ _ _ _ _ _ _ hp2)
        have t2 := pspi_poll_timeouts _ _ _ _ _ _ _ hp2
        have z2 := nonzero_pspi_poll _ _ _ _ _ _ _ hp2
        cases h
        exact ⟨_, _, s3, by simp [z2, z1], Or.inr ⟨rfl, by simp [t2, t1]⟩⟩
      · rename_i j3 hp2
        have s3 := (s2.hw_trans (HwStep.jiffies env _)).hw_trans
          (pspi_poll_spec _ _ _ _ _ _ _ hp2)
        have t2 := pspi_poll_timeouts _ _ _ _ _ _ _ hp2
        have z2 := nonzero_pspi_poll _ _ _ _ _ _ _ hp2
        have s4 := s3.hw_trans (HwStep.readw_data env j3)
        obtain ⟨r, w, s5, z5, h5⟩ := ih _ _ _ h
        refine ⟨_, _, s4.hw_trans s5, ?_, ?_⟩
        · rw [z5]; simp [z2, z1]
        · rcases h5 with ⟨e1, e2, e3, e4⟩ | ⟨e1, e2⟩
          · subst e2 e3
            exact Or.inl ⟨e1, by omega, by omega, by rw [e4]; simp [t2, t1]⟩
          · exact Or.inr ⟨e1, by rw [e2]; simp [t2, t1]⟩

theorem nonzero_pspi_send (env : Env) (j : jtag_info) (hz : j.pspi.tx_mem = fun _ => 0) :
    nonzeroDataWrites (pspi_send env j).2.log = nonzeroDataWrites j.log ∧
      (pspi_send env j).2.pspi.tx_mem = fun _ => 0 := by
  have hr : REVERSE 0 = 0 := by decide
  unfold pspi_send
  simp only
  split
  · exact ⟨rfl, hz⟩
  · split
    · exact ⟨by simp, hz⟩
    · split
      · refine ⟨?_, hz⟩
        simp [hz, hr, writeb, readb, jtag_info.emit, nonzeroDataWrites_append, nonzeroDataWrites]
      · refine ⟨?_, hz⟩
        simp [hz, hr, writew, readb, jtag_info.emit, nonzeroDataWrites_append,
          nonzeroDataWrites]

theorem nonzero_pspi_recv (env : Env) (j : jtag_info) :
    nonzeroDataWrites (pspi_recv env j).2.log = nonzeroDataWrites j.log ∧
      (pspi_recv env j).2.pspi.tx_mem = j.pspi.tx_mem := by
  unfold pspi_recv
  simp only
  split
  · exact ⟨rfl, rfl⟩
  · split
    · exact ⟨by simp [readb, jtag_info.emit, nonzeroDataWrites_append, nonzeroDataWrites], rfl⟩
    · exact ⟨by simp [readw, jtag_info.emit, nonzeroDataWrites_append, nonzeroDataWrites], rfl⟩

theorem nonzero_complete (j : jtag_info) :
    nonzeroDataWrites (complete j).log = nonzeroDataWrites j.log ∧
      (complete j).pspi.tx_mem = j.pspi.tx_mem := by
  exact ⟨by simp [complete, jtag_info.emit, nonzeroDataWrites_append, nonzeroDataWrites], rfl⟩

theorem nonzero_irq_handler (env : Env) (j : jtag_info) (hz : j.pspi.tx_mem = fun _ => 0) :
    nonzeroDataWrites (pspi_irq_handler env j).log = nonzeroDataWrites j.log ∧
      (pspi_irq_handler env j).pspi.tx_mem = fun _ => 0 := by
  have h0 : nonzeroDataWrites (readb env (j.emit .irq) PSPI_STAT).2.log =
        nonzeroDataWrites j.log ∧
      (readb env (j.emit .irq) PSPI_STAT).2.pspi.tx_mem = fun _ => 0 := ⟨by simp, hz⟩
  /- the receive half -/
  have h1 : ∀ j1 : jtag_info,
      (nonzeroDataWrites j1.log = nonzeroDataWrites j.log ∧ j1.pspi.tx_mem = fun _ => 0) →
      (nonzeroDataWrites (if j1.pspi.rx_bytes ≠ 0 then (pspi_recv env j1).2 else j1).log =
          nonzeroDataWrites j.log ∧
        (if j1.pspi.rx_bytes ≠ 0 then (pspi_recv env j1).2 else j1).pspi.tx_mem =
          fun _ => 0) := by
    intro j1 h
    split
    · exact ⟨(nonzero_pspi_recv env j1).1.trans h.1, (nonzero_pspi_recv env j1).2.trans h.2⟩
    · exact h
  have h2 : ∀ j1 : jtag_info,
      (nonzeroDataWrites j1.log = nonzeroDataWrites j.log ∧ j1.pspi.tx_mem = fun _ => 0) →
      (nonzeroDataWrites (if j1.pspi.rx_bytes = 0 then complete j1 else j1).log =
          nonzeroDataWrites j.log ∧
        (if j1.pspi.rx_bytes = 0 then complete j1 else j1).pspi.tx_mem = fun _ => 0) := by
    intro j1 h
    split
    · exact ⟨(nonzero_complete j1).1.trans h.1, (nonzero_complete j1).2.trans h.2⟩
    · exact h
  have h3 : ∀ j1 : jtag_info,
      (nonzeroDataWrites j1.log = nonzeroDataWrites j.log ∧ j1.pspi.tx_mem = fun _ => 0) →
      (nonzeroDataWrites (if j1.pspi.tx_bytes ≠ 0 then (pspi_send env j1).2 else j1).log =
          nonzeroDataWrites j.log ∧
        (if j1.pspi.tx_bytes ≠ 0 then (pspi_send env j1).2 else j1).pspi.tx_mem =
          fun _ => 0) := by
    intro j1 h
    split
    · exact ⟨(nonzero_pspi_send env j1 h.2).1.trans h.1, (nonzero_pspi_send env j1 h.2).2⟩
    · exact h
  have hX : ∀ j1 : jtag_info,
      (nonzeroDataWrites j1.log = nonzeroDataWrites j.log ∧ j1.pspi.tx_mem = fun _ => 0) →
      ∀ c : Prop, [Decidable c] →
      (nonzeroDataWrites (if c then
            (if (if j1.pspi.rx_bytes ≠ 0 then (pspi_recv env j1).2 else j1).pspi.rx_bytes = 0
              then complete (if j1.pspi.rx_bytes ≠ 0 then (pspi_recv env j1).2 else j1)
              else (if j1.pspi.rx_bytes ≠ 0 then (pspi_recv env j1).2 else j1))
          else j1).log = nonzeroDataWrites j.log ∧
        (if c then
            (if (if j1.pspi.rx_bytes ≠ 0 then (pspi_recv env j1).2 else j1).pspi.rx_bytes = 0
              then complete (if j1.pspi.rx_bytes ≠ 0 then (pspi_recv env j1).2 else j1)
              else (if j1.pspi.rx_bytes ≠ 0 then (pspi_recv env j1).2 else j1))
          else j1).pspi.tx_mem = fun _ => 0) := by
    intro j1 h c _
    by_cases hc : c
    · rw [if_pos hc]; exact h2 _ (h1 _ h)
    · rw [if_neg hc]; exact h
  unfold pspi_irq_handler
  simp only
  by_cases hb : (readb env (j.emit .irq) PSPI_STAT).1 &&& (1 <<< PSPI_STAT_BSY) = 0
  · rw [if_pos hb]; exact h3 _ (hX _ h0 _)
  · rw [if_neg hb]; exact hX _ h0 _

theorem nonzero_wait (env : Env) :
    ∀ (fuel : Nat) (j j2 : jtag_info), (j.pspi.tx_mem = fun _ => 0) →
      wait_for_completion env fuel j = .ok j2 →
      nonzeroDataWrites j2.log = nonzeroDataWrites j.log := by
  intro fuel
  induction fuel with
  | zero =>
    intro j j2 _ h
    rw [wait_for_completion] at h
    split at h
    · cases h; rfl
    · exact Except.noConfusion h
  | succ fuel ih =>
    intro j j2 hz h
    rw [wait_for_completion] at h
    split at h
    · cases h; rfl
    · rw [ih _ _ (nonzero_irq_handler env j hz).2 h, (nonzero_irq_handler env j hz).1]

theorem nonzero_pspi_xfer (env : Env) (fuel : Nat) (j j2 : jtag_info)
    (rx : Option (Nat → Nat)) (tb rb n : Nat) (ret : Int)
    (h : pspi_xfer env fuel j (some (fun _ => 0)) tb rx rb n = .ok (ret, j2)) :
    nonzeroDataWrites j2.log = nonzeroDataWrites j.log := by
  unfold pspi_xfer at h
  cases rx with
  | none => simp only at h; cases h; rfl
  | some rxm =>
    simp only at h
    have hs : nonzeroDataWrites (pspi_xfer_setup env j (fun _ => 0) tb rxm rb n).2.2.log =
        nonzeroDataWrites j.log := by
      simp [pspi_xfer_setup]
    have hz : (pspi_xfer_setup env j (fun _ => 0) tb rxm rb n).2.2.pspi.tx_mem =
        fun _ => 0 := rfl
    split at h
    · cases h; rfl
    · split at h
      · exact Except.noConfusion h
      · split at h
        · cases h; rfl
        · split at h
          · split at h
            · exact Except.noConfusion h
            · rename_i jw hw
              cases h
              rw [nonzero_writew_ctl1, nonzero_wait env _ _ _ (nonzero_pspi_send env _ hz).2 hw,
                (nonzero_pspi_send env _ hz).1, hs]
          · cases h
            rw [nonzero_writew_ctl1, hs]

/-- The part of `npcm_jtag_runtest` with irq enabled, for the 16-bit unit:
when it goes on, either nothing was transferred and all units are left, or
`bytes / 2` words were read, no more were written, and no unit is left; when
it leaves for `err_pspi`, no word was transferred and `ret` is not 0.  No
wait runs out of time and no word other than zero is written. -/
theorem runtest_bulk_spec (env : Env) (fuel : Nat) (jtag j2 : jtag_info) (bytes units : Nat)
    (txbuf rxbuf : Bool) (ret : Option Int) (units2 : Nat)
    (hm : jtag.pspi.mode = BIT_MODE_16)
    (h : runtest_bulk env fuel jtag bytes units txbuf rxbuf = .ok (ret, j2, units2)) :
    timeouts j2.log = timeouts jtag.log ∧
    nonzeroDataWrites j2.log = nonzeroDataWrites jtag.log ∧
    ((ret = none ∧ jtag.pspi.enable_irq = false ∧ j2 = jtag ∧ units2 = units) ∨
     (ret = none ∧ jtag.pspi.enable_irq = true ∧ units2 = 0 ∧
        ∃ r w : Nat, HwStep jtag j2 r w ∧ 2 * r = bytes ∧ w ≤ r ∧
          (ReceiveImpliesIdle env → w = r)) ∨
     (∃ c : Int, ret = some c ∧ c ≠ 0 ∧ jtag.pspi.enable_irq = true ∧ HwStep jtag j2 0 0 ∧
        (c = -ENOMEM ∨ (txbuf = true ∧ rxbuf = true)))) := by
  have hne : (-ENOMEM : Int) ≠ 0 := by decide
  unfold runtest_bulk at h
  split at h
  · rename_i hirq
    split at h
    · cases h
      exact ⟨rfl, rfl, Or.inr (Or.inr ⟨_, rfl, hne, hirq, HwStep.hw_refl jtag, Or.inl rfl⟩)⟩
    · rename_i htx
      split at h
      · cases h
        exact ⟨rfl, rfl, Or.inr (Or.inr ⟨_, rfl, hne, hirq, HwStep.hw_refl jtag, Or.inl rfl⟩)⟩
      · rename_i hrx
        have hb : txbuf = true ∧ rxbuf = true := by
          cases txbuf <;> cases rxbuf <;> simp at htx hrx ⊢
        split at h
        · exact Except.noConfusion h
        · rename_i c jx hx
          have tq := timeouts_pspi_xfer env fuel jtag jx _ _ _ _ _ c hx
          have zq := nonzero_pspi_xfer env fuel jtag jx _ _ _ _ c hx
          rcases pspi_xfer_spec env fuel jtag jx _ _ _ _ _ c hm hx with
            ⟨hc0, r, w, hs, hr, hwr, -, -, henv⟩ | ⟨hc, hs⟩
          · rw [if_neg (by simp [hc0])] at h
            cases h
            exact ⟨tq, zq, Or.inr (Or.inl ⟨rfl, hirq, rfl, r, w, hs, hr, hwr, henv⟩)⟩
          · rw [if_pos hc] at h
            cases h
            exact ⟨tq, zq, Or.inr (Or.inr ⟨c, rfl, hc, hirq, hs, Or.inr hb⟩)⟩
  · rename_i hirq
    cases h
    exact ⟨rfl, rfl, Or.inl ⟨rfl, by simpa using hirq, rfl, rfl⟩⟩

/-- The paths of `npcm_jtag_runtest` with the 16-bit unit.  In bit-bang mode,
and with fewer cycles than one unit, the call is the loop of clock cycles and
nothing else.  Otherwise the channel is enabled, `tcks / 16` units go through
it, and the call ends with the disable branch of `jtag_switch_pspi`, followed
on success by the `tcks % 16` remaining clock cycles. -/
theorem runtest_spec (env : Env) (fuel : Nat) (jtag j2 : jtag_info) (tcks : Nat)
    (txbuf rxbuf : Bool) (ret : Int)
    (hm : jtag.pspi.mode = BIT_MODE_16)
    (h : npcm_jtag_runtest env fuel jtag tcks txbuf rxbuf = .ok (ret, j2)) :
    ((jtag.mode ≠ MODE_PSPI ∨ tcks < 16) ∧ ret = 0 ∧
      j2 = idle_loop env (if jtag.mode ≠ MODE_PSPI then tcks else tcks % 16) jtag) ∨
    (jtag.mode = MODE_PSPI ∧ 16 ≤ tcks ∧
      ∃ (j1 : jtag_info) (r w : Nat), HwStep jtag j1 r w ∧
        nonzeroDataWrites j1.log = nonzeroDataWrites jtag.log ∧
        ((ret = 0 ∧ timeouts j1.log = timeouts jtag.log ∧ r = tcks / 16 ∧ w ≤ r ∧
            (jtag.pspi.enable_irq = false ∨ ReceiveImpliesIdle env → w = r) ∧
            j2 = idle_loop env (tcks % 16) (jtag_switch_pspi_off env j1)) ∨
         (ret ≠ 0 ∧ j2 = jtag_switch_pspi_off env j1 ∧
            ((ret = -ETIMEDOUT ∧ timeouts j1.log = timeouts jtag.log + 1) ∨
             (timeouts j1.log = timeouts jtag.log ∧ jtag.pspi.enable_irq = true ∧
                (ret = -ENOMEM ∨ (txbuf = true ∧ rxbuf = true))))))) := by
  have hnt : (-ETIMEDOUT : Int) ≠ 0 := by decide
  have hu : jtag.pspi.mode * 8 = 16 := by rw [hm]; rfl
  unfold npcm_jtag_runtest at h
  simp only [hu] at h
  rw [if_neg (by decide)] at h
  split at h
  · rename_i hmode
    cases h
    exact Or.inl ⟨Or.inl hmode, rfl, by rw [if_pos hmode]⟩
  · rename_i hmode
    have hmode : jtag.mode = MODE_PSPI := by simpa using hmode
    split at h
    · rename_i hu0
      cases h
      have hlt : tcks < 16 := by
        rcases Nat.lt_or_ge tcks 16 with h' | h'
        · exact h'
        · have := Nat.div_pos h' (by decide : 0 < 16); omega
      exact Or.inl ⟨Or.inr hlt, rfl, by rw [if_neg (by simp [hmode])]⟩
    · rename_i hu0
      have hge : 16 ≤ tcks := by
        rcases Nat.lt_or_ge tcks 16 with h' | h'
        · exact absurd (Nat.div_eq_of_lt h') hu0
        · exact h'
      refine Or.inr ⟨hmode, hge, ?_⟩
      split at h
      · exact Except.noConfusion h
      · rename_i ja hon
        have son : HwStep jtag ja 0 0 := HwStep.switch_on env jtag ja hon
        have ton := timeouts_switch_on env jtag ja hon
        have zon := nonzero_switch_on env jtag ja hon
        obtain ⟨opsa, hfa, -, -⟩ := son
        have hma : ja.pspi.mode = BIT_MODE_16 := hfa.2.2.2.2.2.2.2.1.trans hm
        have hia : ja.pspi.enable_irq = jtag.pspi.enable_irq := hfa.2.2.2.2.2.2.2.2.1
        split at h
        · exact Except.noConfusion h
        · rename_i c jb u hb
          obtain ⟨tb, zb, hcase⟩ := runtest_bulk_spec env fuel ja jb _ _ txbuf rxbuf _ _ hma hb
          rcases hcase with ⟨hn, -⟩ | ⟨hn, -⟩ | ⟨c', hc', hc0, hirq, sb, hwhy⟩
          · exact Option.noConfusion hn
          · exact Option.noConfusion hn
          · cases hc'
            cases h
            refine ⟨jb, 0, 0, (HwStep.switch_on env jtag ja hon).hw_trans sb, by rw [zb, zon],
              Or.inr ⟨hc0, rfl, Or.inr ⟨by rw [tb, ton], by rw [← hia]; exact hirq, hwhy⟩⟩⟩
        · rename_i jb u hb
          obtain ⟨tb, zb, hcase⟩ := runtest_bulk_spec env fuel ja jb _ _ txbuf rxbuf _ _ hma hb
          have key : ∃ rb wb : Nat, HwStep jtag jb rb wb ∧ wb ≤ rb ∧
              (jtag.pspi.enable_irq = false ∨ ReceiveImpliesIdle env → wb = rb) ∧
              rb + u = tcks / 16 := by
            rcases hcase with ⟨-, hirq, hj, hu2⟩ | ⟨-, hirq, hu2, r, w, s, hr, hwr, henv⟩ |
                ⟨c', hc', -⟩
            · subst hj hu2
              exact ⟨0, 0, HwStep.switch_on env jtag _ hon, le_refl 0, fun _ => rfl, by simp⟩
            · subst hu2
              refine ⟨r, w, ?_, hwr, ?_, by rw [BIT_MODE_16] at hm; rw [hm] at hr; omega⟩
              · have := (HwStep.switch_on env jtag ja hon).hw_trans s
                simpa using this
              · intro hh
                rcases hh with hh | hh
                · rw [← hia, hirq] at hh; exact Bool.noConfusion hh
                · exact henv hh
            · exact Option.noConfusion hc'
          obtain ⟨rb, wb, sb, hwb, henvb, hcnt⟩ := key
          split at h
          · exact Except.noConfusion h
          · rename_i c jc hc
            obtain ⟨r, w, sc, zc, hcc⟩ := runtest_units_spec env fuel _ _ _ _ hc
            rcases hcc with ⟨hn, -⟩ | ⟨hce, tce⟩
            · exact Option.noConfusion hn
            · cases hce
              cases h
              exact ⟨jc, _, _, sb.hw_trans sc, by rw [zc, zb, zon],
                Or.inr ⟨hnt, rfl, Or.inl ⟨rfl, by rw [tce, tb, ton]⟩⟩⟩
          · rename_i jc hc
            obtain ⟨r, w, sc, zc, hcc⟩ := runtest_units_spec env fuel _ _ _ _ hc
            rcases hcc with ⟨-, hr, hw, tc⟩ | ⟨hce, -⟩
            · cases h
              subst hr hw
              exact ⟨jc, _, _, sb.hw_trans sc, by rw [zc, zb, zon],
                Or.inl ⟨rfl, by rw [tc, tb, ton], hcnt, by omega,
                  fun hh => by rw [henvb hh], rfl⟩⟩
            · exact Option.noConfusion hce

/-! ## Timeouts, run-clock conservation and the state of the channel -/

theorem timeouts_scan_enable (env : Env) (unit_len : Nat) (jtag j1 : jtag_info)
    (l l1 : scan_locals) (h : scan_enable env unit_len jtag l = .ok (j1, l1)) :
    timeouts j1.log = timeouts jtag.log := by
  unfold scan_enable at h
  split at h
  · split at h
    · exact Except.noConfusion h
    · rename_i j hj
      cases h
      exact timeouts_switch_on env jtag _ hj
  · cases h; rfl

theorem timeouts_scan_bulk (env : Env) (fuel unit_len : Nat) (j1 j2 : jtag_info)
    (tdi tdo : Option (Nat → Nat)) (l1 l2 : scan_locals) (ret : Option Int)
    (h : scan_bulk env fuel unit_len j1 tdi tdo l1 = .ok (ret, j2, l2)) :
    timeouts j2.log = timeouts j1.log := by
  unfold scan_bulk at h
  split at h
  · split at h
    · exact Except.noConfusion h
    · simp only at h
      split at h
      · exact Except.noConfusion h
      · rename_i c jx hx
        have := timeouts_pspi_xfer env fuel j1 jx _ _ _ _ _ c hx
        split at h
        · cases h; simp [this]
        · cases h; exact this
  · cases h; rfl

/-- A scan in which a wait ran out of time returns `-ETIMEDOUT` straight
after the disable branch of `jtag_switch_pspi`, with the tracked state as it
was at entry. -/
theorem scan_timeout_spec (env : Env) (past : Nat → TmsCycle) (fuel : Nat)
    (jtag : jtag_info) (x : scan_xfer) (tdi tdo : Option (Nat → Nat)) (r : scan_result)
    (hm : jtag.pspi.mode = BIT_MODE_16)
    (h : npcm_jtag_readwrite_scan env past fuel jtag x tdi tdo = .ok r)
    (ht : timeouts r.jtag.log ≠ timeouts jtag.log) :
    r.ret = -ETIMEDOUT ∧ (∃ j : jtag_info, r.jtag = jtag_switch_pspi_off env j) ∧
      r.jtag.tapstate = jtag.tapstate := by
  by_cases hX : jtag.tapstate = JtagShfDR ∨ jtag.tapstate = JtagShfIR
  swap
  · unfold npcm_jtag_readwrite_scan at h
    rw [if_pos (by simpa [not_or] using hX)] at h
    cases h
    exact absurd rfl ht
  by_cases hN : x.length = 0
  · unfold npcm_jtag_readwrite_scan at h
    have h1 : ¬ (jtag.tapstate ≠ JtagShfDR ∧ jtag.tapstate ≠ JtagShfIR) := by
      rcases hX with h' | h' <;> simp [h']
    rw [if_neg h1, if_pos hN] at h
    cases h
    exact absurd rfl ht
  have hnt : (-ETIMEDOUT : Int) ≠ 0 := by decide
  rcases scan_stages env past fuel jtag x tdi tdo r hX hN h with
    hr | ⟨j1, l1, c2, j2, l2, -, -, hen, hbulk, hrest⟩
  · subst hr
    exact absurd rfl ht
  · have t1 := timeouts_scan_enable env _ jtag j1 _ l1 hen
    have t2 := timeouts_scan_bulk env fuel _ j1 j2 tdi tdo l1 l2 c2 hbulk
    rcases hrest with ⟨c, -, hr⟩ | ⟨-, c3, j3, l3, hloop, hrest⟩
    · subst hr
      exact absurd (t2.trans t1) ht
    · rcases scan_loop_timeouts env x _ _ fuel fuel j2 l2 c3 j3 l3 hloop with
        ⟨hn, t3⟩ | ⟨hs, t3, j, hj⟩
      · rcases hrest with ⟨c, hc, -⟩ | ⟨-, hr⟩
        · rw [hn] at hc; exact Option.noConfusion hc
        · subst hr
          obtain ⟨ops, ho, hp⟩ := set_tapstate_isPin env past j3 JTAG_STATE_CURRENT
            x.end_tap_state
          have t4 := timeouts_of_isPin _ _ ops ho hp
          exact absurd (t4.trans (t3.trans (t2.trans t1))) ht
      · rcases hrest with ⟨c, hc, hr⟩ | ⟨hn, -⟩
        · subst hr
          have hret : c = -ETIMEDOUT := by
            rw [hs] at hc
            exact (Option.some.inj hc).symm
          subst hret
          refine ⟨rfl, ⟨j, hj⟩, ?_⟩
          rcases scan_spec env past fuel jtag x tdi tdo _ hm hX hN h with
            ⟨-, ops, -, -, htap⟩ | ⟨h0, -⟩
          · exact htap
          · exact absurd h0 hnt
        · rw [hs] at hn; exact Option.noConfusion hn

theorem switch_off_controller (env : Env) (j : jtag_info) :
    (jtag_switch_pspi_off env j).controller = j.controller ∧
      (jtag_switch_pspi_off env j).tapstate = j.tapstate := by
  obtain ⟨ops, hf, -, -⟩ := HwStep.switch_off env j
  exact ⟨hf.2.2.2.2.2.2.1, hf.2.2.1⟩

/-- A call that ends with the disable branch of `jtag_switch_pspi` and then
makes line operations only leaves the channel disabled. -/
theorem channel_after_switch_off (env : Env) (b : Bool) (j j2 : jtag_info) (ops : List Event)
    (h : j2.log = (jtag_switch_pspi_off env j).log ++ ops)
    (hp : ops.all Event.isPin = true) :
    channel_enabled b j2.log = false ∧
      (j.controller = PSPI1 ∨ j.controller = PSPI2 → pins_pspi b j2.log = false) := by
  obtain ⟨c1, c2⟩ := channel_of_isPin b _ _ ops h hp
  rw [c1, c2]
  exact switch_off_channel env j b

/-- C14: with the status register and the tick counter as inputs (`env`), in
every execution of `npcm_jtag_readwrite_scan` and of `npcm_jtag_runtest`
(16-bit unit) in which a wait of the polled path runs out of time, the call
returns `-ETIMEDOUT`, its last action is the disable branch of
`jtag_switch_pspi` (so the enable bit is clear and, with a controller the
driver knows, the pins are in GPIO function), and `tapstate` has its value at
entry. -/
theorem timeout_handling (env : Env) (past : Nat → TmsCycle) (fuel : Nat)
    (jtag : jtag_info) (x : scan_xfer) (tdi tdo : Option (Nat → Nat))
    (tcks : Nat) (txbuf rxbuf : Bool) (b : Bool)
    (hm : jtag.pspi.mode = BIT_MODE_16) :
    (∀ r : scan_result,
      npcm_jtag_readwrite_scan env past fuel jtag x tdi tdo = .ok r →
      timeouts jtag.log < timeouts r.jtag.log →
      r.ret = -ETIMEDOUT ∧
      (∃ j : jtag_info, r.jtag = jtag_switch_pspi_off env j) ∧
      channel_enabled b r.jtag.log = false ∧
      (jtag.controller = PSPI1 ∨ jtag.controller = PSPI2 → pins_pspi b r.jtag.log = false) ∧
      r.jtag.tapstate = jtag.tapstate) ∧
    (∀ (ret : Int) (j2 : jtag_info),
      npcm_jtag_runtest env fuel jtag tcks txbuf rxbuf = .ok (ret, j2) →
      timeouts jtag.log < timeouts j2.log →
      ret = -ETIMEDOUT ∧
      (∃ j : jtag_info, j2 = jtag_switch_pspi_off env j) ∧
      channel_enabled b j2.log = false ∧
      (jtag.controller = PSPI1 ∨ jtag.controller = PSPI2 → pins_pspi b j2.log = false) ∧
      j2.tapstate = jtag.tapstate) := by
  constructor
  · intro r h ht
    obtain ⟨hret, ⟨j, hj⟩, htap⟩ :=
      scan_timeout_spec env past fuel jtag x tdi tdo r hm h (by omega)
    have hX : jtag.tapstate = JtagShfDR ∨ jtag.tapstate = JtagShfIR := by
      by_contra hX
      unfold npcm_jtag_readwrite_scan at h
      rw [if_pos (by simpa [not_or] using hX)] at h
      cases h
      exact absurd ht (Nat.lt_irrefl _)
    have hN : x.length ≠ 0 := by
      intro hN
      unfold npcm_jtag_readwrite_scan at h
      have h1 : ¬ (jtag.tapstate ≠ JtagShfDR ∧ jtag.tapstate ≠ JtagShfIR) := by
        rcases hX with h' | h' <;> simp [h']
      rw [if_neg h1, if_pos hN] at h
      cases h
      exact absurd ht (Nat.lt_irrefl _)
    have hctl : j.controller = jtag.controller := by
      rcases scan_spec env past fuel jtag x tdi tdo r hm hX hN h with
        ⟨-, ops, hf, -, -⟩ | ⟨h0, -⟩
      · have := hf.2.2.2.2.1
        rw [hj, (switch_off_controller env j).1] at this
        exact this
      · rw [hret] at h0
        exact absurd h0 (by decide)
    obtain ⟨c1, c2⟩ := channel_after_switch_off env b j r.jtag [] (by rw [hj]; simp) rfl
    exact ⟨hret, ⟨j, hj⟩, c1, fun hc => c2 (by rw [hctl]; exact hc), htap⟩
  · intro ret j2 h ht
    rcases runtest_spec env fuel jtag j2 tcks txbuf rxbuf ret hm h with
      ⟨-, -, hj⟩ | ⟨-, -, j1, r, w, ⟨ops1, hf1, -, -⟩, -, hcase⟩
    · obtain ⟨ops, ho, hp, -⟩ := idle_loop_spec env
        (if jtag.mode ≠ MODE_PSPI then tcks else tcks % 16) jtag
      rw [← hj] at ho
      have : j2.log = jtag.log ++ ops := by rw [ho]
      have := timeouts_of_isPin jtag j2 ops this hp
      omega
    · have hctl : j1.controller = jtag.controller := hf1.2.2.2.2.2.2.1
      have htap : j1.tapstate = jtag.tapstate := hf1.2.2.1
      rcases hcase with ⟨-, t1, -, -, -, hj⟩ | ⟨-, hj, hwhy⟩
      · obtain ⟨ops, ho, hp, -⟩ := idle_loop_spec env (tcks % 16) (jtag_switch_pspi_off env j1)
        rw [← hj] at ho
        have hl : j2.log = (jtag_switch_pspi_off env j1).log ++ ops := by rw [ho]
        have := timeouts_of_isPin _ j2 ops hl hp
        rw [timeouts_switch_off, t1] at this
        omega
      · rcases hwhy with ⟨hret, -⟩ | ⟨t1, -⟩
        · obtain ⟨c1, c2⟩ := channel_after_switch_off env b j1 j2 [] (by rw [hj]; simp) rfl
          exact ⟨hret, ⟨j1, hj⟩, c1, fun hc => c2 (by rw [hctl]; exact hc),
            by rw [hj, (switch_off_controller env j1).2, htap]⟩
        · rw [hj, timeouts_switch_off, t1] at ht
          omega

theorem timeout_handling_witness :
    (∃ r : scan_result,
      npcm_jtag_readwrite_scan stuck_env no_past 16 (sample_jtag MODE_PSPI false JtagShfDR)
        ⟨32, 4, 4, JtagRTI⟩ (some fun _ => 0) (some fun _ => 0) = .ok r ∧
      r.ret = -ETIMEDOUT ∧ channel_enabled true r.jtag.log = false ∧
      r.jtag.tapstate = JtagShfDR) ∧
    (∃ j2 : jtag_info,
      npcm_jtag_runtest stuck_env 16 (sample_jtag MODE_PSPI false JtagShfDR) 32 true true =
        .ok (-ETIMEDOUT, j2) ∧
      channel_enabled true j2.log = false ∧ j2.tapstate = JtagShfDR) := by
  set_option maxRecDepth 100000 in
  exact
    ⟨⟨_, rfl,
      ((timeout_handling stuck_env no_past 16 (sample_jtag MODE_PSPI false JtagShfDR)
        ⟨32, 4, 4, JtagRTI⟩ (some fun _ => 0) (some fun _ => 0) 32 true true true rfl).1
          _ rfl (by decide)).1,
      ((timeout_handling stuck_env no_past 16 (sample_jtag MODE_PSPI false JtagShfDR)
        ⟨32, 4, 4, JtagRTI⟩ (some fun _ => 0) (some fun _ => 0) 32 true true true rfl).1
          _ rfl (by decide)).2.2.1,
      ((timeout_handling stuck_env no_past 16 (sample_jtag MODE_PSPI false JtagShfDR)
        ⟨32, 4, 4, JtagRTI⟩ (some fun _ => 0) (some fun _ => 0) 32 true true true rfl).1
          _ rfl (by decide)).2.2.2.2⟩,
     ⟨_, rfl,
      ((timeout_handling stuck_env no_past 16 (sample_jtag MODE_PSPI false JtagShfDR)
        ⟨32, 4, 4, JtagRTI⟩ (some fun _ => 0) (some fun _ => 0) 32 true true true rfl).2
          _ _ rfl (by decide)).2.2.1,
      ((timeout_handling stuck_env no_past 16 (sample_jtag MODE_PSPI false JtagShfDR)
        ⟨32, 4, 4, JtagRTI⟩ (some fun _ => 0) (some fun _ => 0) 32 true true true rfl).2
          _ _ rfl (by decide)).2.2.2.2⟩⟩

/-- C15: run-clock conservation with the 16-bit unit.  In bit-bang mode the
call returns 0 after exactly `tcks` clock cycles, each with TMS=0 and TDI=0,
and touches no register.  In hardware-assisted mode, when the call returns 0
it has read `tcks / 16` units from the data register and clocked `tcks % 16`
bit-bang cycles with TMS=0 and TDI=0, so that 16 times the units plus the
cycles is `tcks`; every word it wrote to the data register is zero; on the
polled path, and on the interrupt-driven path with hardware that reports a
full receive buffer only when idle, it wrote exactly `tcks / 16` such words,
and never more. -/
theorem runtest_conservation (env : Env) (fuel : Nat) (jtag : jtag_info) (tcks : Nat)
    (txbuf rxbuf : Bool) (hm : jtag.pspi.mode = BIT_MODE_16) :
    (jtag.mode ≠ MODE_PSPI →
      ∃ (j2 : jtag_info) (ops : List Event),
        npcm_jtag_runtest env fuel jtag tcks txbuf rxbuf = .ok (0, j2) ∧
        j2.log = jtag.log ++ ops ∧
        cyclesOf ops = List.replicate tcks (0, 0, 0) ∧
        ops.all Event.isPin = true ∧ dataReads ops = 0 ∧ dataWrites ops = 0) ∧
    (jtag.mode = MODE_PSPI →
      ∀ j2 : jtag_info, npcm_jtag_runtest env fuel jtag tcks txbuf rxbuf = .ok (0, j2) →
      ∃ ops : List Event,
        j2.log = jtag.log ++ ops ∧
        cyclesOf ops = List.replicate (tcks % 16) (0, 0, 0) ∧
        dataReads ops = tcks / 16 ∧
        16 * dataReads ops + (cyclesOf ops).length = tcks ∧
        nonzeroDataWrites ops = 0 ∧
        dataWrites ops ≤ dataReads ops ∧
        (jtag.pspi.enable_irq = false ∨ ReceiveImpliesIdle env →
          dataWrites ops = tcks / 16 ∧
          16 * dataWrites ops + (cyclesOf ops).length = tcks)) := by
  have hu : jtag.pspi.mode * 8 = 16 := by rw [hm]; rfl
  constructor
  · intro hmode
    obtain ⟨ops, ho, hp, hc⟩ := idle_loop_spec env tcks jtag
    refine ⟨idle_loop env tcks jtag, ops, ?_, by rw [ho], hc, hp,
      (isPin_measures ops hp false).2.2.2.1, (isPin_measures ops hp false).2.2.2.2⟩
    unfold npcm_jtag_runtest
    simp only [hu]
    rw [if_neg (by decide), if_pos hmode]
  · intro hmode j2 h
    rcases runtest_spec env fuel jtag j2 tcks txbuf rxbuf 0 hm h with
      ⟨hwhy, -, hj⟩ | ⟨-, hge, j1, r, w, ⟨ops1, hf1, hr1, hw1⟩, z1, hcase⟩
    · have hlt : tcks < 16 := by
        rcases hwhy with h' | h'
        · exact absurd hmode h'
        · exact h'
      rw [if_neg (by simp [hmode])] at hj
      obtain ⟨ops, ho, hp, hc⟩ := idle_loop_spec env (tcks % 16) jtag
      rw [← hj] at ho
      obtain ⟨-, -, -, m4, m5⟩ := isPin_measures ops hp false
      have hz := nonzero_of_isPin ops hp
      have hd : tcks / 16 = 0 := Nat.div_eq_of_lt hlt
      refine ⟨ops, by rw [ho], hc, by rw [m4, hd], ?_, hz, by rw [m4, m5], ?_⟩
      · rw [m4, hc, List.length_replicate]; omega
      · intro _
        rw [m5, hc, List.length_replicate, hd]
        exact ⟨rfl, by omega⟩
    · rcases hcase with ⟨-, -, hr, hwr, henv, hj⟩ | ⟨h0, -⟩
      · obtain ⟨ops0, hf0, hr0, hw0⟩ := HwStep.switch_off env j1
        obtain ⟨ops, ho, hp, hc⟩ := idle_loop_spec env (tcks % 16) (jtag_switch_pspi_off env j1)
        rw [← hj] at ho
        obtain ⟨-, -, -, m4, m5⟩ := isPin_measures ops hp false
        have hz := nonzero_of_isPin ops hp
        have hlog : j2.log = jtag.log ++ (ops1 ++ ops0 ++ ops) := by
          rw [ho]
          simp only [hf0.1, hf1.1, List.append_assoc]
        have hcyc : cyclesOf (ops1 ++ ops0 ++ ops) = List.replicate (tcks % 16) (0, 0, 0) := by
          rw [cyclesOf_append, cyclesOf_append, hf1.2.1, hf0.2.1, hc]; rfl
        have hrd : dataReads (ops1 ++ ops0 ++ ops) = r := by
          rw [dataReads_append, dataReads_append, hr1, hr0, m4]; omega
        have hwd : dataWrites (ops1 ++ ops0 ++ ops) = w := by
          rw [dataWrites_append, dataWrites_append, hw1, hw0, m5]; omega
        have hnz : nonzeroDataWrites (ops1 ++ ops0 ++ ops) = 0 := by
          have e1 : nonzeroDataWrites j1.log = nonzeroDataWrites jtag.log + nonzeroDataWrites ops1 := by
            rw [hf1.1, nonzeroDataWrites_append]
          have e0 : nonzeroDataWrites (jtag_switch_pspi_off env j1).log =
              nonzeroDataWrites j1.log + nonzeroDataWrites ops0 := by
            rw [hf0.1, nonzeroDataWrites_append]
          rw [nonzero_switch_off] at e0
          rw [nonzeroDataWrites_append, nonzeroDataWrites_append, hz]
          omega
        refine ⟨ops1 ++ ops0 ++ ops, hlog, hcyc, by rw [hrd, hr], ?_, hnz,
          by rw [hrd, hwd]; exact hwr, ?_⟩
        · rw [hrd, hcyc, List.length_replicate, hr]; omega
        · intro hh
          rw [hwd, henv hh, hcyc, List.length_replicate, hr]
          exact ⟨rfl, by omega⟩
      · exact absurd rfl h0

theorem ready_env_idle : ReceiveImpliesIdle ready_env := by
  intro log _
  have h : ready_env.reg PSPI_STAT log = 2 := by simp [ready_env]
  rw [h]
  decide

theorem runtest_conservation_witness :
    ∃ (j2 : jtag_info) (ops : List Event),
      npcm_jtag_runtest ready_env 4 (sample_jtag MODE_PSPI true JtagRTI) 35 true true =
        .ok (0, j2) ∧
      j2.log = [] ++ ops ∧ dataWrites ops = 2 ∧ (cyclesOf ops).length = 3 ∧
      16 * dataWrites ops + (cyclesOf ops).length = 35 :=
  let ⟨ops, h1, h2, _, _, _, _, h7⟩ :=
    (runtest_conservation ready_env 4 (sample_jtag MODE_PSPI true JtagRTI) 35 true true rfl).2
      rfl _ rfl
  ⟨_, ops, rfl, h1, (h7 (Or.inr ready_env_idle)).1,
    by rw [h2]; rfl, (h7 (Or.inr ready_env_idle)).2⟩

/-- C16 (counterexample): with the enable bit set at entry (the log holds a
write of `SPIEN` to the control register), `npcm_jtag_runtest` in bit-bang
mode, and in hardware-assisted mode with fewer cycles than one unit, returns
0 with the enable bit still set: these two paths make no access to the
channel. -/
theorem runtest_early_paths_leave_channel :
    (∃ j2 : jtag_info,
      npcm_jtag_runtest ready_env 0
          { sample_jtag MODE_GPIO false JtagRTI with log := [.writew PSPI_CTL1 5] }
          40 true true = .ok (0, j2) ∧
        channel_enabled false j2.log = true) ∧
    (∃ j2 : jtag_info,
      npcm_jtag_runtest ready_env 0
          { sample_jtag MODE_PSPI false JtagRTI with log := [.writew PSPI_CTL1 5] }
          15 true true = .ok (0, j2) ∧
        channel_enabled false j2.log = true) := by
  set_option maxRecDepth 100000 in
  exact ⟨⟨_, rfl, rfl⟩, ⟨_, rfl, rfl⟩⟩

/-- C16 (amended): with the 16-bit unit, on every return path of
`npcm_jtag_runtest` that enabled the channel (hardware-assisted mode with at
least one unit: success, timeout, allocation failure, failed transfer) the
channel is disabled at the return: the enable bit is clear and, with a
controller the driver knows, the pins are in GPIO function, whatever their
state at entry.  On the other two paths (bit-bang mode, fewer cycles than one
unit) the call returns 0 after line operations only, and the channel and the
pins are in the state they had at entry. -/
theorem runtest_channel_state (env : Env) (fuel : Nat) (jtag j2 : jtag_info) (tcks : Nat)
    (txbuf rxbuf : Bool) (ret : Int) (b : Bool)
    (hm : jtag.pspi.mode = BIT_MODE_16)
    (h : npcm_jtag_runtest env fuel jtag tcks txbuf rxbuf = .ok (ret, j2)) :
    if jtag.mode = MODE_PSPI ∧ 16 ≤ tcks then
      channel_enabled b j2.log = false ∧
      (jtag.controller = PSPI1 ∨ jtag.controller = PSPI2 → pins_pspi b j2.log = false)
    else
      ret = 0 ∧
      (∃ ops : List Event, j2.log = jtag.log ++ ops ∧ ops.all Event.isPin = true) ∧
      channel_enabled b j2.log = channel_enabled b jtag.log ∧
      pins_pspi b j2.log = pins_pspi b jtag.log := by
  rcases runtest_spec env fuel jtag j2 tcks txbuf rxbuf ret hm h with
    ⟨hwhy, hret, hj⟩ | ⟨hmode, hge, j1, r, w, ⟨ops1, hf1, -, -⟩, -, hcase⟩
  · have hc : ¬ (jtag.mode = MODE_PSPI ∧ 16 ≤ tcks) := by
      rintro ⟨h1, h2⟩
      rcases hwhy with h' | h'
      · exact h' h1
      · omega
    rw [if_neg hc]
    obtain ⟨ops, ho, hp, -⟩ := idle_loop_spec env
      (if jtag.mode ≠ MODE_PSPI then tcks else tcks % 16) jtag
    rw [← hj] at ho
    have hl : j2.log = jtag.log ++ ops := by rw [ho]
    obtain ⟨c1, c2⟩ := channel_of_isPin b jtag j2 ops hl hp
    exact ⟨hret, ⟨ops, hl, hp⟩, c1, c2⟩
  · rw [if_pos ⟨hmode, hge⟩]
    have hctl : j1.controller = jtag.controller := hf1.2.2.2.2.2.2.1
    rcases hcase with ⟨-, -, -, -, -, hj⟩ | ⟨-, hj, -⟩
    · obtain ⟨ops, ho, hp, -⟩ := idle_loop_spec env (tcks % 16) (jtag_switch_pspi_off env j1)
      rw [← hj] at ho
      have hl : j2.log = (jtag_switch_pspi_off env j1).log ++ ops := by rw [ho]
      obtain ⟨c1, c2⟩ := channel_after_switch_off env b j1 j2 ops hl hp
      exact ⟨c1, fun hc => c2 (by rw [hctl]; exact hc)⟩
    · obtain ⟨c1, c2⟩ := channel_after_switch_off env b j1 j2 [] (by rw [hj]; simp) rfl
      exact ⟨c1, fun hc => c2 (by rw [hctl]; exact hc)⟩

theorem runtest_channel_state_witness :
    ∃ j2 : jtag_info,
      npcm_jtag_runtest ready_env 4
          { sample_jtag MODE_PSPI false JtagRTI with log := [.writew PSPI_CTL1 5] }
          40 true true = .ok (0, j2) ∧
        channel_enabled false j2.log = false :=
  ⟨_, rfl,
    (runtest_channel_state ready_env 4
      { sample_jtag MODE_PSPI false JtagRTI with log := [.writew PSPI_CTL1 5] } _ 40 true true
      0 false rfl rfl).1⟩

/-! ## The final unit of a hardware-assisted scan -/

/-- The scan loop with the 16-bit unit in hardware-assisted mode, when it
runs to its end: polled units first, then bit-bang cycles only.  The cycles
are fewer than 16, or exactly 16 with an end state other than ShiftDR; with
such an end state there is at least one. -/
theorem scan_loop_tail (env : Env) (x : scan_xfer) (tdi : Nat → Nat) (fuel : Nat) :
    ∀ (n : Nat) (jtag : jtag_info) (l : scan_locals) (jtag2 : jtag_info) (l2 : scan_locals),
      jtag.mode = MODE_PSPI →
      l.bit_index + l.remain_bits = l.xfer_bits →
      scan_loop env x 16 tdi fuel n jtag l = .ok (none, jtag2, l2) →
      ∃ hwOps bbOps : List Event,
        jtag2.log = jtag.log ++ hwOps ++ bbOps ∧
        cyclesOf hwOps = [] ∧ dataWrites hwOps = dataReads hwOps ∧
        dataReads bbOps = 0 ∧ dataWrites bbOps = 0 ∧
        (cyclesOf bbOps).map (fun c => c.1) = List.replicate (cyclesOf bbOps).length 0 ∧
        16 * dataReads hwOps + (cyclesOf bbOps).length = l.remain_bits ∧
        ((cyclesOf bbOps).length < 16 ∨
          ((cyclesOf bbOps).length = 16 ∧ x.end_tap_state ≠ JtagShfDR)) ∧
        (x.end_tap_state ≠ JtagShfDR → 0 < l.remain_bits → 0 < (cyclesOf bbOps).length) := by
  intro n
  induction n with
  | zero =>
    intro jtag l jtag2 l2 _ heq h
    rw [scan_loop] at h
    split at h
    · exact Except.noConfusion h
    · rename_i hlt
      cases h
      refine ⟨[], [], by simp, rfl, rfl, rfl, rfl, rfl, ?_, Or.inl (by simp [cyclesOf]), ?_⟩
      · simp only [dataReads, cyclesOf, List.length_nil]; omega
      · intro _ hpos; omega
  | succ n ih =>
    intro jtag l jtag2 l2 hmode heq h
    by_cases hlt : l.bit_index < l.xfer_bits
    swap
    · rw [scan_loop, if_neg hlt] at h
      cases h
      refine ⟨[], [], by simp, rfl, rfl, rfl, rfl, rfl, ?_, Or.inl (by simp [cyclesOf]), ?_⟩
      · simp only [dataReads, cyclesOf, List.length_nil]; omega
      · intro _ hpos; omega
    by_cases hg : scan_use_gpio 16 jtag x l = true
    · obtain ⟨ops, hf, hs, hgp, hok, -⟩ := scan_loop_spec env x 16 tdi fuel (n + 1) jtag l none
        jtag2 l2 (by omega) (Or.inl hg) h
      obtain ⟨-, hr0⟩ := hgp hg
      obtain ⟨-, hcnt, hw, -⟩ := hok rfl
      have hcond : l.remain_bits < 16 ∨ (l.remain_bits = 16 ∧ x.end_tap_state ≠ JtagShfDR) := by
        unfold scan_use_gpio at hg
        simp only [decide_eq_true_eq] at hg
        rcases hg with h' | h' | h'
        · exact absurd hmode h'
        · exact Or.inl h'
        · exact Or.inr h'
      refine ⟨[], ops, by simpa using hf.1, rfl, rfl, hr0, by rw [hw, hr0], hs, ?_, ?_, ?_⟩
      · simp only [dataReads]; omega
      · rcases hcond with h' | ⟨h', h''⟩
        · left; omega
        · right; exact ⟨by omega, h''⟩
      · intro _ _; omega
    · obtain ⟨-, hge, he⟩ := scan_use_gpio_false 16 jtag x l hg
      rw [scan_loop, if_pos hlt, if_neg hg] at h
      split at h
      · exact Except.noConfusion h
      · cases h
      · rename_i j1 l1 hstep
        rcases scan_pspi_step_spec env fuel 16 tdi jtag j1 l l1 none hstep with
          ⟨-, ⟨ops1, hf1, hr1, hw1⟩, hbi, hrb, hxb⟩ | ⟨hn, -⟩
        · obtain ⟨hw2, bb2, hl2, hc2, hwr2, hr2, hwb2, hs2, hcnt2, hk2, hp2⟩ :=
            ih j1 l1 jtag2 l2 (hf1.2.2.2.1.trans hmode) (by omega) h
          refine ⟨ops1 ++ hw2, bb2, ?_, ?_, ?_, hr2, hwb2, hs2, ?_, hk2, ?_⟩
          · rw [hl2, hf1.1]; simp
          · rw [cyclesOf_append, hf1.2.1, hc2]; rfl
          · rw [dataWrites_append, dataReads_append, hw1, hr1, hwr2]
          · rw [dataReads_append, hr1]; omega
          · intro hE _
            apply hp2 hE
            have : l.remain_bits ≠ 16 := fun h' => hE (he h')
            omega
        · exact Option.noConfusion hn

theorem scan_bulk_bytes_formula (N : Nat) :
    scan_bulk_bytes 16 N = (N / 16) * 2 - (if N % 16 = 0 then 2 else 0) ∧
      (1 ≤ N → 1 ≤ N - 8 * scan_bulk_bytes 16 N ∧ N - 8 * scan_bulk_bytes 16 N ≤ 16) := by
  unfold scan_bulk_bytes
  simp only
  constructor
  · split
    · rename_i h; rw [if_pos h.1]
    · rename_i h
      split
      · rename_i h0
        have : N / 16 * (16 / 8) = 0 := by
          by_contra hne
          exact h ⟨h0, by omega⟩
        omega
      · omega
  · intro hN
    split <;> omega

/-- C12 (counterexample): a 32-bit scan in hardware-assisted mode that starts
in ShiftDR and ends in ShiftDR returns 0 without a single bit-bang cycle,
polled or interrupt-driven: its last unit, too, is written to and read from
the data register of the hardware channel. -/
theorem scan_last_unit_through_hardware :
    (∃ r : scan_result,
      npcm_jtag_readwrite_scan ready_env no_past 4 (sample_jtag MODE_PSPI false JtagShfDR)
        ⟨32, 4, 4, JtagShfDR⟩ (some fun _ => 0) (some fun _ => 0) = .ok r ∧
      r.ret = 0 ∧ cyclesOf r.jtag.log = [] ∧ dataWrites r.jtag.log = 2 ∧
      dataReads r.jtag.log = 2) ∧
    (∃ r : scan_result,
      npcm_jtag_readwrite_scan ready_env no_past 4 (sample_jtag MODE_PSPI true JtagShfDR)
        ⟨32, 4, 4, JtagShfDR⟩ (some fun _ => 0) (some fun _ => 0) = .ok r ∧
      r.ret = 0 ∧ cyclesOf r.jtag.log = [] ∧ dataWrites r.jtag.log = 2 ∧
      dataReads r.jtag.log = 2) := by
  set_option maxRecDepth 100000 in
  exact ⟨⟨_, rfl, rfl, rfl, rfl, rfl⟩, ⟨_, rfl, rfl, rfl, rfl, rfl⟩⟩

/-- C12 (amended): a hardware-assisted scan (mode PSPI, 16-bit unit) of
`N >= 1` bits that starts in a Shift state and returns 0 makes its accesses
in four parts: the interrupt-driven bulk transfer, the polled units, the
bit-bang cycles of the loop, and the closing transition.  The first two
clock no cycle, the third touches no data register and all its cycles sample
TDO, the last consists of line operations and none of its cycles samples
TDO.  The bit-bang
part has `(N - 1) % 16 + 1` cycles, between 1 and 16, when the end state is
not ShiftDR: the final unit, and the last bit with it, is bit-banged.  When
the end state is ShiftDR it has `N % 16` cycles: for `N` a multiple of 16
the final unit goes through the hardware channel and nothing is bit-banged.
The units of the first two parts and the cycles of the third make up `N`.
With irq enabled and `N > 16` the bulk transfer reads `scan_bulk_bytes`
bytes, else none; that count is `(N / 16) * 2`, less 2 when `N` is a multiple
of 16, which leaves between 1 and 16 bits. -/
theorem scan_final_unit (env : Env) (past : Nat → TmsCycle) (fuel : Nat)
    (jtag : jtag_info) (x : scan_xfer) (tdi tdo : Option (Nat → Nat)) (r : scan_result)
    (hm : jtag.pspi.mode = BIT_MODE_16) (hmode : jtag.mode = MODE_PSPI)
    (hX : jtag.tapstate = JtagShfDR ∨ jtag.tapstate = JtagShfIR)
    (hN : 1 ≤ x.length)
    (h : npcm_jtag_readwrite_scan env past fuel jtag x tdi tdo = .ok r)
    (hret : r.ret = 0) :
    ∃ bulkOps hwOps bbOps closeOps : List Event,
      r.jtag.log = jtag.log ++ bulkOps ++ hwOps ++ bbOps ++ closeOps ∧
      cyclesOf bulkOps = [] ∧ cyclesOf hwOps = [] ∧
      dataReads bbOps = 0 ∧ dataWrites bbOps = 0 ∧
      (cyclesOf bbOps).map (fun c => c.1) = List.replicate (cyclesOf bbOps).length 0 ∧
      closeOps.all Event.isPin = true ∧ scanCycles closeOps = [] ∧
      (cyclesOf bbOps).length =
        (if x.end_tap_state = JtagShfDR then x.length % 16 else (x.length - 1) % 16 + 1) ∧
      16 * (dataReads bulkOps + dataReads hwOps) + (cyclesOf bbOps).length = x.length ∧
      2 * dataReads bulkOps =
        (if jtag.pspi.enable_irq = true ∧ 16 < x.length then scan_bulk_bytes 16 x.length
          else 0) ∧
      scan_bulk_bytes 16 x.length =
        (x.length / 16) * 2 - (if x.length % 16 = 0 then 2 else 0) ∧
      1 ≤ x.length - 8 * scan_bulk_bytes 16 x.length ∧
      x.length - 8 * scan_bulk_bytes 16 x.length ≤ 16 := by
  have hu : jtag.pspi.mode * 8 = 16 := by rw [hm]; rfl
  have hne : (-EINVAL : Int) ≠ 0 := by decide
  obtain ⟨hform, hleft⟩ := scan_bulk_bytes_formula x.length
  obtain ⟨hleft1, hleft2⟩ := hleft hN
  rcases scan_stages env past fuel jtag x tdi tdo r hX (by omega) h with
    hr | ⟨j1, l1, c2, j2, l2, -, -, hen, hbulk, hrest⟩
  · rw [hr] at hret
    exact absurd hret hne
  rw [hu] at hen hbulk hrest
  obtain ⟨⟨ops1, hf1, hr1, hw1⟩, hrem1, hbi1, hxb1, hup1⟩ :=
    scan_enable_spec env 16 jtag j1 _ l1 hen
  have hm1 : j1.pspi.mode = BIT_MODE_16 := hf1.2.2.2.2.2.2.2.1.trans hm
  have hx1 : l1.xfer_bits = l1.remain_bits := by rw [hxb1, hrem1]; rfl
  have hlen : l1.remain_bits = x.length := by rw [hrem1]; rfl
  rcases hrest with ⟨c, hc, hr⟩ | ⟨hc2, c3, j3, l3, hloop, hrest⟩
  · subst hc
    rcases scan_bulk_spec env fuel j1 j2 tdi tdo l1 l2 (some c) hm1 hx1 hbulk with
      ⟨hnone, -⟩ | ⟨c', hc', hc0, -⟩
    · exact Option.noConfusion hnone
    · cases hc'
      rw [hr] at hret
      exact absurd hret hc0
  · subst hc2
    rcases scan_bulk_spec env fuel j1 j2 tdi tdo l1 l2 none hm1 hx1 hbulk with
      ⟨-, rb, wb, ⟨ops2, hf2, hr2, hw2⟩, -, -, hbi2, hxb2, hcnt2, hbb⟩ | ⟨c', hc', -⟩
    swap
    · exact Option.noConfusion hc'
    rcases hrest with ⟨c, hc, hr⟩ | ⟨hc3, hr⟩
    · subst hc
      obtain ⟨ops3, -, -, -, -, hto⟩ := scan_loop_spec env x 16 _ fuel fuel j2 l2 (some c) j3 l3
        (by rw [hbi2, hbi1]; exact Nat.zero_le _) (Or.inr (by rw [hbi2, hbi1, hxb2]; simp [scan_init]))
        hloop
      obtain ⟨hce, -⟩ := hto (by simp)
      cases hce
      rw [hr] at hret
      have hnt : (-ETIMEDOUT : Int) ≠ 0 := by decide
      exact absurd hret hnt
    · subst hc3
      have hb0 : l2.bit_index = 0 := by rw [hbi2, hbi1]; rfl
      have hmode2 : j2.mode = MODE_PSPI := (hf2.2.2.2.1.trans hf1.2.2.2.1).trans hmode
      obtain ⟨hwOps, bbOps, hl3, hc3, -, hrd3, hwd3, hs3, hcnt3, hk3, hp3⟩ :=
        scan_loop_tail env x _ fuel fuel j2 l2 j3 l3 hmode2 (by omega) hloop
      obtain ⟨closeOps, hcl, hpin⟩ := set_tapstate_isPin env past j3 JTAG_STATE_CURRENT
        x.end_tap_state
      obtain ⟨ops4, hf4, hsc4, -, -⟩ := set_tapstate_frame env past j3 JTAG_STATE_CURRENT
        x.end_tap_state
      have hsame : ops4 = closeOps := by
        have := hf4.1
        rw [hcl] at this
        exact (List.append_cancel_left this).symm
      have hrb : 2 * rb = (if jtag.pspi.enable_irq = true ∧ 16 < x.length
          then scan_bulk_bytes 16 x.length else 0) := by
        rw [hbb, hlen, hf1.2.2.2.2.2.2.2.2.1]
        have hiff := hup1 rfl
        have hrem0 : (scan_init x tdo).remain_bits = x.length := rfl
        rw [hrem0] at hiff
        by_cases hc : jtag.pspi.enable_irq = true ∧ 16 < x.length
        · rw [if_pos hc, if_pos ⟨hiff.mpr ⟨hmode, hc.2⟩, hc.1⟩]
        · rw [if_neg hc, if_neg]
          intro hh
          exact hc ⟨hh.2, (hiff.mp hh.1).2⟩
      have hrem2 : 16 * rb + l2.remain_bits = x.length := by rw [hcnt2, hlen]
      have hpos2 : 0 < l2.remain_bits := by
        by_cases hc : jtag.pspi.enable_irq = true ∧ 16 < x.length
        · rw [if_pos hc] at hrb; omega
        · rw [if_neg hc] at hrb; omega
      refine ⟨ops1 ++ ops2, hwOps, bbOps, closeOps, ?_, ?_, hc3, hrd3, hwd3, hs3, hpin, ?_, ?_,
        ?_, ?_, hform, hleft1, hleft2⟩
      · rw [hr]
        simp only [hcl, hl3, hf2.1, hf1.1, List.append_assoc]
      · rw [cyclesOf_append, hf1.2.1, hf2.2.1]; rfl
      · rw [← hsame]; exact hsc4
      · split
        · rename_i hE
          rcases hk3 with h' | ⟨-, h'⟩
          · omega
          · exact absurd hE h'
        · rename_i hE
          have := hp3 hE hpos2
          rcases hk3 with h' | ⟨h', -⟩ <;> omega
      · rw [dataReads_append, hr1, hr2]; omega
      · rw [dataReads_append, hr1, hr2, Nat.zero_add]; exact hrb

theorem scan_final_unit_witness :
    ∃ r : scan_result,
      npcm_jtag_readwrite_scan ready_env no_past 4 (sample_jtag MODE_PSPI true JtagShfDR)
        ⟨35, 5, 5, JtagRTI⟩ (some fun _ => 0) (some fun _ => 0) = .ok r ∧
      r.ret = 0 ∧
      ∃ bulkOps hwOps bbOps closeOps : List Event,
        r.jtag.log = [] ++ bulkOps ++ hwOps ++ bbOps ++ closeOps ∧
        (cyclesOf bbOps).length = 3 ∧ 2 * dataReads bulkOps = 4 :=
  ⟨_, rfl, rfl,
    let ⟨b, hw, bb, c, h1, _, _, _, _, _, _, _, h9, _, h11, _, _, _⟩ :=
      scan_final_unit ready_env no_past 4 (sample_jtag MODE_PSPI true JtagShfDR)
        ⟨35, 5, 5, JtagRTI⟩ (some fun _ => 0) (some fun _ => 0) _ rfl rfl (Or.inl rfl)
        (by decide) rfl rfl
    ⟨b, hw, bb, c, h1, h9, h11⟩⟩

/-! ## Bytes and bits -/

theorem word_halves (a b : Nat) (ha : a < 256) (hb : b < 256) :
    ((((a <<< 8) ||| b) % 65536 % 65536) >>> 8) &&& 0xff = a ∧
      (((a <<< 8) ||| b) % 65536 % 65536) &&& 0xff = b := by
  have h1 : (a <<< 8) ||| b = a * 256 + b := by
    have := Nat.mul_add_lt_is_or (show b < 2 ^ 8 from hb) a
    rw [Nat.shiftLeft_eq, Nat.mul_comm a, ← this]
  have h2 : ∀ x : Nat, x &&& 0xff = x % 256 := fun x => Nat.and_pow_two_sub_one_eq_mod x 8
  rw [h1, h2, h2, Nat.shiftRight_eq_div_pow]
  constructor <;> omega

theorem input_bit (v off : Nat) :
    (v >>> off) &&& 1 = (if v.testBit off then 1 else 0) := by
  rw [Nat.testBit, Nat.and_comm]
  have h : 1 &&& (v >>> off) = (v >>> off) % 2 := by
    rw [Nat.and_comm]; exact Nat.and_pow_two_sub_one_eq_mod _ 1
  rw [h]
  rcases Nat.mod_two_eq_zero_or_one (v >>> off) with h' | h' <;> simp [h']

theorem byte_or_bit (z off : Nat) (c : Bool) (hoff : off < 8)
    (hz : ∀ j, off ≤ j → z.testBit j = false) (j : Nat) :
    ((z ||| ((if c then 1 else 0) <<< off)) % 256).testBit j =
      (if j < off then z.testBit j else if j = off then c else false) := by
  have h256 : (256 : Nat) = 2 ^ 8 := rfl
  rw [h256, Nat.testBit_mod_two_pow, Nat.testBit_or, Nat.testBit_shiftLeft]
  by_cases h1 : j < off
  · have : ¬ j ≥ off := by omega
    have hz8 : j < 8 := by omega
    simp [h1, this, hz8]
  · have hge : j ≥ off := by omega
    rw [hz j hge]
    by_cases h2 : j = off
    · subst h2
      cases c <;> simp [hoff]
    · have hpos : j - off ≠ 0 := by omega
      have : (if c then 1 else 0 : Nat).testBit (j - off) = false := by
        cases c
        · simp
        · simp only [if_true]
          exact Nat.testBit_one_eq_true_iff_self_eq_zero.not.mpr hpos |> Bool.eq_false_iff.mpr
      simp [h1, h2, this]

/-! ## The scan against a loop-back fixture -/

theorem loopback_env_spec : Loopback loopback_env := by
  refine ⟨fun log => by simp [loopback_env], fun log => by simp [loopback_env], fun log => ?_⟩
  have h : loopback_env.reg PSPI_STAT log = 2 := by
    simp [loopback_env, PSPI_STAT, PSPI_DATA]
  rw [h]
  decide

theorem TCK_Cycle_loopback (env : Env) (hL : Loopback env) (jtag : jtag_info) (TMS TDI : Nat) :
    (TCK_Cycle env jtag 0 TMS TDI).1 = (if TDI ≠ 0 then 1 else 0) := by
  obtain ⟨pspi, freq, controller, tms_level, tapstate, is_open, mode, gpio_ctrl, log⟩ := jtag
  by_cases hg : gpio_ctrl = GPIOCTRL_DIRECT <;> by_cases ht : tms_level = TMS <;>
    by_cases h0 : TDI = 0 <;>
    simp [TCK_Cycle, jtag_info.emit, set_gpio, get_gpio, gpiod_set_value, gpiod_get_value,
      hg, ht, h0, hL.1, lastTdi, List.foldl_append]

theorem poll_busy_loopback (env : Env) (hL : Loopback env) (timeout fuel : Nat)
    (jtag : jtag_info) :
    pspi_poll env (fun stat => stat &&& (1 <<< PSPI_STAT_BSY) ≠ 0) timeout (fuel + 1) jtag =
      .ok (false, (readb env jtag PSPI_STAT).2) := by
  rw [pspi_poll]
  have h := (hL.2.2 jtag.log).2
  simp [readb, h]

theorem poll_ready_loopback (env : Env) (hL : Loopback env) (timeout fuel : Nat)
    (jtag : jtag_info) :
    pspi_poll env (fun stat => stat &&& (1 <<< PSPI_STAT_RBF) = 0) timeout (fuel + 1) jtag =
      .ok (false, (readb env jtag PSPI_STAT).2) := by
  rw [pspi_poll]
  have h := (hL.2.2 jtag.log).1
  simp [readb, h]

@[simp] theorem lastDataWrite_readb (env : Env) (j : jtag_info) (reg : Nat) :
    lastDataWrite (readb env j reg).2.log = lastDataWrite j.log := by
  simp [readb, jtag_info.emit, lastDataWrite, List.foldl_append]

@[simp] theorem lastDataWrite_read_jiffies (env : Env) (j : jtag_info) :
    lastDataWrite (read_jiffies env j).2.log = lastDataWrite j.log := by
  simp [read_jiffies, jtag_info.emit, lastDataWrite, List.foldl_append]

@[simp] theorem lastDataWrite_writew_data (j : jtag_info) (v : Nat) :
    lastDataWrite (writew j PSPI_DATA v).log = v % 65536 := by
  simp [writew, jtag_info.emit, lastDataWrite, List.foldl_append]

/-- One iteration on the polled hardware path against a loop-back fixture:
it does not time out, and the two bytes it stores are the two bytes it took
from the input. -/
theorem scan_pspi_step_loopback (env : Env) (hL : Loopback env) (fuel : Nat)
    (tdi : Nat → Nat) (jtag : jtag_info) (l : scan_locals)
    (hi : l.bit_index / 8 + 1 < l.tdi_bytes) (ho : l.bit_index / 8 + 1 < l.tdo_bytes)
    (h1 : tdi l.tdi_p < 256) (h2 : tdi (l.tdi_p + 1) < 256) :
    ∃ j1 : jtag_info,
      scan_pspi_step env (fuel + 1) 16 tdi jtag l =
        .ok (none, j1,
          { l with tdo := Function.update (Function.update l.tdo l.tdo_p (tdi l.tdi_p))
                            (l.tdo_p + 1) (tdi (l.tdi_p + 1)),
                   bit_index := l.bit_index + 16,
                   remain_bits := l.remain_bits - 16,
                   tdo_p := l.tdo_p + 16 / 8,
                   tdi_p := l.tdi_p + 16 / 8 }) := by
  have hr1 := REVERSE_lt _ h1
  have hr2 := REVERSE_lt _ h2
  obtain ⟨wa, wb⟩ := word_halves _ _ hr1 hr2
  unfold scan_pspi_step
  simp only [poll_busy_loopback env hL, poll_ready_loopback env hL, if_pos hi, if_pos ho]
  have hv : (readw env (readb env (read_jiffies env (writew (readb env (read_jiffies env jtag).2
      PSPI_STAT).2 PSPI_DATA ((REVERSE (tdi l.tdi_p) <<< 8) ||| REVERSE (tdi (l.tdi_p + 1))))).2
      PSPI_STAT).2 PSPI_DATA).1 =
      ((REVERSE (tdi l.tdi_p) <<< 8) ||| REVERSE (tdi (l.tdi_p + 1))) % 65536 % 65536 := by
    simp [readw, hL.2.1]
  rw [hv, wa, wb, REVERSE_REVERSE _ h1, REVERSE_REVERSE _ h2]
  exact ⟨_, rfl⟩

/-- One iteration on the bit-bang path against a loop-back fixture keeps the
output in step with the input. -/
theorem scan_gpio_step_data (env : Env) (hL : Loopback env) (x : scan_xfer)
    (din t0 : Nat → Nat) (o B : Nat) (jtag : jtag_info) (l : scan_locals)
    (hD : ScanData din t0 o B l) (hlt : o + l.bit_index / 8 < B) :
    ScanData din t0 o B (scan_gpio_step env x din jtag l).2 := by
  obtain ⟨hip, hop, hib, hob, hbits, hclear, hrest⟩ := hD
  have hoff : l.bit_index % 8 < 8 := Nat.mod_lt _ (by decide)
  have hz : ∀ j, l.bit_index % 8 ≤ j →
      ((if l.bit_index % 8 = 0 then Function.update l.tdo l.tdo_p 0 else l.tdo) l.tdo_p).testBit j
        = false := by
    intro j hj
    by_cases h0 : l.bit_index % 8 = 0
    · rw [if_pos h0]; simp
    · rw [if_neg h0, hop]; exact hclear h0 j hj
  have htdo : (scan_gpio_step env x din jtag l).2.tdo =
      Function.update (if l.bit_index % 8 = 0 then Function.update l.tdo l.tdo_p 0 else l.tdo)
        l.tdo_p
        ((((if l.bit_index % 8 = 0 then Function.update l.tdo l.tdo_p 0 else l.tdo) l.tdo_p) |||
          ((if (din l.tdi_p).testBit (l.bit_index % 8) then 1 else 0) <<< (l.bit_index % 8)))
          % 256) := by
    unfold scan_gpio_step
    simp only [TCK_Cycle_loopback env hL]
    rw [if_pos (show l.bit_index / 8 < l.tdo_bytes by rw [hob]; omega),
      if_pos (show l.bit_index / 8 < l.tdi_bytes by rw [hib]; omega), input_bit]
    cases (din l.tdi_p).testBit (l.bit_index % 8) <;> simp
  have hnew : ∀ j, ((scan_gpio_step env x din jtag l).2.tdo l.tdo_p).testBit j =
      (if j < l.bit_index % 8 then
        ((if l.bit_index % 8 = 0 then Function.update l.tdo l.tdo_p 0 else l.tdo) l.tdo_p).testBit j
       else if j = l.bit_index % 8 then (din l.tdi_p).testBit (l.bit_index % 8) else false) := by
    intro j
    rw [htdo, Function.update_same]
    exact byte_or_bit _ _ _ hoff hz j
  have hother : ∀ k, k ≠ l.tdo_p → (scan_gpio_step env x din jtag l).2.tdo k = l.tdo k := by
    intro k hk
    rw [htdo, Function.update_noteq hk]
    split
    · rw [Function.update_noteq hk]
    · rfl
  have hbi : (scan_gpio_step env x din jtag l).2.bit_index = l.bit_index + 1 := rfl
  have hp1 : (scan_gpio_step env x din jtag l).2.tdi_p =
      (if l.bit_index % 8 = 7 then l.tdi_p + 1 else l.tdi_p) := rfl
  have hp2 : (scan_gpio_step env x din jtag l).2.tdo_p =
      (if l.bit_index % 8 = 7 then l.tdo_p + 1 else l.tdo_p) := rfl
  refine ⟨?_, ?_, hib, hob, ?_, ?_, ?_⟩
  · rw [hp1, hbi, hip]; split <;> omega
  · rw [hp2, hbi, hop]; split <;> omega
  · intro i hi
    rw [hbi] at hi
    by_cases hk : i / 8 = l.tdo_p
    · rw [hk, hnew]
      have hi8 : i / 8 = o + l.bit_index / 8 := by rw [hk, hop]
      by_cases hlt' : i % 8 < l.bit_index % 8
      · rw [if_pos hlt']
        have h0 : l.bit_index % 8 ≠ 0 := by omega
        rw [if_neg h0, ← hk]
        exact hbits i (by omega)
      · rw [if_neg hlt']
        have heq : i % 8 = l.bit_index % 8 := by omega
        rw [if_pos heq, hip, ← hop, heq]
    · rw [hother _ hk]
      apply hbits
      rw [hop] at hk
      omega
  · intro hne j hj
    rw [hbi] at hne hj ⊢
    have h7 : l.bit_index % 8 ≠ 7 := by omega
    have e1 : o + (l.bit_index + 1) / 8 = l.tdo_p := by rw [hop]; omega
    rw [e1, hnew]
    have : (l.bit_index + 1) % 8 = l.bit_index % 8 + 1 := by omega
    rw [if_neg (by omega), if_neg (by omega)]
  · intro k hk
    rw [hother k (by rw [hop]; omega)]
    exact hrest k hk

/-- One iteration on the polled hardware path against a loop-back fixture
keeps the output in step with the input. -/
theorem scan_pspi_step_data (env : Env) (hL : Loopback env) (fuel : Nat)
    (din t0 : Nat → Nat) (o B : Nat) (jtag : jtag_info) (l : scan_locals)
    (hbytes : ∀ i, din i < 256)
    (hD : ScanData din t0 o B l) (h8 : l.bit_index % 8 = 0)
    (hroom : o + l.bit_index / 8 + 2 ≤ B) :
    ∃ (j1 : jtag_info) (l1 : scan_locals),
      scan_pspi_step env (fuel + 1) 16 din jtag l = .ok (none, j1, l1) ∧
      ScanData din t0 o B l1 ∧ l1.bit_index = l.bit_index + 16 ∧
      l1.remain_bits = l.remain_bits - 16 ∧ l1.xfer_bits = l.xfer_bits := by
  obtain ⟨hip, hop, hib, hob, hbits, hclear, hrest⟩ := hD
  obtain ⟨j1, hstep⟩ := scan_pspi_step_loopback env hL fuel din jtag l
    (by rw [hib]; omega) (by rw [hob]; omega) (hbytes _) (hbytes _)
  refine ⟨j1, _, hstep, ⟨?_, ?_, hib, hob, ?_, ?_, ?_⟩, rfl, rfl, rfl⟩
  · simp only; rw [hip]; omega
  · simp only; rw [hop]; omega
  · intro i hi
    simp only at hi ⊢
    by_cases hk1 : i / 8 = l.tdo_p + 1
    · rw [hk1, Function.update_same, hip, ← hop]
    · rw [Function.update_noteq hk1]
      by_cases hk : i / 8 = l.tdo_p
      · rw [hk, Function.update_same, hip, ← hop]
      · rw [Function.update_noteq hk]
        apply hbits
        rw [hop] at hk hk1
        omega
  · intro hne
    simp only at hne
    omega
  · intro k hk
    simp only
    rw [Function.update_noteq (by rw [hop]; omega), Function.update_noteq (by rw [hop]; omega)]
    exact hrest k hk

/-- The scan loop against a loop-back fixture runs to its end, given a loop
bound of at least the number of bits left, and leaves every bit of the
transfer in the output as it is in the input. -/
theorem scan_loop_loopback (env : Env) (hL : Loopback env) (x : scan_xfer)
    (din t0 : Nat → Nat) (o B fuel : Nat) (hbytes : ∀ i, din i < 256) :
    ∀ (n : Nat) (jtag : jtag_info) (l : scan_locals),
      ScanData din t0 o B l →
      B = (8 * o + l.xfer_bits + 7) / 8 →
      l.bit_index ≤ l.xfer_bits →
      (scan_use_gpio 16 jtag x l = true ∨
        (l.bit_index + l.remain_bits = l.xfer_bits ∧ l.bit_index % 8 = 0)) →
      l.xfer_bits - l.bit_index ≤ n →
      ∃ (j2 : jtag_info) (l2 : scan_locals),
        scan_loop env x 16 din (fuel + 1) n jtag l = .ok (none, j2, l2) ∧
        ScanData din t0 o B l2 ∧ l2.bit_index = l.xfer_bits ∧ l2.xfer_bits = l.xfer_bits := by
  intro n
  induction n with
  | zero =>
    intro jtag l hD _ hle _ hn
    have : ¬ l.bit_index < l.xfer_bits := by omega
    exact ⟨jtag, l, by rw [scan_loop, if_neg this], hD, by omega, rfl⟩
  | succ n ih =>
    intro jtag l hD hB hle hinv hn
    by_cases hlt : l.bit_index < l.xfer_bits
    swap
    · exact ⟨jtag, l, by rw [scan_loop, if_neg hlt], hD, by omega, rfl⟩
    by_cases hg : scan_use_gpio 16 jtag x l = true
    · obtain ⟨ops, bit, hf, -, -, -, -, hbi, hxb, hrb⟩ := scan_gpio_step_spec env x din jtag l
      have hD1 := scan_gpio_step_data env hL x din t0 o B jtag l hD (by omega)
      have hg1 : scan_use_gpio 16 (scan_gpio_step env x din jtag l).1 x
          (scan_gpio_step env x din jtag l).2 = true := by
        unfold scan_use_gpio at hg ⊢
        rw [hf.2.1, hrb]
        exact hg
      obtain ⟨j2, l2, h2, hD2, hb2, hx2⟩ := ih _ _ hD1 (by rw [hxb]; exact hB)
        (by rw [hbi, hxb]; omega) (Or.inl hg1) (by rw [hbi, hxb]; omega)
      refine ⟨j2, l2, ?_, hD2, by rw [hb2, hxb], by rw [hx2, hxb]⟩
      rw [scan_loop, if_pos hlt, if_pos hg]
      exact h2
    · obtain ⟨-, hge, -⟩ := scan_use_gpio_false 16 jtag x l hg
      obtain ⟨heq, h8⟩ : l.bit_index + l.remain_bits = l.xfer_bits ∧ l.bit_index % 8 = 0 := by
        rcases hinv with h' | h'
        · exact absurd h' hg
        · exact h'
      obtain ⟨j1, l1, hstep, hD1, hbi, hrb, hxb⟩ := scan_pspi_step_data env hL fuel din t0 o B
        jtag l hbytes hD h8 (by omega)
      obtain ⟨j2, l2, h2, hD2, hb2, hx2⟩ := ih j1 l1 hD1 (by rw [hxb]; exact hB)
        (by rw [hbi, hxb]; omega) (Or.inr ⟨by rw [hbi, hrb, hxb]; omega, by rw [hbi]; omega⟩)
        (by rw [hbi, hxb]; omega)
      refine ⟨j2, l2, ?_, hD2, by rw [hb2, hxb], by rw [hx2, hxb]⟩
      rw [scan_loop, if_pos hlt, if_neg hg, hstep]
      exact h2

/-! ## The interrupt-driven transfer against a loop-back fixture -/

theorem pspi_recv_loopback (env : Env) (hL : Loopback env) (j : jtag_info)
    (hm : j.pspi.mode = BIT_MODE_16) (h2 : 2 ≤ j.pspi.rx_bytes) :
    (pspi_recv env j).2.pspi =
      { j.pspi with
          rx_bytes := j.pspi.rx_bytes - 2,
          rx_mem := Function.update
            (Function.update j.pspi.rx_mem j.pspi.rx_buf
              (REVERSE (((lastDataWrite j.log % 65536) >>> 8) &&& 0xff)))
            (j.pspi.rx_buf + 1) (REVERSE ((lastDataWrite j.log % 65536) &&& 0xff)),
          rx_buf := j.pspi.rx_buf + 2 } := by
  have hlt : ¬ j.pspi.rx_bytes < 2 := by omega
  simp [pspi_recv, hm, BIT_MODE_16, BIT_MODE_8, hlt, readw, hL.2.1, jtag_info.emit]

theorem pspi_send_loopback (env : Env) (j : jtag_info)
    (hm : j.pspi.mode = BIT_MODE_16) (h2 : 2 ≤ j.pspi.tx_bytes) :
    (pspi_send env j).2.pspi =
        { j.pspi with tx_bytes := j.pspi.tx_bytes - 2, tx_buf := j.pspi.tx_buf + 2 } ∧
      lastDataWrite (pspi_send env j).2.log =
        ((REVERSE (j.pspi.tx_mem j.pspi.tx_buf) <<< 8) |||
          REVERSE (j.pspi.tx_mem (j.pspi.tx_buf + 1))) % 65536 := by
  have hlt : ¬ j.pspi.tx_bytes < 2 := by omega
  have e : pspi_send env j =
      ((0 : Int), { (writew { (readb env j PSPI_STAT).2 with
              pspi := { j.pspi with tx_bytes := j.pspi.tx_bytes - 2 } } PSPI_DATA
            ((REVERSE (j.pspi.tx_mem j.pspi.tx_buf) <<< 8) |||
              REVERSE (j.pspi.tx_mem (j.pspi.tx_buf + 1)))) with
            pspi := { j.pspi with tx_bytes := j.pspi.tx_bytes - 2,
                                  tx_buf := j.pspi.tx_buf + 2 } }) := by
    simp [pspi_send, hm, BIT_MODE_16, BIT_MODE_8, hlt, PSPI_STAT_BSY]
  rw [e]
  refine ⟨rfl, ?_⟩
  simp [writew, jtag_info.emit, lastDataWrite, List.foldl_append]

/-- One invocation of the interrupt handler against a loop-back fixture: it
stores the word in flight, and then either the transfer is complete or the
next word is in flight. -/
theorem irq_handler_loopback (env : Env) (hL : Loopback env) (din t0 : Nat → Nat) (xb : Nat)
    (hbytes : ∀ i, din i < 256) (j : jtag_info) (hI : BulkInv din t0 xb j) :
    (j.pspi.rx_bytes = 2 → BulkDone din t0 xb (pspi_irq_handler env j)) ∧
    (j.pspi.rx_bytes ≠ 2 → BulkInv din t0 xb (pspi_irq_handler env j) ∧
      (pspi_irq_handler env j).pspi.rx_bytes = j.pspi.rx_bytes - 2) := by
  obtain ⟨hm, htx, hdone, hrx, hdvd, hbuf, hsum, hlast, hlo, hhi⟩ := hI
  have hs := hL.2.2 (j.emit .irq).log
  have hs1 : (readb env (j.emit .irq) PSPI_STAT).1 &&& (1 <<< PSPI_STAT_RBF) ≠ 0 := hs.1
  have hs2 : (readb env (j.emit .irq) PSPI_STAT).1 &&& (1 <<< PSPI_STAT_BSY) = 0 := hs.2
  have hp0 : (readb env (j.emit .irq) PSPI_STAT).2.pspi = j.pspi := rfl
  have hl0 : lastDataWrite (readb env (j.emit .irq) PSPI_STAT).2.log = lastDataWrite j.log := by
    simp [readb, jtag_info.emit, lastDataWrite, List.foldl_append]
  have hrxne : (readb env (j.emit .irq) PSPI_STAT).2.pspi.rx_bytes ≠ 0 := by rw [hp0]; omega
  obtain ⟨wa, wb⟩ := word_halves _ _ (REVERSE_lt _ (hbytes j.pspi.rx_buf))
    (REVERSE_lt _ (hbytes (j.pspi.rx_buf + 1)))
  have hrecv := pspi_recv_loopback env hL (readb env (j.emit .irq) PSPI_STAT).2
    (by rw [hp0]; exact hm) (by rw [hp0]; omega)
  rw [hl0, hlast, wa, wb, REVERSE_REVERSE _ (hbytes _), REVERSE_REVERSE _ (hbytes _), hp0]
    at hrecv
  have hmem : ∀ k, (Function.update (Function.update j.pspi.rx_mem j.pspi.rx_buf
      (din j.pspi.rx_buf)) (j.pspi.rx_buf + 1) (din (j.pspi.rx_buf + 1))) k =
      (if k < j.pspi.rx_buf + 2 then din k else t0 k) := by
    intro k
    by_cases h1 : k = j.pspi.rx_buf + 1
    · subst h1; simp
    · rw [Function.update_noteq h1]
      by_cases h0 : k = j.pspi.rx_buf
      · subst h0; simp
      · rw [Function.update_noteq h0]
        split
        · exact hlo k (by omega)
        · exact hhi k (by omega)
  unfold pspi_irq_handler
  simp only
  rw [if_pos hs1, if_pos hs2, if_pos hrxne]
  constructor
  · intro h2
    have hz : (pspi_recv env (readb env (j.emit .irq) PSPI_STAT).2).2.pspi.rx_bytes = 0 := by
      rw [hrecv]; simp only; omega
    rw [if_pos hz]
    have htz : ¬ (complete (pspi_recv env (readb env (j.emit .irq) PSPI_STAT).2).2).pspi.tx_bytes
        ≠ 0 := by
      simp only [complete, hrecv]
      omega
    rw [if_neg htz]
    refine ⟨rfl, ?_, ?_⟩
    · intro k hk
      simp only [complete, hrecv]
      rw [hmem, if_pos (by omega)]
    · intro k hk
      simp only [complete, hrecv]
      rw [hmem, if_neg (by omega)]
  · intro h2
    have hz : ¬ (pspi_recv env (readb env (j.emit .irq) PSPI_STAT).2).2.pspi.rx_bytes = 0 := by
      rw [hrecv]; simp only; omega
    rw [if_neg hz]
    have htne : (pspi_recv env (readb env (j.emit .irq) PSPI_STAT).2).2.pspi.tx_bytes ≠ 0 := by
      rw [hrecv]; simp only
      obtain ⟨c, hc⟩ := hdvd
      omega
    rw [if_pos htne]
    have hsend := pspi_send_loopback env (pspi_recv env (readb env (j.emit .irq) PSPI_STAT).2).2
      (by rw [hrecv]; exact hm)
      (by rw [hrecv]; simp only; obtain ⟨c, hc⟩ := hdvd; omega)
    rw [hrecv] at hsend
    simp only at hsend
    obtain ⟨hsp, hsl⟩ := hsend
    refine ⟨⟨?_, ?_, ?_, ?_, ?_, ?_, ?_, ?_, ?_, ?_⟩, ?_⟩
    · rw [hsp]; exact hm
    · rw [hsp]; exact htx
    · rw [hsp]; exact hdone
    · rw [hsp]; simp only; obtain ⟨c, hc⟩ := hdvd; omega
    · rw [hsp]; simp only; obtain ⟨c, hc⟩ := hdvd; exact ⟨c - 1, by omega⟩
    · rw [hsp]; simp only; omega
    · rw [hsp]; simp only; omega
    · rw [hsl, hsp, htx, hbuf]
    · intro k hk
      rw [hsp] at hk ⊢
      simp only at hk ⊢
      rw [hmem, if_pos hk]
    · intro k hk
      rw [hsp] at hk ⊢
      simp only at hk ⊢
      rw [hmem, if_neg (by omega)]
    · rw [hsp]

theorem wait_done (env : Env) (fuel : Nat) (j : jtag_info) (h : j.pspi.xfer_done = true) :
    wait_for_completion env fuel j = .ok j := by
  cases fuel <;> simp [wait_for_completion, h]

theorem wait_loopback (env : Env) (hL : Loopback env) (din t0 : Nat → Nat) (xb : Nat)
    (hbytes : ∀ i, din i < 256) :
    ∀ (fuel : Nat) (j : jtag_info), BulkInv din t0 xb j → j.pspi.rx_bytes ≤ 2 * fuel →
      ∃ j2 : jtag_info, wait_for_completion env fuel j = .ok j2 ∧ BulkDone din t0 xb j2 := by
  intro fuel
  induction fuel with
  | zero =>
    intro j hI hf
    have := hI.2.2.2.1
    omega
  | succ fuel ih =>
    intro j hI hf
    have hnd : ¬ j.pspi.xfer_done = true := by rw [hI.2.2.1]; simp
    obtain ⟨hlast, hmore⟩ := irq_handler_loopback env hL din t0 xb hbytes j hI
    rw [wait_for_completion, if_neg hnd]
    by_cases h2 : j.pspi.rx_bytes = 2
    · have hd := hlast h2
      exact ⟨_, wait_done env fuel _ hd.1, hd⟩
    · obtain ⟨hI2, hrx⟩ := hmore h2
      exact ih _ hI2 (by rw [hrx]; omega)

/-- The interrupt-driven transfer against a loop-back fixture completes, given
a loop bound of at least the number of words, and the bytes it receives are
the bytes it sent. -/
theorem pspi_xfer_loopback (env : Env) (hL : Loopback env) (fuel : Nat) (jtag : jtag_info)
    (din t0 : Nat → Nat) (xb : Nat) (hbytes : ∀ i, din i < 256)
    (hm : jtag.pspi.mode = BIT_MODE_16) (h2 : 2 ≤ xb) (hdvd : 2 ∣ xb) (hf : xb ≤ 2 * fuel) :
    ∃ j2 : jtag_info,
      pspi_xfer env fuel jtag (some din) 0 (some t0) 0 xb = .ok (0, j2) ∧
      (∀ k, k < xb → j2.pspi.rx_mem k = din k) ∧ (∀ k, xb ≤ k → j2.pspi.rx_mem k = t0 k) := by
  obtain ⟨hsetup, htx0, hrx0, hd0, hm0⟩ := pspi_xfer_setup_spec env jtag din t0 0 0 xb
  rw [hm] at hm0
  have hidle : (pspi_xfer_setup env jtag din 0 t0 0 xb).2.1 &&& (1 <<< PSPI_STAT_BSY) = 0 :=
    (hL.2.2 _).2
  have hsend := pspi_send_loopback env (pspi_xfer_setup env jtag din 0 t0 0 xb).2.2 hm0
    (by rw [htx0]; exact h2)
  have hps : (pspi_xfer_setup env jtag din 0 t0 0 xb).2.2.pspi =
      { jtag.pspi with tx_bytes := xb, tx_mem := din, tx_buf := 0,
                       rx_bytes := xb, rx_mem := t0, rx_buf := 0, xfer_done := false } := rfl
  rw [hps] at hsend
  simp only at hsend
  obtain ⟨hsp, hsl⟩ := hsend
  have hI : BulkInv din t0 xb (pspi_send env (pspi_xfer_setup env jtag din 0 t0 0 xb).2.2).2 := by
    refine ⟨?_, ?_, ?_, ?_, ?_, ?_, ?_, ?_, ?_, ?_⟩
    · rw [hsp]; exact hm
    · rw [hsp]
    · rw [hsp]
    · rw [hsp]; simp only; omega
    · rw [hsp]; simp only; obtain ⟨c, hc⟩ := hdvd; exact ⟨c - 1, by omega⟩
    · rw [hsp]
    · rw [hsp]; simp only; omega
    · rw [hsl, hsp]
    · intro k hk; rw [hsp] at hk; simp only at hk; omega
    · intro k _; rw [hsp]
  obtain ⟨jw, hw, hdone⟩ := wait_loopback env hL din t0 xb hbytes fuel _ hI
    (by rw [hsp]; simp only; exact hf)
  refine ⟨writew jw PSPI_CTL1
    (clear_bits (pspi_xfer_setup env jtag din 0 t0 0 xb).1 (1 <<< PSPI_CTL1_EIR)), ?_,
    hdone.2.1, hdone.2.2⟩
  unfold pspi_xfer
  simp only [hm]
  rw [if_neg (by omega), if_neg (by decide), if_neg (by
    have : BIT_MODE_16 = 2 := rfl
    rw [this]; obtain ⟨c, hc⟩ := hdvd; omega), if_pos hidle, hw]

theorem switch_on_returns (env : Env) (jtag : jtag_info) (hfreq : 2 * jtag.freq % 2 ^ 32 ≠ 0) :
    ∃ j : jtag_info, jtag_switch_pspi env jtag true = .ok j := by
  unfold jtag_switch_pspi
  simp only [if_true]
  rw [if_neg hfreq]
  split
  · exact ⟨_, rfl⟩
  · split <;> exact ⟨_, rfl⟩

theorem scan_enable_returns (env : Env) (jtag : jtag_info) (l : scan_locals)
    (hfreq : jtag.mode = MODE_PSPI → 16 < l.remain_bits → 2 * jtag.freq % 2 ^ 32 ≠ 0)
    (hl : l.use_pspi = false) :
    ∃ (j1 : jtag_info) (u : Bool),
      scan_enable env 16 jtag l = .ok (j1, { l with use_pspi := u }) ∧
      (u = true → 16 < l.remain_bits) := by
  unfold scan_enable
  split
  · rename_i hc
    obtain ⟨j, hj⟩ := switch_on_returns env jtag (hfreq hc.1 hc.2)
    rw [hj]
    exact ⟨j, true, rfl, fun _ => hc.2⟩
  · exact ⟨jtag, false, by rw [← hl], fun h => Bool.noConfusion h⟩

/-- The bulk part of the scan against a loop-back fixture: it goes on to the
loop with the bytes it transferred, `o` of them, in the output as they are in
the input. -/
theorem scan_bulk_loopback (env : Env) (hL : Loopback env) (fuel : Nat) (j1 : jtag_info)
    (din t0 : Nat → Nat) (N E : Nat) (u : Bool) (hbytes : ∀ i, din i < 256)
    (hm1 : j1.pspi.mode = BIT_MODE_16) (hN32 : N < 2 ^ 32) (hu : u = true → 16 < N)
    (hf : N ≤ fuel) :
    ∃ (j2 : jtag_info) (l2 : scan_locals) (o : Nat),
      scan_bulk env fuel 16 j1 (some din) (some t0)
        { scan_init ⟨N, (N + 7) / 8, (N + 7) / 8, E⟩ (some t0) with use_pspi := u } =
          .ok (none, j2, l2) ∧
      ScanData din t0 o ((N + 7) / 8) l2 ∧ l2.bit_index = 0 ∧ 8 * o + l2.xfer_bits = N ∧
      l2.remain_bits = l2.xfer_bits ∧ j2.mode = j1.mode := by
  by_cases hc : u = true ∧ j1.pspi.enable_irq = true
  · have h16 := hu hc.1
    obtain ⟨hform, -⟩ := scan_bulk_bytes_formula N
    have hle := scan_bulk_bytes_le N
    have hxb2 : 2 ≤ scan_bulk_bytes 16 N := by
      rw [hform]; split <;> omega
    have hdvd : 2 ∣ scan_bulk_bytes 16 N := by
      rw [hform]
      exact ⟨N / 16 - (if N % 16 = 0 then 1 else 0), by split <;> omega⟩
    obtain ⟨j2, hx, hlo, hhi⟩ := pspi_xfer_loopback env hL fuel j1 din t0 (scan_bulk_bytes 16 N)
      hbytes hm1 hxb2 hdvd (by omega)
    have hmode : j2.mode = j1.mode := by
      rcases pspi_xfer_spec env fuel j1 j2 _ _ _ _ _ 0 hm1 hx with
        ⟨-, r, w, ⟨ops, hfr, -, -⟩, -⟩ | ⟨h0, -⟩
      · exact hfr.2.2.2.1
      · exact absurd rfl h0
    have hpow : (2 : Nat) ^ 32 = 4294967296 := by norm_num
    rw [hpow] at hN32
    obtain ⟨l2, hl2, e1, e2, e3, e4, e5, e6, e7, e8⟩ : ∃ l2 : scan_locals,
        scan_bulk env fuel 16 j1 (some din) (some t0)
          { scan_init ⟨N, (N + 7) / 8, (N + 7) / 8, E⟩ (some t0) with use_pspi := u } =
            .ok (none, j2, l2) ∧
        l2.tdi_p = 0 + scan_bulk_bytes 16 N ∧ l2.tdo_p = 0 + scan_bulk_bytes 16 N ∧
        l2.tdi_bytes = ((N + 7) / 8 + 2 ^ 32 - scan_bulk_bytes 16 N) % 2 ^ 32 ∧
        l2.tdo_bytes = ((N + 7) / 8 + 2 ^ 32 - scan_bulk_bytes 16 N) % 2 ^ 32 ∧
        l2.tdo = j2.pspi.rx_mem ∧ l2.bit_index = 0 ∧
        l2.xfer_bits = N - scan_bulk_bytes 16 N * 8 ∧
        l2.remain_bits = N - scan_bulk_bytes 16 N * 8 := by
      unfold scan_bulk
      rw [if_pos (by simpa using hc), if_neg (by decide)]
      simp only [scan_init, Option.map_some', Option.getD_some, hx]
      rw [if_neg (by simp)]
      exact ⟨_, rfl, rfl, rfl, rfl, rfl, rfl, rfl, rfl, rfl⟩
    rw [hpow] at e3 e4
    refine ⟨j2, l2, scan_bulk_bytes 16 N, hl2, ⟨?_, ?_, ?_, ?_, ?_, ?_, ?_⟩, e6, ?_, ?_, hmode⟩
    · rw [e1, e6]; omega
    · rw [e2, e6]; omega
    · rw [e3]; omega
    · rw [e4]; omega
    · intro i hi
      rw [e6] at hi
      rw [e5, hlo (i / 8) (by omega)]
    · intro hne
      rw [e6] at hne
      omega
    · intro k hk
      rw [e5]
      exact hhi k (by omega)
    · rw [e7]; omega
    · rw [e7, e8]
  · refine ⟨j1,
      { scan_init ⟨N, (N + 7) / 8, (N + 7) / 8, E⟩ (some t0) with use_pspi := u }, 0, ?_,
      ⟨?_, ?_, ?_, ?_, ?_, ?_, ?_⟩, rfl, ?_, rfl, rfl⟩
    · unfold scan_bulk
      rw [if_neg (by simpa using hc)]
    · simp [scan_init]
    · simp [scan_init]
    · simp [scan_init]
    · simp [scan_init]
    · intro i hi
      simp only [scan_init] at hi
      omega
    · intro hne
      simp [scan_init] at hne
    · intro k _
      simp [scan_init]
    · simp [scan_init]

/-- The scan against a loop-back fixture, with the 16-bit unit, from a Shift
state, with buffers of `ceil(N/8)` bytes and a loop bound of at least `N`:
it returns 0, every bit of the output is the bit of the input, and the memory
after the output buffer is untouched. -/
theorem scan_loopback (env : Env) (hL : Loopback env) (past : Nat → TmsCycle) (fuel : Nat)
    (jtag : jtag_info) (N E : Nat) (din t0 : Nat → Nat)
    (hm : jtag.pspi.mode = BIT_MODE_16)
    (hX : jtag.tapstate = JtagShfDR ∨ jtag.tapstate = JtagShfIR)
    (hN : 1 ≤ N) (hN32 : N < 2 ^ 32)
    (hfreq : jtag.mode = MODE_PSPI → 16 < N → 2 * jtag.freq % 2 ^ 32 ≠ 0)
    (hbytes : ∀ i, din i < 256) (hf : N ≤ fuel) :
    ∃ (j2 : jtag_info) (out : Nat → Nat),
      npcm_jtag_readwrite_scan env past fuel jtag ⟨N, (N + 7) / 8, (N + 7) / 8, E⟩
        (some din) (some t0) = .ok ⟨0, j2, some out⟩ ∧
      (∀ i, i < N → (out (i / 8)).testBit (i % 8) = (din (i / 8)).testBit (i % 8)) ∧
      (∀ k, (N + 7) / 8 ≤ k → out k = t0 k) := by
  have hu : jtag.pspi.mode * 8 = 16 := by rw [hm]; rfl
  obtain ⟨f, rfl⟩ : ∃ f, fuel = f + 1 := ⟨fuel - 1, by omega⟩
  obtain ⟨j1, u, hen, hu16⟩ := scan_enable_returns env jtag
    (scan_init ⟨N, (N + 7) / 8, (N + 7) / 8, E⟩ (some t0)) hfreq rfl
  obtain ⟨⟨ops1, hf1, -, -⟩, -⟩ := scan_enable_spec env 16 jtag j1 _ _ hen
  have hm1 : j1.pspi.mode = BIT_MODE_16 := hf1.2.2.2.2.2.2.2.1.trans hm
  obtain ⟨j2, l2, o, hbulk, hD2, hb2, hcnt2, hrx2, -⟩ := scan_bulk_loopback env hL (f + 1) j1
    din t0 N E u hbytes hm1 hN32 hu16 hf
  obtain ⟨j3, l3, hloop, hD3, hb3, hx3⟩ := scan_loop_loopback env hL
    ⟨N, (N + 7) / 8, (N + 7) / 8, E⟩ din t0 o ((N + 7) / 8) f hbytes (f + 1) j2 l2 hD2
    (by rw [hcnt2]) (by omega) (Or.inr ⟨by omega, by omega⟩) (by omega)
  refine ⟨(npcm_jtag_set_tapstate env past j3 JTAG_STATE_CURRENT E).2, l3.tdo, ?_, ?_, ?_⟩
  · unfold npcm_jtag_readwrite_scan
    have h1 : ¬ (jtag.tapstate ≠ JtagShfDR ∧ jtag.tapstate ≠ JtagShfIR) := by
      rcases hX with h' | h' <;> simp [h']
    rw [if_neg h1, if_neg (by simp; omega), if_neg (by simp), if_neg (by simp)]
    simp only [hu, hen, hbulk]
    unfold scan_finish
    simp only [Option.getD_some, hloop, Option.map_some']
  · intro i hi
    exact hD3.2.2.2.2.1 i (by rw [hb3]; omega)
  · intro k hk
    exact hD3.2.2.2.2.2.2 k hk

/-- C11: loop-back round trip.  Against a loop-back fixture (TDO reads the
level of the TDI of the cycle under way, the data register reads back the
word last written, each unit is shifted at once), with the 16-bit unit, in any
mode, polled or interrupt-driven: a Data transfer of `N >= 1` bits that runs
from ShiftDR to any end state, with an input buffer of `ceil(N/8)` bytes and
a loop bound of at least `N`, returns 0; bit `i % 8` of byte `i / 8` of the
output is that bit of the input for every `i < N`; and the output is
`ceil(N/8)` bytes long: nothing beyond them is written to the caller's
buffer. -/
theorem loopback_round_trip (env : Env) (past : Nat → TmsCycle) (fuel : Nat)
    (jtag : jtag_info) (xfer : jtag_xfer) (data tdo : Nat → Nat)
    (hL : Loopback env) (hm : jtag.pspi.mode = BIT_MODE_16)
    (hX : jtag.tapstate = JtagShfDR) (hty : xfer.type = JTAG_SDR_XFER)
    (hfrom : xfer.frm = JTAG_STATE_CURRENT ∨ xfer.frm = JtagShfDR)
    (hN : 1 ≤ xfer.length) (hN32 : xfer.length < 2 ^ 32)
    (hfreq : jtag.mode = MODE_PSPI → 16 < xfer.length → 2 * jtag.freq % 2 ^ 32 ≠ 0)
    (hbytes : ∀ i, data i < 256) (hf : xfer.length ≤ fuel) :
    ∃ (j2 : jtag_info) (out : Nat → Nat),
      npcm_jtag_xfer env past fuel jtag xfer data ((xfer.length + 7) / 8) (some tdo) =
        .ok (0, j2, out) ∧
      (∀ i, i < xfer.length →
        (out (i / 8)).testBit (i % 8) = (data (i / 8)).testBit (i % 8)) ∧
      (∀ k, (xfer.length + 7) / 8 ≤ k → out k = data k) := by
  have hset : npcm_jtag_set_tapstate env past jtag xfer.frm JtagShfDR = (0, jtag) := by
    rcases hfrom with h | h
    · rw [h]
      apply set_tapstate_zero_count
      · rw [if_pos rfl, hX]; decide
      · decide
      · decide
      · rw [if_pos rfl, hX, tmsCycleAt_inside past JtagShfDR JtagShfDR (by decide)]
        decide
    · rw [h]
      exact set_tapstate_same_shift env past jtag JtagShfDR (Or.inl rfl)
  obtain ⟨j2, out, hscan, hbits, hrest⟩ := scan_loopback env hL past fuel jtag xfer.length
    xfer.endstate data tdo hm (Or.inl hX) hN hN32 hfreq hbytes hf
  refine ⟨j2, fun i => if i < (xfer.length + 7) / 8 then out i else data i, ?_, ?_, ?_⟩
  · unfold npcm_jtag_xfer
    simp only
    rw [if_neg (by rw [hty]; decide), hset]
    simp only [hscan, Option.getD_some]
  · intro i hi
    simp only
    rw [if_pos (by omega)]
    exact hbits i hi
  · intro k hk
    simp only
    rw [if_neg (by omega)]

theorem loopback_round_trip_witness :
    ∃ (j2 : jtag_info) (out : Nat → Nat),
      npcm_jtag_xfer loopback_env no_past 35 (sample_jtag MODE_PSPI true JtagShfDR)
          ⟨JTAG_SDR_XFER, 0, JTAG_STATE_CURRENT, JtagRTI, 35⟩
          (fun i => if i < 5 then 165 else 0) ((35 + 7) / 8) (some fun _ => 255) =
        .ok (0, j2, out) ∧
      (∀ i, i < 35 →
        (out (i / 8)).testBit (i % 8) = ((if i / 8 < 5 then 165 else 0 : Nat)).testBit (i % 8)) :=
  let ⟨j2, out, h1, h2, _⟩ :=
    loopback_round_trip loopback_env no_past 35 (sample_jtag MODE_PSPI true JtagShfDR)
      ⟨JTAG_SDR_XFER, 0, JTAG_STATE_CURRENT, JtagRTI, 35⟩
      (fun i => if i < 5 then 165 else 0) (fun _ => 255)
      loopback_env_spec rfl rfl rfl (Or.inl rfl) (by decide) (by norm_num)
      (fun _ _ => by decide) (fun i => by simp only; split <;> decide) (by decide)
  ⟨j2, out, h1, h2⟩

/-- C22: a 16-bit scan in polled hardware-assisted mode that starts and ends
in ShiftDR.  The guard that enables the channel (`remain_bits > unit_len`) is
false, the loop still sends the unit through the data register
(`remain_bits == unit_len` with end state ShiftDR is not a bit-bang
iteration): the call writes the unit to `PSPI_DATA` and reads it back without
one write to the control register, so the channel was never enabled. -/
theorem scan_single_unit_channel_not_enabled :
    ∃ r : scan_result,
      npcm_jtag_readwrite_scan ready_env no_past 4 (sample_jtag MODE_PSPI false JtagShfDR)
        ⟨16, 2, 2, JtagShfDR⟩ (some fun _ => 0) (some fun _ => 0) = .ok r ∧
      r.ret = 0 ∧
      r.jtag.log = [.jiffies 0, .readb PSPI_STAT 2, .writew PSPI_DATA 0,
        .jiffies 0, .readb PSPI_STAT 2, .readw PSPI_DATA 0] ∧
      dataWrites r.jtag.log = 1 ∧ ctl1Writes r.jtag.log = [] ∧
      channel_enabled false r.jtag.log = false ∧ cyclesOf r.jtag.log = [] := by
  set_option maxRecDepth 100000 in
  exact ⟨_, rfl, rfl, rfl, rfl, rfl, rfl, rfl⟩

/-- C23: a 32-bit polled hardware-assisted scan that starts in ShiftIR with
the channel disabled and ends in ShiftDR.  Both units go through the data
register, no iteration of the loop is a bit-bang iteration, and the only call
of `jtag_switch_pspi(jtag, false)` on the success path is in the bit-bang
iteration: the call returns 0 with the channel enabled and the pins still
routed to it, and the five cycles of the closing transition to ShiftDR are
bit-banged after the last write to the control register, which has the
enable bit set.  The same scan from ShiftDR returns 0 with the channel
enabled, too. -/
theorem scan_returns_with_channel_enabled :
    (∃ r : scan_result,
      npcm_jtag_readwrite_scan register_env no_past 4 (sample_jtag MODE_PSPI false JtagShfIR)
        ⟨32, 4, 4, JtagShfDR⟩ (some fun _ => 0) (some fun _ => 0) = .ok r ∧
      r.ret = 0 ∧ r.jtag.tapstate = JtagShfDR ∧
      channel_enabled false r.jtag.log = true ∧ pins_pspi false r.jtag.log = true ∧
      lastCtl1 r.jtag.log &&& (1 <<< PSPI_CTL1_SPIEN) ≠ 0 ∧
      channel_enabled false (r.jtag.log.take 25) = true ∧
      pins_pspi false (r.jtag.log.take 25) = true ∧
      (r.jtag.log.drop 25).all Event.isPin = true ∧
      cyclesOf (r.jtag.log.take 25) = [] ∧
      cyclesOf (r.jtag.log.drop 25) = [(1, 1, 0), (1, 1, 0), (1, 1, 0), (1, 0, 0), (1, 0, 0)]) ∧
    (∃ r : scan_result,
      npcm_jtag_readwrite_scan register_env no_past 4 (sample_jtag MODE_PSPI false JtagShfDR)
        ⟨32, 4, 4, JtagShfDR⟩ (some fun _ => 0) (some fun _ => 0) = .ok r ∧
      r.ret = 0 ∧ channel_enabled false r.jtag.log = true ∧
      pins_pspi false r.jtag.log = true) := by
  set_option maxRecDepth 100000 in
  exact ⟨⟨_, rfl, rfl, rfl, rfl, rfl, by decide, rfl, rfl, rfl, rfl, rfl⟩, ⟨_, rfl, rfl, rfl, rfl⟩⟩

/-- The divider write of `jtag_switch_pspi`: the field that the 16-bit write
leaves in bits 15..9 is the divisor modulo 128, and the nine bits below the
field are those of the value read. -/
theorem divider_write_value (r d : Nat) :
    scdv ((clear_bits r (0x7f <<< PSPI_CTL1_SCDV6_0) ||| (d <<< PSPI_CTL1_SCDV6_0)) % 65536)
        = d % 128 ∧
    ((clear_bits r (0x7f <<< PSPI_CTL1_SCDV6_0) ||| (d <<< PSPI_CTL1_SCDV6_0)) % 65536) % 512
        = r % 512 := by
  have e16 : (65536 : Nat) = 2 ^ 16 := by norm_num
  have e9 : (512 : Nat) = 2 ^ 9 := by norm_num
  have e7 : (128 : Nat) = 2 ^ 7 := by norm_num
  have m1 : (0xFFFF ^^^ (0x7f <<< 9) : Nat) = 2 ^ 9 - 1 := by decide
  have m2 : (0x7f : Nat) = 2 ^ 7 - 1 := by decide
  unfold scdv clear_bits PSPI_CTL1_SCDV6_0
  rw [m1, e16, e9, e7, m2]
  constructor
  · apply Nat.eq_of_testBit_eq
    intro i
    simp only [Nat.testBit_and, Nat.testBit_shiftRight, Nat.testBit_mod_two_pow, Nat.testBit_or,
      Nat.testBit_shiftLeft, Nat.testBit_two_pow_sub_one]
    by_cases h : i < 7
    · have h1 : 9 + i < 16 := by omega
      have h2 : ¬ 9 + i < 9 := by omega
      have h3 : 9 + i ≥ 9 := by omega
      have h4 : 9 + i - 9 = i := by omega
      simp [h, h1, h2, h3, h4]
    · simp [h]
  · apply Nat.eq_of_testBit_eq
    intro i
    simp only [Nat.testBit_and, Nat.testBit_mod_two_pow, Nat.testBit_or,
      Nat.testBit_shiftLeft, Nat.testBit_two_pow_sub_one]
    by_cases h : i < 9
    · have h1 : i < 16 := by omega
      have h3 : ¬ i ≥ 9 := by omega
      simp [h, h1, h3]
    · simp [h]

/-- Enabling the channel faults exactly when `2 * freq` is zero as a `u32`. -/
theorem switch_on_faults_iff (env : Env) (jtag : jtag_info) :
    jtag_switch_pspi env jtag true = .error .division_by_zero ↔ 2 * jtag.freq % 2 ^ 32 = 0 := by
  unfold jtag_switch_pspi
  simp only [if_true]
  constructor
  · intro h
    by_contra hne
    rw [if_neg hne] at h
    split at h
    · exact Except.noConfusion h
    · split at h <;> exact Except.noConfusion h
  · intro h
    rw [if_pos h]

/-- C25: `JTAG_SIOCFREQ` stores every value up to 25,000,000 and rejects
larger values with `-EINVAL`, leaving the stored frequency as it was; the
value 0 is among the stored ones.  With `freq == 0` the divisor computation
`apb_clk_rate / (2 * jtag->freq)` of `jtag_switch_pspi(jtag, true)` divides
by zero, for every reference clock rate, and so do a 32-bit hardware-assisted
scan and a run of 16 clock cycles, which enable the channel first.  Zero is
the only accepted value for which the computation divides by zero. -/
theorem zero_frequency_divides_by_zero (env : Env) (priv : jtag_info) (value : Nat) :
    (jtag_ioctl_SIOCFREQ priv value).1 = (if value ≤ 25000000 then 0 else -EINVAL) ∧
    (jtag_ioctl_SIOCFREQ priv value).2 =
      (if value ≤ 25000000 then { priv with freq := value } else priv) ∧
    jtag_ioctl_SIOCFREQ priv 0 = (0, { priv with freq := 0 }) ∧
    jtag_switch_pspi env (jtag_ioctl_SIOCFREQ priv 0).2 true = .error .division_by_zero ∧
    npcm_jtag_readwrite_scan env no_past 4
      (jtag_ioctl_SIOCFREQ (sample_jtag MODE_PSPI false JtagShfDR) 0).2
      ⟨32, 4, 4, JtagRTI⟩ (some fun _ => 0) (some fun _ => 0) = .error .division_by_zero ∧
    npcm_jtag_runtest env 4 (jtag_ioctl_SIOCFREQ (sample_jtag MODE_PSPI false JtagRTI) 0).2
      16 true true = .error .division_by_zero ∧
    ((value ≤ 25000000 ∧
        jtag_switch_pspi env (jtag_ioctl_SIOCFREQ priv value).2 true = .error .division_by_zero)
      ↔ value = 0) := by
  have hmax : JTAG_PSPI_MAX_FREQ = 25000000 := by decide
  refine ⟨?_, ?_, ?_, ?_, ?_, ?_, ?_⟩
  · unfold jtag_ioctl_SIOCFREQ
    rw [hmax]
    split <;> rfl
  · unfold jtag_ioctl_SIOCFREQ
    rw [hmax]
    split <;> rfl
  · rfl
  · rfl
  · rfl
  · rfl
  · constructor
    · rintro ⟨hle, h⟩
      rw [switch_on_faults_iff] at h
      have hf : (jtag_ioctl_SIOCFREQ priv value).2.freq = value := by
        unfold jtag_ioctl_SIOCFREQ
        rw [hmax, if_pos hle]
      rw [hf] at h
      omega
    · rintro rfl
      exact ⟨by decide, rfl⟩

/-- C26: with a reference clock of 25 MHz and the accepted frequency
10,000 Hz the divisor is `25000000 / 20000 - 1 = 1249`.  The write of
`jtag_switch_pspi` ors `1249 << 9` into the 16-bit register value without a
mask: the register receives 49664, whose bits 15..9 hold 97, which is
`1249 % 128`, and enabling leaves 97 in the field.  For every value read and
every divisor the write leaves the divisor modulo 128 in the field and keeps
the nine bits below the field. -/
theorem divisor_field_truncated :
    jtag_ioctl_SIOCFREQ (sample_jtag MODE_PSPI false JtagShfDR) 10000
      = (0, slow_jtag 10000 JtagShfDR) ∧
    (slow_jtag 10000 JtagShfDR).pspi.apb_clk_rate / (2 * (slow_jtag 10000 JtagShfDR).freq) - 1
      = 1249 ∧
    (∃ j2 : jtag_info,
      jtag_switch_pspi register_env (slow_jtag 10000 JtagShfDR) true = .ok j2 ∧
      ctl1Writes j2.log = [0, 49664, 49664, 49664, 49669] ∧
      scdv 49664 = 97 ∧ scdv (lastCtl1 j2.log) = 97) ∧
    (∀ r d : Nat,
      scdv ((clear_bits r (0x7f <<< PSPI_CTL1_SCDV6_0) ||| (d <<< PSPI_CTL1_SCDV6_0)) % 65536)
          = d % 128 ∧
      ((clear_bits r (0x7f <<< PSPI_CTL1_SCDV6_0) ||| (d <<< PSPI_CTL1_SCDV6_0)) % 65536) % 512
          = r % 512) := by
  set_option maxRecDepth 100000 in
  exact ⟨rfl, by decide, ⟨_, rfl, rfl, by decide, by decide⟩, divider_write_value⟩

/-- After two TMS=0 edges the TAP is in a state that TMS=0 holds. -/
theorem tapNext_zero_settles (s : Nat) (hs : s < 16) :
    tapNext (tapNext (tapNext s false) false) false = tapNext (tapNext s false) false := by
  have h : ∀ i : Fin 16,
      tapNext (tapNext (tapNext i.val false) false) false
        = tapNext (tapNext i.val false) false := by decide
  exact h ⟨s, hs⟩

/-- The state a run of TMS=0 edges ends in: the state itself for no edge, and
for two edges or more the state that two edges reach. -/
theorem tapWalk_zeros (s : Nat) (hs : s < 16) (n : Nat) :
    tapWalk s (List.replicate (n + 2) false) = tapNext (tapNext s false) false := by
  induction n with
  | zero => rfl
  | succ n ih =>
    have e : List.replicate (n + 1 + 2) false = List.replicate (n + 2) false ++ [false] := by
      rw [← List.replicate_succ']
    rw [e, tapWalk_append, ih]
    exact tapNext_zero_settles s hs

/-- A run of one or more TMS=0 edges ends in the state it started in exactly
when TMS=0 holds that state. -/
theorem tapWalk_zeros_fixed (s : Nat) (hs : s < 16) (n : Nat) (hn : 1 ≤ n) :
    tapWalk s (List.replicate n false) = s ↔ tapNext s false = s := by
  have h2 : ∀ i : Fin 16,
      tapNext (tapNext i.val false) false = i.val ↔ tapNext i.val false = i.val := by decide
  rcases n with _ | _ | n
  · omega
  · exact Iff.rfl
  · rw [tapWalk_zeros s hs n]
    exact h2 ⟨s, hs⟩

/-- The states that TMS=0 holds. -/
theorem tapNext_zero_fixed (s : Nat) (hs : s < 16) :
    tapNext s false = s ↔ s ∈ [JtagRTI, JtagShfDR, JtagPauDR, JtagShfIR, JtagPauIR] := by
  have h : ∀ i : Fin 16, tapNext i.val false = i.val ↔
      i.val ∈ [JtagRTI, JtagShfDR, JtagPauDR, JtagShfIR, JtagPauIR] := by decide
  exact h ⟨s, hs⟩

theorem idle_loop_tapstate (env : Env) (n : Nat) (jtag : jtag_info) :
    (idle_loop env n jtag).tapstate = jtag.tapstate := by
  obtain ⟨ops, h, -, -⟩ := idle_loop_spec env n jtag
  rw [h]

theorem switch_off_tapstate (env : Env) (jtag : jtag_info) :
    (jtag_switch_pspi_off env jtag).tapstate = jtag.tapstate := by
  obtain ⟨ops, hf, -, -⟩ := HwStep.switch_off env jtag
  exact hf.2.2.1

/-- C24: with the 16-bit unit, `npcm_jtag_runtest` never writes `tapstate`:
on every return the tracked state is the state `S` at entry.  In bit-bang
mode, and in hardware-assisted mode with fewer cycles than one unit, the call
returns 0 after exactly `tcks` clock cycles with TMS = 0 and TDI = 0 and TDO
not ignored.  Under these `tcks >= 1` edges the TAP graph ends in `S` exactly
when the TMS=0 edge of `S` is its self-loop, that is for RunTestIdle,
ShiftDR, PauseDR, ShiftIR and PauseIR; from each of the other eleven states
(TestLogicReset among them) the TAP has moved on and the tracked state no
longer matches it. -/
theorem runtest_tracked_state (env : Env) (fuel : Nat) (jtag : jtag_info) (tcks : Nat)
    (txbuf rxbuf : Bool)
    (hm : jtag.pspi.mode = BIT_MODE_16) (hS : jtag.tapstate < 16) (ht : 1 ≤ tcks) :
    (∀ (ret : Int) (j2 : jtag_info),
      npcm_jtag_runtest env fuel jtag tcks txbuf rxbuf = .ok (ret, j2) →
      j2.tapstate = jtag.tapstate) ∧
    (jtag.mode ≠ MODE_PSPI ∨ tcks < 16 →
      ∃ (j2 : jtag_info) (ops : List Event),
        npcm_jtag_runtest env fuel jtag tcks txbuf rxbuf = .ok (0, j2) ∧
        j2.tapstate = jtag.tapstate ∧ j2.log = jtag.log ++ ops ∧
        cyclesOf ops = List.replicate tcks (0, 0, 0) ∧
        (tapWalk jtag.tapstate ((cyclesOf ops).map tmsLevel) = jtag.tapstate ↔
          tapNext jtag.tapstate false = jtag.tapstate)) ∧
    (tapNext jtag.tapstate false = jtag.tapstate ↔
      jtag.tapstate ∈ [JtagRTI, JtagShfDR, JtagPauDR, JtagShfIR, JtagPauIR]) := by
  refine ⟨?_, ?_, tapNext_zero_fixed _ hS⟩
  · intro ret j2 h
    rcases runtest_spec env fuel jtag j2 tcks txbuf rxbuf ret hm h with
      ⟨-, -, hj⟩ | ⟨-, -, j1, r, w, ⟨ops1, hf1, -, -⟩, -, hcase⟩
    · rw [hj, idle_loop_tapstate]
    · have h1 : j1.tapstate = jtag.tapstate := hf1.2.2.1
      rcases hcase with ⟨-, -, -, -, -, hj⟩ | ⟨-, hj, -⟩
      · rw [hj, idle_loop_tapstate, switch_off_tapstate, h1]
      · rw [hj, switch_off_tapstate, h1]
  · intro hwhy
    have hu : jtag.pspi.mode * 8 = 16 := by rw [hm]; rfl
    have hrun : npcm_jtag_runtest env fuel jtag tcks txbuf rxbuf
        = .ok (0, idle_loop env tcks jtag) := by
      unfold npcm_jtag_runtest
      simp only [hu]
      rw [if_neg (by decide)]
      by_cases hmode : jtag.mode ≠ MODE_PSPI
      · rw [if_pos hmode]
      · rw [if_neg hmode]
        have hlt : tcks < 16 := by
          rcases hwhy with h' | h'
          · exact absurd h' hmode
          · exact h'
        rw [if_pos (Nat.div_eq_of_lt hlt), Nat.mod_eq_of_lt hlt]
    obtain ⟨ops, ho, -, hc⟩ := idle_loop_spec env tcks jtag
    refine ⟨_, ops, hrun, idle_loop_tapstate env tcks jtag, by rw [ho], hc, ?_⟩
    rw [hc]
    have e : (List.replicate tcks ((0 : Nat), (0 : Nat), (0 : Nat))).map tmsLevel
        = List.replicate tcks false := by
      rw [List.map_replicate]; rfl
    rw [e]
    exact tapWalk_zeros_fixed _ hS tcks ht

theorem runtest_tracked_state_witness :
    ∃ (j2 : jtag_info) (ops : List Event),
      npcm_jtag_runtest ready_env 0 (sample_jtag MODE_GPIO false JtagTLR) 1 true true
        = .ok (0, j2) ∧
      j2.tapstate = JtagTLR ∧ j2.log = ops ∧ cyclesOf ops = [(0, 0, 0)] ∧
      tapWalk JtagTLR ((cyclesOf ops).map tmsLevel) = JtagRTI :=
  ⟨_, _, rfl,
    (runtest_tracked_state ready_env 0 (sample_jtag MODE_GPIO false JtagTLR) 1 true true
      rfl (by decide) (by decide)).1 0 _ rfl,
    rfl, rfl, rfl⟩

theorem completions_append (a b : List Event) :
    completions (a ++ b) = completions a + completions b := by
  induction a with
  | nil => simp [completions]
  | cons e rest ih => cases e <;> simp [completions, ih, Nat.add_assoc]

@[simp] theorem completions_emit (j : jtag_info) (e : Event) (h : e ≠ .complete) :
    completions (j.emit e).log = completions j.log := by
  cases e <;> simp_all [jtag_info.emit, completions_append, completions]

@[simp] theorem completions_readb (env : Env) (j : jtag_info) (reg : Nat) :
    completions (readb env j reg).2.log = completions j.log := by
  simp [readb]

@[simp] theorem completions_readw (env : Env) (j : jtag_info) (reg : Nat) :
    completions (readw env j reg).2.log = completions j.log := by
  simp [readw]

@[simp] theorem completions_writeb (j : jtag_info) (reg v : Nat) :
    completions (writeb j reg v).log = completions j.log := by
  simp [writeb]

@[simp] theorem completions_writew (j : jtag_info) (reg v : Nat) :
    completions (writew j reg v).log = completions j.log := by
  simp [writew]

@[simp] theorem completions_complete (j : jtag_info) :
    completions (complete j).log = completions j.log + 1 := by
  simp [complete, jtag_info.emit, completions_append, completions]

@[simp] theorem complete_rx_bytes (j : jtag_info) :
    (complete j).pspi.rx_bytes = j.pspi.rx_bytes := rfl

@[simp] theorem completions_pspi_send (env : Env) (j : jtag_info) :
    completions (pspi_send env j).2.log = completions j.log := by
  unfold pspi_send
  simp only
  split
  · rfl
  · split
    · simp
    · split <;> simp

@[simp] theorem pspi_send_rx_bytes (env : Env) (j : jtag_info) :
    (pspi_send env j).2.pspi.rx_bytes = j.pspi.rx_bytes := by
  unfold pspi_send
  simp only
  split
  · rfl
  · split
    · rfl
    · split <;> rfl

@[simp] theorem completions_pspi_recv (env : Env) (j : jtag_info) :
    completions (pspi_recv env j).2.log = completions j.log := by
  unfold pspi_recv
  simp only
  split
  · rfl
  · split <;> simp [readb, readw, jtag_info.emit, completions_append, completions]

@[simp] theorem completions_xfer_setup (env : Env) (j : jtag_info)
    (tx rx : Nat → Nat) (tb rb n : Nat) :
    completions (pspi_xfer_setup env j tx tb rx rb n).2.2.log = completions j.log := by
  simp [pspi_xfer_setup]

/-- One invocation of the interrupt handler signals the completion once when
the status shows a full receive buffer and nothing is left to receive after
the unit the invocation read, and not at all otherwise. -/
theorem irq_handler_completions (env : Env) (j : jtag_info) :
    completions (pspi_irq_handler env j).log =
      completions j.log +
        (if (readb env (j.emit .irq) PSPI_STAT).1 &&& (1 <<< PSPI_STAT_RBF) ≠ 0 ∧
            (pspi_irq_handler env j).pspi.rx_bytes = 0 then 1 else 0) := by
  have tail_rx : ∀ (c : Prop) [Decidable c] (x : jtag_info),
      (if c then (if x.pspi.tx_bytes ≠ 0 then (pspi_send env x).2 else x) else x).pspi.rx_bytes
        = x.pspi.rx_bytes := by
    intro c _ x
    split
    · split
      · simp
      · rfl
    · rfl
  have tail_c : ∀ (c : Prop) [Decidable c] (x : jtag_info),
      completions
        (if c then (if x.pspi.tx_bytes ≠ 0 then (pspi_send env x).2 else x) else x).log
        = completions x.log := by
    intro c _ x
    split
    · split
      · simp
      · rfl
    · rfl
  have hc : completions (if (readb env (j.emit .irq) PSPI_STAT).2.pspi.rx_bytes ≠ 0
      then (pspi_recv env (readb env (j.emit .irq) PSPI_STAT).2).2
      else (readb env (j.emit .irq) PSPI_STAT).2).log = completions j.log := by
    split <;> simp
  unfold pspi_irq_handler
  simp only
  rw [tail_rx, tail_c]
  by_cases hrbf : (readb env (j.emit .irq) PSPI_STAT).1 &&& (1 <<< PSPI_STAT_RBF) ≠ 0
  · simp only [if_pos hrbf]
    by_cases hrx : (if (readb env (j.emit .irq) PSPI_STAT).2.pspi.rx_bytes ≠ 0
        then (pspi_recv env (readb env (j.emit .irq) PSPI_STAT).2).2
        else (readb env (j.emit .irq) PSPI_STAT).2).pspi.rx_bytes = 0
    · simp only [if_pos hrx]
      rw [completions_complete, hc, complete_rx_bytes, if_pos ⟨hrbf, hrx⟩]
    · simp only [if_neg hrx]
      rw [hc, if_neg (fun h => hrx h.2)]
      rfl
  · simp only [if_neg hrbf]
    rw [if_neg (fun h => hrbf h.1)]
    simp

/-- A run of `k` invocations of the interrupt handler, whatever the status
register shows at each: the counters go down by the units read and written,
and the completion is signalled only with nothing left to receive. -/
theorem irq_run_spec (env : Env) (k : Nat) (j : jtag_info)
    (hm : j.pspi.mode = BIT_MODE_16) :
    ∃ R W : Nat, XferStep j ((pspi_irq_handler env)^[k] j) R W ∧
      ((pspi_irq_handler env)^[k] j).pspi.mode = BIT_MODE_16 ∧
      (completions ((pspi_irq_handler env)^[k] j).log ≠ completions j.log →
        ((pspi_irq_handler env)^[k] j).pspi.rx_bytes = 0) := by
  induction k with
  | zero => exact ⟨0, 0, XferStep.xfer_refl j, hm, fun h => absurd rfl h⟩
  | succ k ih =>
    obtain ⟨R, W, hs, hmk, hc⟩ := ih
    rw [Function.iterate_succ_apply']
    obtain ⟨r, w, hs1, -, -, -, -⟩ := pspi_irq_handler_spec env _ hmk
    have hm1 : (pspi_irq_handler env ((pspi_irq_handler env)^[k] j)).pspi.mode = BIT_MODE_16 := by
      obtain ⟨⟨ops, hf, -, -⟩, -, -, -⟩ := hs1
      exact hf.2.2.2.2.2.2.2.1.trans hmk
    refine ⟨R + r, W + w, hs.xfer_trans hs1, hm1, ?_⟩
    intro hne
    have hcount := irq_handler_completions env ((pspi_irq_handler env)^[k] j)
    by_cases hif : (readb env (((pspi_irq_handler env)^[k] j).emit .irq) PSPI_STAT).1 &&&
          (1 <<< PSPI_STAT_RBF) ≠ 0 ∧
        (pspi_irq_handler env ((pspi_irq_handler env)^[k] j)).pspi.rx_bytes = 0
    · exact hif.2
    · rw [if_neg hif, Nat.add_zero] at hcount
      rw [hcount] at hne
      have h0 := hc hne
      have := hs1.2.1
      omega

/-- The state in which the wait for the completion ends is reached by a
number of handler invocations within the fuel, and has the completion
signalled. -/
theorem wait_iterate (env : Env) :
    ∀ (fuel : Nat) (j j2 : jtag_info), wait_for_completion env fuel j = .ok j2 →
      ∃ i : Nat, i ≤ fuel ∧ j2 = (pspi_irq_handler env)^[i] j ∧ j2.pspi.xfer_done = true := by
  intro fuel
  induction fuel with
  | zero =>
    intro j j2 h
    rw [wait_for_completion] at h
    split at h
    · rename_i hd
      cases h
      exact ⟨0, Nat.le_refl 0, rfl, hd⟩
    · exact Except.noConfusion h
  | succ fuel ih =>
    intro j j2 h
    rw [wait_for_completion] at h
    split at h
    · rename_i hd
      cases h
      exact ⟨0, Nat.zero_le _, rfl, hd⟩
    · obtain ⟨i, hi, he, hd⟩ := ih _ _ h
      exact ⟨i + 1, by omega, by rw [Function.iterate_succ_apply]; exact he, hd⟩

/-- C21: the interrupt-driven transfer of `n` bytes with the 16-bit unit, `n`
a positive multiple of 2.  `pspi_xfer`, finding the channel idle, sets both
counters to `n`, sends the first unit and waits: it returns 0 from the state
that some number of handler invocations within the fuel reaches.  After any
number `k` of invocations of `pspi_irq_handler`, whatever the status register
shows at each: `tx_bytes` and `rx_bytes` are even; `tx_bytes` plus the bytes
written to the data register since the call began is `n`, and `rx_bytes`
plus the bytes read from it is `n`, so neither counter wraps and at most `n`
bytes are sent and at most `n` received; if the completion has been signalled,
`rx_bytes` is 0 and all `n` bytes have been read.  Invocation `k + 1` signals
the completion once if the status shows the receive flag and `rx_bytes` is 0
after its receive, and not at all otherwise; it receives at most one unit and
sends at most one, sends only with `tx_bytes >= 2`, and does send when the
status shows the channel idle and `tx_bytes >= 2`. -/
theorem irq_transfer_accounting (env : Env) (jtag j0 jk : jtag_info)
    (tx rx : Nat → Nat) (tb rb n k : Nat)
    (hm : jtag.pspi.mode = BIT_MODE_16) (hn : 0 < n) (hdvd : n % 2 = 0)
    (hj0 : j0 = (pspi_send env (pspi_xfer_setup env jtag tx tb rx rb n).2.2).2)
    (hjk : jk = (pspi_irq_handler env)^[k] j0) :
    (∀ fuel : Nat,
      pspi_xfer env fuel jtag (some tx) tb (some rx) rb n =
        if (pspi_xfer_setup env jtag tx tb rx rb n).2.1 &&& (1 <<< PSPI_STAT_BSY) = 0 then
          match wait_for_completion env fuel j0 with
          | .error f => .error f
          | .ok j => .ok (0, writew j PSPI_CTL1
              (clear_bits (pspi_xfer_setup env jtag tx tb rx rb n).1 (1 <<< PSPI_CTL1_EIR)))
        else .ok (-EBUSY, writew (pspi_xfer_setup env jtag tx tb rx rb n).2.2 PSPI_CTL1
              (clear_bits (pspi_xfer_setup env jtag tx tb rx rb n).1 (1 <<< PSPI_CTL1_EIR)))) ∧
    (∀ (fuel : Nat) (j : jtag_info), wait_for_completion env fuel j0 = .ok j →
      ∃ i : Nat, i ≤ fuel ∧ j = (pspi_irq_handler env)^[i] j0 ∧ j.pspi.xfer_done = true) ∧
    2 ∣ jk.pspi.tx_bytes ∧ 2 ∣ jk.pspi.rx_bytes ∧
    (∃ ops : List Event, jk.log = jtag.log ++ ops ∧
      jk.pspi.tx_bytes + 2 * dataWrites ops = n ∧
      jk.pspi.rx_bytes + 2 * dataReads ops = n ∧
      1 ≤ dataWrites ops ∧
      (completions ops ≠ 0 ∨ jk.pspi.xfer_done = true →
        jk.pspi.rx_bytes = 0 ∧ 2 * dataReads ops = n)) ∧
    completions (pspi_irq_handler env jk).log =
      completions jk.log +
        (if (readb env (jk.emit .irq) PSPI_STAT).1 &&& (1 <<< PSPI_STAT_RBF) ≠ 0 ∧
            (pspi_irq_handler env jk).pspi.rx_bytes = 0 then 1 else 0) ∧
    (∃ (r w : Nat) (ops : List Event),
      (pspi_irq_handler env jk).log = jk.log ++ ops ∧
      dataReads ops = r ∧ dataWrites ops = w ∧ r ≤ 1 ∧ w ≤ 1 ∧
      (pspi_irq_handler env jk).pspi.rx_bytes + 2 * r = jk.pspi.rx_bytes ∧
      (pspi_irq_handler env jk).pspi.tx_bytes + 2 * w = jk.pspi.tx_bytes ∧
      (r = 1 → (readb env (jk.emit .irq) PSPI_STAT).1 &&& (1 <<< PSPI_STAT_RBF) ≠ 0) ∧
      (w = 1 → 2 ≤ jk.pspi.tx_bytes) ∧
      ((readb env (jk.emit .irq) PSPI_STAT).1 &&& (1 <<< PSPI_STAT_BSY) = 0 →
        2 ≤ jk.pspi.tx_bytes → w = 1)) := by
  obtain ⟨hs, hstx, hsrx, hsdone, hsm⟩ := pspi_xfer_setup_spec env jtag tx rx tb rb n
  have hsm16 : (pspi_xfer_setup env jtag tx tb rx rb n).2.2.pspi.mode = BIT_MODE_16 :=
    hsm.trans hm
  obtain ⟨w0, hsend, -, -, hw0⟩ := pspi_send_spec env _ hsm16
  have hn2 : 2 ≤ n := by omega
  rw [hstx, if_neg (by omega)] at hw0
  have hm0 : j0.pspi.mode = BIT_MODE_16 := by
    obtain ⟨⟨ops, hf, -, -⟩, -, -, -⟩ := hsend
    rw [hj0]
    exact hf.2.2.2.2.2.2.2.1.trans hsm16
  obtain ⟨R, W, hrun, hmk, hcomp⟩ := irq_run_spec env k j0 hm0
  rw [← hjk] at hrun hmk hcomp
  rw [← hj0] at hsend
  have hall := hsend.xfer_trans hrun
  obtain ⟨hhw, hrx, htx, hdone⟩ := hall
  obtain ⟨opsA, hfA, hrA, hwA⟩ := hs.hw_trans hhw
  refine ⟨?_, ?_, ?_, ?_, ?_, ?_, ?_⟩
  · intro fuel
    unfold pspi_xfer
    simp only [hm]
    rw [if_neg (by omega), if_neg (by decide),
      if_neg (show ¬ n % BIT_MODE_16 ≠ 0 from by simpa [BIT_MODE_16] using hdvd), ← hj0]
  · intro fuel j h
    exact wait_iterate env fuel j0 j h
  · rw [hstx] at htx; omega
  · rw [hsrx] at hrx; omega
  · refine ⟨opsA, hfA.1, ?_, ?_, ?_, ?_⟩
    · rw [hstx] at htx; omega
    · rw [hsrx] at hrx; omega
    · omega
    · intro hc
      have h0 : jk.pspi.rx_bytes = 0 := by
        rcases hc with hc | hc
        · apply hcomp
          intro he
          have e1 : completions jk.log = completions jtag.log + completions opsA := by
            rw [hfA.1, completions_append]
          have e2 : completions j0.log = completions jtag.log := by
            rw [hj0]; simp
          omega
        · rcases hdone hc with h | h
          · rw [hsdone] at h; exact Bool.noConfusion h
          · exact h
      rw [hsrx] at hrx
      exact ⟨h0, by omega⟩
  · exact irq_handler_completions env jk
  · obtain ⟨r, w, ⟨⟨ops, hf, hr, hw⟩, hrx1, htx1, -⟩, hr1, hw1, hrbf, hidle⟩ :=
      pspi_irq_handler_spec env jk hmk
    exact ⟨r, w, ops, hf.1, hr, hw, hr1, hw1, hrx1, htx1, hrbf, fun h => by omega, hidle⟩

theorem irq_transfer_accounting_witness :
    2 ∣ ((pspi_irq_handler ready_env)^[2]
        (pspi_send ready_env (pspi_xfer_setup ready_env (sample_jtag MODE_PSPI true JtagShfDR)
          (fun _ => 0) 0 (fun _ => 0) 0 4).2.2).2).pspi.tx_bytes ∧
    ∃ ops : List Event,
      ((pspi_irq_handler ready_env)^[2]
        (pspi_send ready_env (pspi_xfer_setup ready_env (sample_jtag MODE_PSPI true JtagShfDR)
          (fun _ => 0) 0 (fun _ => 0) 0 4).2.2).2).log
        = (sample_jtag MODE_PSPI true JtagShfDR).log ++ ops ∧
      ((pspi_irq_handler ready_env)^[2]
        (pspi_send ready_env (pspi_xfer_setup ready_env (sample_jtag MODE_PSPI true JtagShfDR)
          (fun _ => 0) 0 (fun _ => 0) 0 4).2.2).2).pspi.tx_bytes + 2 * dataWrites ops = 4 ∧
      ((pspi_irq_handler ready_env)^[2]
        (pspi_send ready_env (pspi_xfer_setup ready_env (sample_jtag MODE_PSPI true JtagShfDR)
          (fun _ => 0) 0 (fun _ => 0) 0 4).2.2).2).pspi.rx_bytes + 2 * dataReads ops = 4 ∧
      1 ≤ dataWrites ops ∧
      (completions ops ≠ 0 ∨
        ((pspi_irq_handler ready_env)^[2]
          (pspi_send ready_env (pspi_xfer_setup ready_env (sample_jtag MODE_PSPI true JtagShfDR)
            (fun _ => 0) 0 (fun _ => 0) 0 4).2.2).2).pspi.xfer_done = true →
        ((pspi_irq_handler ready_env)^[2]
          (pspi_send ready_env (pspi_xfer_setup ready_env (sample_jtag MODE_PSPI true JtagShfDR)
            (fun _ => 0) 0 (fun _ => 0) 0 4).2.2).2).pspi.rx_bytes = 0 ∧
        2 * dataReads ops = 4) :=
  ⟨(irq_transfer_accounting ready_env (sample_jtag MODE_PSPI true JtagShfDR) _ _
      (fun _ => 0) (fun _ => 0) 0 0 4 2 rfl (by decide) rfl rfl rfl).2.2.1,
    (irq_transfer_accounting ready_env (sample_jtag MODE_PSPI true JtagShfDR) _ _
      (fun _ => 0) (fun _ => 0) 0 0 4 2 rfl (by decide) rfl rfl rfl).2.2.2.2.1⟩

end NpcmJtag
